import Mathlib

/-!
# Herbgrind: symbolic expressions, variable maps, marks, the reporter and the instrumenter

A shallow embedding of the parts of Herbgrind that build and generalise the
per-op-site symbolic expression (`src/types/hg_ast.c`), of the op tracker that
writes the report (`src/runtime/hg_op_tracker.c`), of the mark engine
(`src/runtime/op-shadowstate/marks.c`) and of the instrumentation of
temporaries, thread state and memory (`src/instrument/instrument-storage.c`,
`src/instrument/ownership.c`).

Conventions of the embedding.

* A pointer into a table (an `Op_Info*`, an `OpASTNode*`) is the index of the
  object in a list that stands for the heap; `NULL` is `none`.
* A function that can stop the process (a failed `tl_assert`, an index outside
  an `XArray`, a `NULL` that is dereferenced) returns `Option`; `none` is that
  stop.
* A Valgrind hash table (`VgHashTable`) is the list of its nodes, newest first:
  `VG_(HT_add_node)` links a node at the head of its chain and
  `VG_(HT_lookup)` returns the first node of the chain with the key. (A table
  is re-chained only when it outgrows its 769 initial chains.) The order in
  which `VG_(HT_Next)` enumerates a table depends on the addresses of the keys;
  a table that is enumerated is a list in some order, and the general results
  hold for every order.
* An `XArray` is a list: `VG_(indexXA)` is a bounds-checked read, `VG_(addToXA)`
  appends and returns the old size, `VG_(removeIndexXA)` erases one index.
* `hg_ast.c` calls `copySV(src, &p)` with the address of a pointer `p` to a
  shadow value (hg_ast.c:40, 236, 273) and then reads `p`: the call makes `p`
  refer to `src`, and `copySV(NULL, &p)` clears `p`, as the comment at
  hg_ast.c:270 says. This is the reference copy that `copySL` of
  `hg_shadowvals.c` performs for locations; the `copySV` of `hg_shadowvals.c`
  itself, which copies one value into another, has a different signature and
  belongs to an earlier state of these files.
-/

namespace Herbgrind

/-! ## Values -/

/-- The `mpfr_t value` of a shadow value, seen through the two roundings the
expression code applies to it: `dbl` is the bit pattern of
`mpfr_get_d(value, MPFR_RNDN)` and `flt` the bit pattern of
`mpfr_get_flt(value, MPFR_RNDN)`. -/
structure ShadowValue where
  dbl : Nat
  flt : Nat
deriving DecidableEq, Repr

/-- Whether a 64-bit pattern is an IEEE-754 binary64 NaN. -/
def isNaN64 (b : Nat) : Bool :=
  (b / 2 ^ 52) % 2 ^ 11 == 2047 && b % 2 ^ 52 != 0

/-- Whether a 64-bit pattern is +0.0 or -0.0. -/
def isZero64 (b : Nat) : Bool :=
  b % 2 ^ 63 == 0

/-- The C comparison `x == y` of two doubles given by their bit patterns:
false when either is a NaN, true for the two zeros, otherwise equality of
the patterns. -/
def doubleEq (x y : Nat) : Bool :=
  !isNaN64 x && !isNaN64 y &&
    (x % 2 ^ 64 == y % 2 ^ 64 || (isZero64 x && isZero64 y))

/-! ## Hash tables and the variable maps -/

/-- The chain walk of `VG_(HT_lookup)`: the first node with the key. -/
def HT_lookup : List (Nat × Nat) → Nat → Option Nat
  | [], _ => none
  | (k, v) :: rest, key => if k = key then some v else HT_lookup rest key

/-- `inOpVarMap` (hg_ast.c:412): is the node a cell of some group. -/
def inOpVarMap (haystack : List (List Nat)) (needle : Nat) : Bool :=
  haystack.any (fun varGroup => varGroup.any (fun cell => cell == needle))

/-- `checkOpVarMapValueLookupTableMatch` (hg_ast.c:429), the invariant checker
that `generalizeVarMap` runs first: every cell of the op variable map must have
an entry in the lookup table (first `tl_assert`) and every key of the lookup
table must be a cell of the op variable map (second `tl_assert`). The printing
in between has no effect on the state. -/
def checkOpVarMapValueLookupTableMatch (opVarMap : List (List Nat))
    (valueLookupTable : List (Nat × Nat)) : Option Unit :=
  if opVarMap.all (fun varGroup =>
      varGroup.all (fun cell => (HT_lookup valueLookupTable cell).isSome)) then
    if valueLookupTable.all (fun opEntry => inOpVarMap opVarMap opEntry.1) then
      some ()
    else none
  else none

/-- The inner loop of `generalizeVarMap` (hg_ast.c:524-564) for group `i`,
from index `j`. The first argument bounds the number of times the loop
condition is evaluated (`none` when it is used up; `splitGroup` passes the
size of the group, which is enough). Each round reads `curNode` at index `j`
of group `i`, looks its trace index up (a missing entry is dereferenced: stop) and then
either opens a new group for it at the end of the map, or moves it to the
group the split map names, or leaves it; after a removal `j--` followed by
`++j` keeps `j`. -/
def splitLoop (valueLookupTable : List (Nat × Nat)) (i : Nat) :
    Nat → Nat → List (List Nat) → List (Nat × Nat) → Option (List (List Nat))
  | 0, _, _, _ => none
  | fuel + 1, j, opVarMap, splitMap =>
    match opVarMap[i]? with
    | none => none
    | some varGroup =>
      match varGroup[j]? with
      | none => some opVarMap
      | some curNode =>
        match HT_lookup valueLookupTable curNode with
        | none => none
        | some varidx =>
          match HT_lookup splitMap varidx with
          | none =>
            let newIndex := opVarMap.length
            let opVarMap1 := opVarMap ++ [[curNode]]
            let splitMap1 := (varidx, newIndex) :: splitMap
            splitLoop valueLookupTable i fuel j
              (opVarMap1.set i (varGroup.eraseIdx j)) splitMap1
          | some val =>
            if val ≠ i then
              match opVarMap[val]? with
              | none => none
              | some target =>
                let opVarMap1 := opVarMap.set val (target ++ [curNode])
                splitLoop valueLookupTable i fuel j
                  (opVarMap1.set i (varGroup.eraseIdx j)) splitMap
            else
              splitLoop valueLookupTable i fuel (j + 1) opVarMap splitMap

/-- The body of the outer loop of `generalizeVarMap` (hg_ast.c:478-568) for
group `i`: the first leaf of the group seeds a fresh split map with its trace
index, then the rest of the group is split. An empty group fails the bounds
check of `VG_(indexXA)(*varGroupEntry, 0)`; a first leaf without a trace
index is dereferenced as `NULL`. -/
def splitGroup (valueLookupTable : List (Nat × Nat)) (i : Nat)
    (opVarMap : List (List Nat)) : Option (List (List Nat)) :=
  match opVarMap[i]? with
  | none => none
  | some varGroup =>
    match varGroup[0]? with
    | none => none
    | some firstNode =>
      match HT_lookup valueLookupTable firstNode with
      | none => none
      | some varidx =>
        splitLoop valueLookupTable i varGroup.length 1 opVarMap [(varidx, i)]

/-- The outer loop `for (i = 0; i < initialOpVarMapSize; ++i)`: the first
argument is the number of groups still to visit. -/
def groupLoop (valueLookupTable : List (Nat × Nat)) :
    Nat → Nat → List (List Nat) → Option (List (List Nat))
  | 0, _, opVarMap => some opVarMap
  | remaining + 1, i, opVarMap =>
    match splitGroup valueLookupTable i opVarMap with
    | none => none
    | some opVarMap1 => groupLoop valueLookupTable remaining (i + 1) opVarMap1

/-- `generalizeVarMap` (hg_ast.c:462) once the trace map has been turned into
the lookup table over op nodes (`opLookupTable`): the invariant check, then
one pass over the groups that were there at the start. -/
def generalizeVarMapWith (opVarMap : List (List Nat))
    (valueLookupTable : List (Nat × Nat)) : Option (List (List Nat)) :=
  match checkOpVarMapValueLookupTableMatch opVarMap valueLookupTable with
  | none => none
  | some _ => groupLoop valueLookupTable opVarMap.length 0 opVarMap

/-! ## Expression trees -/

/-- A leaf `ValueASTNode` as it is reached through a `key` pointer of a value
variable map: the two fields the code reads through the pointer, the shadow
value the leaf belongs to (`leaf->val`) and its value source (`leaf->op`). -/
structure ValueLeaf where
  val : ShadowValue
  op : Nat
deriving DecidableEq, Repr

/-- Modelled from the spec: the declaration of `ValVarMapEntry` (`hg_ast.h`)
is not among the source files. A node of a value variable map, with the two
fields `hg_ast.c` uses besides the chain link: `key`, a leaf of the trace,
and `varidx`, the variable index the leaf has in this trace. -/
structure ValVarMapEntry where
  key : ValueLeaf
  varidx : Nat
deriving DecidableEq, Repr

/-- Modelled from the spec: the declaration of `ValueASTNode` (`hg_ast.h`) is
not among the source files. The expression tree of one dynamic value, with
the fields `hg_ast.c` uses: the value it belongs to (`val`), the op that
produced it (`op`), the trees of its arguments (`args`; `nargs` is their
number) and its variable map (`var_map`), listed in the order in which
`VG_(HT_Next)` enumerates it (a leaf has none: the empty list). Every
constructor of the source sets `ast->val` (hg_ast.c:21, 155, 209), so `val`
is always there. -/
inductive ValueASTNode where
  | mk (val : ShadowValue) (op : Nat) (args : List ValueASTNode)
      (var_map : List ValVarMapEntry)

/-- The field `val` of a value tree. -/
def ValueASTNode.val : ValueASTNode → ShadowValue
  | .mk val _ _ _ => val

/-- The field `op` of a value tree. -/
def ValueASTNode.op : ValueASTNode → Nat
  | .mk _ op _ _ => op

/-- The field `args` of a value tree. -/
def ValueASTNode.args : ValueASTNode → List ValueASTNode
  | .mk _ _ args _ => args

/-- The field `var_map` of a value tree. -/
def ValueASTNode.var_map : ValueASTNode → List ValVarMapEntry
  | .mk _ _ _ var_map => var_map

/-- Modelled from the spec: the declaration of `Op_Info` (`hg_opinfo.h`) is
not among the source files. The tag of an op: `Op_Leaf` for a value source,
which `initValVarMap` tests for (hg_ast.c:65), and `Op_Branch` for an
operation. -/
inductive OpTag where
  | Op_Branch
  | Op_Leaf
deriving DecidableEq, Repr

/-- Modelled from the spec: the declaration of the error record of an op
(`hg_opinfo.h`) is not among the source files. The fields are those
`hg_op_tracker.c` reads from `opinfo->evalinfo`: the largest error seen and
the sum of the errors, in bits, both printed with `%f` and so C doubles, and
the number of evaluations, printed with `%lu`. A double is modelled by the
rational number it denotes. -/
structure Eval_Info where
  max_error : ℚ := 0
  total_error : ℚ := 0
  num_calls : Nat := 0
deriving DecidableEq, Repr

/-- Modelled from the spec: the declaration of `Op_Info` (`hg_opinfo.h`) is not
among the source files. The fields are those the expression code and the op
tracker use: the tag, the printed symbol (`debuginfo.symbol`), the
persistent expression `ast` (`NULL` until the first value is seen) and the
error record `evalinfo`. -/
structure Op_Info where
  tag : OpTag
  symbol : List Char
  ast : Option Nat
  evalinfo : Eval_Info := {}
deriving DecidableEq, Repr

/-- Modelled from the spec: the declaration of `OpASTNode` (`hg_ast.h`) is not
among the source files; the spec gives the variant `Leaf { value }` or
`Branch { op, args, var_map }` and `hg_ast.c` the fields `nd.Leaf.val`,
`nd.Branch.op`, `nd.Branch.nargs`, `nd.Branch.args` and
`nd.Branch.var_map`. A leaf holds a constant (`some`) or is a variable
(`val == NULL`); a branch holds its op, the addresses of its children and its
variable map: an array of groups of leaf addresses, the index of a group
being the variable. -/
inductive OpASTNode where
  | Leaf (val : Option ShadowValue)
  | Branch (op : Nat) (nargs : Nat) (args : List Nat) (var_map : List (List Nat))
deriving DecidableEq, Repr

/-- The objects the expression code allocates and mutates: the op infos and
the persistent expression nodes, each addressed by its index. -/
structure Heap where
  ops : List Op_Info
  nodes : List OpASTNode
deriving DecidableEq, Repr

/-- Overwrite the node at an address. -/
def Heap.setNode (h : Heap) (n : Nat) (node : OpASTNode) : Heap :=
  { h with nodes := h.nodes.set n node }

/-- The assignment `op->ast = n`. -/
def Heap.setOpAst (h : Heap) (op : Nat) (n : Nat) : Heap :=
  { h with ops := match h.ops[op]? with
      | none => h.ops
      | some info => h.ops.set op { info with ast := some n } }

/-- `convertValASTtoOpAST` (hg_ast.c:300) on a leaf of the trace, as
`opvarmapFromValvarmap` and `opLookupTable` call it on the keys of a value
variable map: the expression already recorded for the leaf's value source is
shared. A leaf whose source has no expression yet would be rebuilt as a
branch from its `NULL` variable map, which `VG_(HT_ResetIter)` refuses:
stop. -/
def convertLeafKey (h : Heap) (key : ValueLeaf) : Option Nat :=
  match h.ops[key.op]? with
  | none => none
  | some info => info.ast

/-- `opvarmapFromValvarmap` (hg_ast.c:362), continued from the groups built so
far: for each entry of the value map, groups are created up to its index and
the op node of its key is added to the group of that index. -/
def opvarmapFromValvarmap (h : Heap) :
    List ValVarMapEntry → List (List Nat) → Option (List (List Nat))
  | [], opVarMap => some opVarMap
  | valEntry :: rest, opVarMap =>
    let opVarMap1 :=
      opVarMap ++ List.replicate (valEntry.varidx + 1 - opVarMap.length) []
    match opVarMap1[valEntry.varidx]? with
    | none => none
    | some varGroup =>
      match convertLeafKey h valEntry.key with
      | none => none
      | some opNode =>
        opvarmapFromValvarmap h rest
          (opVarMap1.set valEntry.varidx (varGroup ++ [opNode]))

/-- `opLookupTable` (hg_ast.c:388), continued from the table built so far:
each entry of the value map is re-keyed by the op node of its leaf and added
to the table. -/
def opLookupTable (h : Heap) :
    List ValVarMapEntry → List (Nat × Nat) → Option (List (Nat × Nat))
  | [], lookupTable => some lookupTable
  | valEntry :: rest, lookupTable =>
    match convertLeafKey h valEntry.key with
    | none => none
    | some key => opLookupTable h rest ((key, valEntry.varidx) :: lookupTable)

/-- `generalizeVarMap` (hg_ast.c:462): the trace map is turned into a lookup
table over op nodes and the op variable map is split against it. -/
def generalizeVarMap (h : Heap) (opVarMap : List (List Nat))
    (valVarMap : List ValVarMapEntry) : Option (List (List Nat)) :=
  match opLookupTable h valVarMap [] with
  | none => none
  | some valueLookupTable => generalizeVarMapWith opVarMap valueLookupTable

mutual
/-- `convertValASTtoOpAST` (hg_ast.c:300): the expression already recorded for
the op of the value is shared; otherwise a branch is allocated, its children
are converted in order, its variable map is copied from the value and the
branch is recorded as the expression of the op. -/
def convertValASTtoOpAST (h : Heap) : ValueASTNode → Option (Heap × Nat)
  | .mk _ op args var_map =>
    match h.ops[op]? with
    | none => none
    | some info =>
      match info.ast with
      | some n => some (h, n)
      | none =>
        let result := h.nodes.length
        let h1 : Heap := { h with nodes := h.nodes ++ [.Branch op args.length [] []] }
        match convertArgs h1 args with
        | none => none
        | some (h2, children) =>
          match opvarmapFromValvarmap h2 var_map [] with
          | none => none
          | some opVarMap =>
            some ((h2.setNode result
              (.Branch op args.length children opVarMap)).setOpAst op result, result)
/-- The loop over the children in `convertValASTtoOpAST` (hg_ast.c:320). -/
def convertArgs (h : Heap) : List ValueASTNode → Option (Heap × List Nat)
  | [] => some (h, [])
  | a :: rest =>
    match convertValASTtoOpAST h a with
    | none => none
    | some (h1, n) =>
      match convertArgs h1 rest with
      | none => none
      | some (h2, ns) => some (h2, n :: ns)
end

mutual
/-- `generalizeAST` (hg_ast.c:260). At a leaf: a variable stays, a constant
stays when the trace value compares equal to it as a double and is cleared
otherwise (`copySV(NULL, &(opast->nd.Leaf.val))`). At a branch: when the trace
node comes from another op the node is overwritten in place by a variable
leaf (`initOpLeafAST(opast, NULL)`); otherwise the variable map is
generalised and the children are generalised in order. Op pointers are
indices here, so the guard `opast->nd.Branch.op != NULL` always holds; a
trace node always has its value (`valast->val`), so the guard
`valast->val == NULL` never does. -/
def generalizeAST (h : Heap) (opast : Nat) : ValueASTNode → Option Heap
  | .mk val op args var_map =>
    match h.nodes[opast]? with
    | none => none
    | some (.Leaf none) => some h
    | some (.Leaf (some c)) =>
      if doubleEq val.dbl c.dbl then some h
      else some (h.setNode opast (.Leaf none))
    | some (.Branch bop nargs bargs bvar_map) =>
      if op ≠ bop then some (h.setNode opast (.Leaf none))
      else
        match generalizeVarMap h bvar_map var_map with
        | none => none
        | some opVarMap =>
          generalizeArgs (h.setNode opast (.Branch bop nargs bargs opVarMap))
            opast 0 args
/-- The loop `for (i = 0; i < valast->nargs; ++i)` of `generalizeAST`
(hg_ast.c:293), from index `i`: child `i` of the branch is read from the node
and generalised against argument `i` of the trace. A branch with fewer
children than the trace has arguments is read out of bounds: stop. -/
def generalizeArgs (h : Heap) (opast : Nat) (i : Nat) : List ValueASTNode → Option Heap
  | [] => some h
  | a :: rest =>
    match h.nodes[opast]? with
    | some (.Branch _ _ bargs _) =>
      match bargs[i]? with
      | none => none
      | some child =>
        match generalizeAST h child a with
        | none => none
        | some h1 => generalizeArgs h1 opast (i + 1) rest
    | _ => none
end

/-- `updateAST` (hg_ast.c:239) with `print_expr_updates` off: the first value
seen at an op is converted and becomes the expression of the op; every later
one generalises that expression. -/
def updateAST (h : Heap) (op : Nat) (trace_ast : ValueASTNode) : Option Heap :=
  match h.ops[op]? with
  | none => none
  | some info =>
    match info.ast with
    | none =>
      match convertValASTtoOpAST h trace_ast with
      | none => none
      | some (h1, result) => some (h1.setOpAst op result)
    | some n => generalizeAST h n trace_ast

/-- The calls `updateAST(op, v1); ...; updateAST(op, vk)` in sequence. -/
def updateASTs (h : Heap) (op : Nat) : List ValueASTNode → Option Heap
  | [] => some h
  | v :: rest =>
    match updateAST h op v with
    | none => none
    | some h1 => updateASTs h1 op rest

/-- Two doubles given by their bit patterns are the same value: they compare
equal in C, or they are the same pattern (a NaN is the same value as
itself although it does not compare equal). -/
def sameDouble (x y : Nat) : Bool :=
  doubleEq x y || x % 2 ^ 64 == y % 2 ^ 64

mutual
/-- The site expression at address `n` is a generalisation of the trace
expression: a variable leaf fits every trace node, a constant leaf fits a
trace node with the same double value, and a branch fits a trace node that
comes from the same op and whose arguments are fitted, position by position,
by the children of the branch. -/
def fits (h : Heap) (n : Nat) : ValueASTNode → Bool
  | .mk val op args _ =>
    match h.nodes[n]? with
    | none => false
    | some (.Leaf none) => true
    | some (.Leaf (some c)) => sameDouble val.dbl c.dbl
    | some (.Branch bop _ bargs _) => decide (op = bop) && fitsArgs h bargs 0 args
/-- The children `bargs[i], bargs[i+1], ...` fit the arguments listed. -/
def fitsArgs (h : Heap) (bargs : List Nat) (i : Nat) : List ValueASTNode → Bool
  | [] => true
  | a :: rest =>
    (match bargs[i]? with
      | none => false
      | some child => fits h child a) && fitsArgs h bargs (i + 1) rest
end

/-- The expression recorded for an op (`op->ast`). -/
def Heap.opAst (h : Heap) (op : Nat) : Option Nat :=
  match h.ops[op]? with
  | none => none
  | some info => info.ast
/-! ## Building the variable map of a value -/

/-- The key under which `registerLeaf` files a leaf: the bytes of the `float`
copied into a zeroed word (hg_ast.c:111-112), that is the 32-bit pattern of
the value rounded to `float`. -/
def valKey (leaf : ValueLeaf) : Nat :=
  leaf.val.flt % 2 ^ 32

/-- The state that `registerLeaf` updates through its pointer arguments: the
index counter, the map from float patterns to indices and the variable map
under construction. -/
structure VarMapBuild where
  idx_counter : Nat
  val_to_idx : List (Nat × Nat)
  var_map : List ValVarMapEntry
deriving DecidableEq, Repr

/-- `registerLeaf` (hg_ast.c:90): a float pattern not seen before takes the
next index; the leaf is entered in the variable map with the index of its
pattern. -/
def registerLeaf (leaf : ValueLeaf) (st : VarMapBuild) : VarMapBuild :=
  match HT_lookup st.val_to_idx (valKey leaf) with
  | none =>
    { idx_counter := st.idx_counter + 1
      val_to_idx := (valKey leaf, st.idx_counter) :: st.val_to_idx
      var_map := { key := leaf, varidx := st.idx_counter } :: st.var_map }
  | some varidx =>
    { st with var_map := { key := leaf, varidx := varidx } :: st.var_map }

/-- The inner loop of `initValVarMap` (hg_ast.c:76) over the variable map of a
branch argument. -/
def registerEntries : List ValVarMapEntry → VarMapBuild → VarMapBuild
  | [], st => st
  | entry :: rest, st => registerEntries rest (registerLeaf entry.key st)

/-- The loop of `initValVarMap` (hg_ast.c:61) over the arguments: an argument
whose op is a leaf is registered itself, a branch argument contributes the
keys of its own variable map. -/
def initValVarMapArgs (h : Heap) : List ValueASTNode → VarMapBuild → Option VarMapBuild
  | [], st => some st
  | arg :: rest, st =>
    match h.ops[arg.op]? with
    | none => none
    | some info =>
      if info.tag = OpTag.Op_Leaf then
        initValVarMapArgs h rest (registerLeaf { val := arg.val, op := arg.op } st)
      else
        initValVarMapArgs h rest (registerEntries arg.var_map st)

/-- `initValVarMap` (hg_ast.c:55) on the fresh, empty `var_map` that
`initValueBranchAST` has just constructed: the table it leaves behind, newest
entry first. -/
def initValVarMap (h : Heap) (args : List ValueASTNode) : Option (List ValVarMapEntry) :=
  match initValVarMapArgs h args { idx_counter := 0, val_to_idx := [], var_map := [] } with
  | none => none
  | some st => some st.var_map

/-- The leaves that `initValVarMap` registers, in the order of registration. -/
def registeredLeaves (h : Heap) : List ValueASTNode → Option (List ValueLeaf)
  | [] => some []
  | arg :: rest =>
    match h.ops[arg.op]? with
    | none => none
    | some info =>
      match registeredLeaves h rest with
      | none => none
      | some ls =>
        if info.tag = OpTag.Op_Leaf then some ({ val := arg.val, op := arg.op } :: ls)
        else some (arg.var_map.map (fun e => e.key) ++ ls)

/-- `initValueBranchAST` (hg_ast.c:16): the tree of a value produced by
`opinfo` from the values whose trees are `args`. Its variable map is listed
newest entry first, one of the orders in which it can be enumerated. -/
def initValueBranchAST (h : Heap) (val : ShadowValue) (opinfo : Nat)
    (args : List ValueASTNode) : Option ValueASTNode :=
  match initValVarMap h args with
  | none => none
  | some var_map => some (.mk val opinfo args var_map)

/-- The tree of a leaf value (`initValueLeafAST`, hg_ast.c:150) linked to the
value source `src`: no arguments and no variable map. -/
def leafValueAST (val : ShadowValue) (src : Nat) : ValueASTNode :=
  .mk val src [] []

/-! ## Printing an expression -/

/-- The table `varNames` (hg_ast.c:594). -/
def varNames : List (List Char) :=
  [['x'], ['y'], ['z'], ['w'], ['a'], ['b'], ['c'], ['d']]

/-- The buffer size `MAX_AST_STR_LEN` (hg_ast.c:14). -/
def MAX_AST_STR_LEN : Nat := 256

/-- The rows of one group in `flipOpVarMap`: each cell mapped to the row
number. -/
def flipRow (i : Nat) : List Nat → List (Nat × Nat) → List (Nat × Nat)
  | [], result => result
  | cell :: rest, result => flipRow i rest ((cell, i) :: result)

/-- The loop over the rows in `flipOpVarMap`, from row `i`. -/
def flipRows : Nat → List (List Nat) → List (Nat × Nat) → List (Nat × Nat)
  | _, [], result => result
  | i, row :: rest, result => flipRows (i + 1) rest (flipRow i row result)

/-- `flipOpVarMap` (hg_ast.c:576): the map from each leaf to the index of its
group. -/
def flipOpVarMap (opVarMap : List (List Nat)) : List (Nat × Nat) :=
  flipRows 0 opVarMap []

/-- The loop over the children in `opASTtoExprwithVarMap` (hg_ast.c:706): the
string of each child, printed by `sub`, preceded by a space. -/
def subexprsToExpr (sub : Nat → Option (List Char)) : List Nat → Option (List Char)
  | [] => some []
  | arg :: rest =>
    match sub arg with
    | none => none
    | some subexpr =>
      match subexprsToExpr sub rest with
      | none => none
      | some more => some ([' '] ++ subexpr ++ more)

/-- `opASTtoExprwithVarMap` (hg_ast.c:670). The first argument bounds the
depth of the walk (`none` when it is used up); `fmt` renders the `%f` of a
constant from its double pattern. A variable prints as `x` without a map, as
`XXX` when the map has no entry for it and otherwise as the first character
of `varNames[varidx]`, which does not exist for an index of 8 or more:
stop. The pieces of a branch are written one after the other into the
256-byte buffer, so the string is what fits in 255 characters. -/
def opASTtoExprwithVarMap (h : Heap) (fmt : Nat → List Char) :
    Nat → Nat → Option (List (Nat × Nat)) → Option (List Char)
  | 0, _, _ => none
  | fuel + 1, opAST, varMap =>
    match h.nodes[opAST]? with
    | none => none
    | some (.Leaf none) =>
      match varMap with
      | none => some (['x'].take 1)
      | some map =>
        match HT_lookup map opAST with
        | none => some ['X', 'X', 'X']
        | some varidx =>
          match varNames[varidx]? with
          | none => none
          | some name => some (name.take 1)
    | some (.Leaf (some c)) => some ((fmt c.dbl).take (MAX_AST_STR_LEN - 1))
    | some (.Branch op _ args _) =>
      match h.ops[op]? with
      | none => none
      | some info =>
        match subexprsToExpr
            (fun arg => opASTtoExprwithVarMap h fmt fuel arg varMap) args with
        | none => none
        | some subexprs =>
          some ((['('] ++ info.symbol ++ subexprs ++ [')']).take (MAX_AST_STR_LEN - 1))

/-- `opASTtoExpr` (hg_ast.c:649): a branch is printed with its variable map
flipped, a leaf without a map. -/
def opASTtoExpr (h : Heap) (fmt : Nat → List Char) (fuel : Nat) (opAST : Nat) :
    Option (List Char) :=
  match h.nodes[opAST]? with
  | none => none
  | some (.Branch _ _ _ var_map) =>
    opASTtoExprwithVarMap h fmt fuel opAST (some (flipOpVarMap var_map))
  | some (.Leaf _) => opASTtoExprwithVarMap h fmt fuel opAST none


/-- `inXArray` (hg_ast.c:596). -/
def inXArray (haystack : List Nat) (needle : Nat) : Bool :=
  haystack.any (fun entry => entry == needle)

/-- The loop over the children in `getUsedIndices` (hg_ast.c:622): each child
is walked by `sub` with the indices collected so far. -/
def usedIndicesOfArgs (sub : List Nat → Nat → Option (List Nat)) :
    List Nat → List Nat → Option (List Nat)
  | acc, [] => some acc
  | acc, arg :: rest =>
    match sub acc arg with
    | none => none
    | some acc1 => usedIndicesOfArgs sub acc1 rest

/-- `getUsedIndices` (hg_ast.c:606): the indices of the variable leaves of the
tree, in the order of the walk and without repetition. The first argument
bounds the depth of the walk (`none` when it is used up). A variable leaf
that the map does not know only prints a message. -/
def getUsedIndices (h : Heap) (varMap : List (Nat × Nat)) :
    Nat → List Nat → Nat → Option (List Nat)
  | 0, _, _ => none
  | fuel + 1, acc, opAST =>
    match h.nodes[opAST]? with
    | none => none
    | some (.Leaf none) =>
      match HT_lookup varMap opAST with
      | none => some acc
      | some varIdx => if !inXArray acc varIdx then some (acc ++ [varIdx]) else some acc
    | some (.Leaf (some _)) => some acc
    | some (.Branch _ _ args _) =>
      usedIndicesOfArgs (fun acc1 arg => getUsedIndices h varMap fuel acc1 arg) acc args

/-- `usedVars` (hg_ast.c:629). The result is an array of pointers into
`varNames`; the pointer `&(varNames[k])` is the index `k`. No bound is put on
the index: it may point outside the table. -/
def usedVars (h : Heap) (fuel : Nat) (opAST : Nat) : Option (List Nat) :=
  match h.nodes[opAST]? with
  | none => none
  | some (.Leaf none) => some [0]
  | some (.Leaf (some _)) => some []
  | some (.Branch _ _ _ var_map) => getUsedIndices h (flipOpVarMap var_map) fuel [] opAST

/-- The binder string of `opASTtoBench` (hg_ast.c:730): the first character of
the name each pointer of `vars` points to, separated by spaces. A pointer
outside `varNames` is dereferenced outside the table: stop. -/
def binderString : List Nat → Option (List Char)
  | [] => some []
  | [v] =>
    match varNames[v]? with
    | none => none
    | some name => some (name.take 1)
  | v :: rest =>
    match varNames[v]? with
    | none => none
    | some name =>
      match binderString rest with
      | none => none
      | some more => some (name.take 1 ++ [' '] ++ more)

/-- `opASTtoBench` (hg_ast.c:717): the FPCore form of an expression, its
binders being the variables `usedVars` returns. The buffer is allocated for
the exact length. -/
def opASTtoBench (h : Heap) (fmt : Nat → List Char) (fuel : Nat) (opAST : Nat) :
    Option (List Char) :=
  match usedVars h fuel opAST with
  | none => none
  | some vars =>
    match binderString vars with
    | none => none
    | some binders =>
      match opASTtoExpr h fmt fuel opAST with
      | none => none
      | some exprString =>
        some ("(FPCore (".toList ++ binders ++ [')', Char.ofNat 10] ++
          "  :type binary64".toList ++ [Char.ofNat 10] ++ "  ".toList ++ exprString ++ [')'])
/-! ## The op tracker and the report -/

/-- The conversion of a C `double` to `Int`: the fraction is discarded
(truncation toward zero). -/
def doubleToInt (x : ℚ) : Int :=
  Int.tdiv x.num x.den

/-- `cmp_debuginfo` (hg_op_tracker.c:78): the difference of the two maximum
errors, a `double`, returned as `Int`. The subtraction is modelled on the
rationals, without the rounding of binary64. -/
def cmp_debuginfo (a b : Op_Info) : Int :=
  doubleToInt (b.evalinfo.max_error - a.evalinfo.max_error)

/-- The expression of an op site as the tracker reads it. The tracker only
reads; the nodes it reaches from a site form a finite tree, because the
children of a node are linked when the node is built, to nodes that exist
already (hg_ast.c:320), and are never linked again. -/
inductive OpASTTree where
  | Leaf (val : Option ShadowValue)
  | Branch (op : Nat) (args : List OpASTTree)

/-- The trees of the nodes listed, each read by `sub`. -/
def expandArgs (sub : Nat → Option OpASTTree) : List Nat → Option (List OpASTTree)
  | [] => some []
  | arg :: rest =>
    match sub arg with
    | none => none
    | some t =>
      match expandArgs sub rest with
      | none => none
      | some ts => some (t :: ts)

/-- The tree reached from a node of the heap, to the depth given (`none` when
the depth is used up or an address is invalid). -/
def expandAST (h : Heap) : Nat → Nat → Option OpASTTree
  | 0, _ => none
  | fuel + 1, n =>
    match h.nodes[n]? with
    | none => none
    | some (.Leaf val) => some (.Leaf val)
    | some (.Branch op _ args _) =>
      match expandArgs (expandAST h fuel) args with
      | none => none
      | some ts => some (.Branch op ts)

/-- `clearTrackedOp` (hg_op_tracker.c:55): the first entry of the list that is
this op is set to `NULL`; `NULL` entries are skipped. -/
def clearTrackedOp : List (Option Nat) → Nat → List (Option Nat)
  | [], _ => []
  | none :: rest, opinfo => none :: clearTrackedOp rest opinfo
  | some entry :: rest, opinfo =>
    if entry = opinfo then none :: rest
    else some entry :: clearTrackedOp rest opinfo

mutual
/-- `recursivelyClearChildren` (hg_op_tracker.c:66): nothing at a leaf; at a
branch each child is walked and then, when it is a branch, its op is cleared
from the list. -/
def recursivelyClearChildren (tracked_ops : List (Option Nat)) :
    OpASTTree → List (Option Nat)
  | .Leaf _ => tracked_ops
  | .Branch _ args => clearChildren tracked_ops args
/-- The loop over the children in `recursivelyClearChildren`. -/
def clearChildren (tracked_ops : List (Option Nat)) :
    List OpASTTree → List (Option Nat)
  | [] => tracked_ops
  | .Leaf val :: rest =>
    clearChildren (recursivelyClearChildren tracked_ops (.Leaf val)) rest
  | .Branch op args :: rest =>
    clearChildren
      (clearTrackedOp (recursivelyClearChildren tracked_ops (.Branch op args)) op) rest
end

/-- The pruning loop of `writeReport` (hg_op_tracker.c:105): for
`i + 1 = size, ..., 1` entry `i` is read; a `NULL` entry is skipped, and the
expression of any other is walked. An op without an expression is read
through a `NULL` pointer: stop. `astOf` gives the expression of each op. -/
def pruneLoop (astOf : Nat → Option OpASTTree) :
    Nat → List (Option Nat) → Option (List (Option Nat))
  | 0, tracked_ops => some tracked_ops
  | i + 1, tracked_ops =>
    match tracked_ops[i]? with
    | some (some opinfo) =>
      match astOf opinfo with
      | none => none
      | some ast => pruneLoop astOf i (recursivelyClearChildren tracked_ops ast)
    | _ => pruneLoop astOf i tracked_ops

/-- The pruning pass of `writeReport` (hg_op_tracker.c:101): it runs only
when `report_exprs` is set. -/
def pruneTrackedOps (report_exprs : Bool) (astOf : Nat → Option OpASTTree)
    (tracked_ops : List (Option Nat)) : Option (List (Option Nat)) :=
  if report_exprs then pruneLoop astOf tracked_ops.length tracked_ops
  else some tracked_ops

mutual
/-- The ops of the branch nodes that lie strictly below the root of a
tree. -/
def subOps : OpASTTree → List Nat
  | .Leaf _ => []
  | .Branch _ args => subOpsArgs args
/-- The ops of the branch nodes at or below the trees listed. -/
def subOpsArgs : List OpASTTree → List Nat
  | [] => []
  | .Leaf _ :: rest => subOpsArgs rest
  | .Branch op args :: rest => op :: (subOpsArgs args ++ subOpsArgs rest)
end

/-- The texts that the conversions of the report format strings produce for
one op: `astString` for the expression and, in the order of the arguments,
`%s` of the plain op name, of the function name and of the file name, `%u` of
the line, `%lX` of the address, `%f` of the average and of the maximum error
and `%lu` of the number of calls. -/
structure EntryTexts where
  astString : List Char
  plain_opname : List Char
  fnname : List Char
  src_filename : List Char
  src_line : List Char
  op_addr : List Char
  avg_error : List Char
  max_error : List Char
  num_calls : List Char
deriving DecidableEq, Repr

/-- The size `ENTRY_BUFFER_SIZE` of the entry buffer (hg_op_tracker.c:44). -/
def ENTRY_BUFFER_SIZE : Nat := 512

/-- The bytes of an entry that reach the file: `VG_(snprintf)` fills the
buffer with at most `ENTRY_BUFFER_SIZE - 1` characters and a terminating
zero and returns the number of bytes it used, and `VG_(write)` writes that
many bytes. -/
def snprintfEntry (s : List Char) : List Char :=
  if s.length < ENTRY_BUFFER_SIZE then s
  else s.take (ENTRY_BUFFER_SIZE - 1) ++ [Char.ofNat 0]

/-- The fields common to the two machine-readable format strings
(hg_op_tracker.c:150-157 and 180-187), from `(plain-name` up to the end of
the line. -/
def machineFields (t : EntryTexts) : List Char :=
  "(plain-name \"".toList ++ t.plain_opname ++ "\") ".toList ++
  "(function \"".toList ++ t.fnname ++ "\") ".toList ++
  "(filename \"".toList ++ t.src_filename ++ "\") ".toList ++
  "(line-num ".toList ++ t.src_line ++ ") ".toList ++
  "(instr-addr ".toList ++ t.op_addr ++ ") ".toList ++
  "(avg-error ".toList ++ t.avg_error ++ ") ".toList ++
  "(max-error ".toList ++ t.max_error ++ ") ".toList ++
  "(num-calls ".toList ++ t.num_calls ++ "))\n".toList

/-- The fields common to the two human-readable format strings
(hg_op_tracker.c:131-134 and 165-168). -/
def humanFields (t : EntryTexts) : List Char :=
  t.plain_opname ++ " in ".toList ++ t.fnname ++ " at ".toList ++ t.src_filename ++
  ":".toList ++ t.src_line ++ " (address ".toList ++ t.op_addr ++ ")\n".toList ++
  t.avg_error ++ " bits average error\n".toList ++
  t.max_error ++ " bits max error\n".toList ++
  "Aggregated over ".toList ++ t.num_calls ++ " instances\n\n".toList

/-- The entry that `writeReport` writes for one op (hg_op_tracker.c:126-198),
for each setting of `report_exprs` and `human_readable`. -/
def reportEntry (report_exprs human_readable : Bool) (t : EntryTexts) : List Char :=
  snprintfEntry
    (if report_exprs then
      if human_readable then t.astString ++ "\n".toList ++ humanFields t
      else "((expr ".toList ++ t.astString ++ ") ".toList ++ machineFields t
    else
      if human_readable then humanFields t
      else machineFields t)

/-- The nesting depth after the text, starting from depth `d`; `none` when a
closing parenthesis has no opening one. -/
def parenDepth : List Char → Nat → Option Nat
  | [], d => some d
  | c :: cs, d =>
    if c = '(' then parenDepth cs (d + 1)
    else if c = ')' then
      match d with
      | 0 => none
      | d' + 1 => parenDepth cs d'
    else parenDepth cs d

/-- The parentheses of the text are balanced. -/
def balanced (s : List Char) : Bool :=
  parenDepth s 0 == some 0

/-- The text is one parenthesised list followed by the end of the line: it
opens with a parenthesis that is closed by the last character before the
newline and by no character before that one. -/
def singleListLine : List Char → Bool
  | '(' :: rest =>
    match rest.reverse with
    | '\n' :: ')' :: inner => balanced inner.reverse && !inner.contains '\n'
    | _ => false
  | _ => false

/-- The texts of the record shown in the specification: `(+ x y)`, op `fadd`
in `add` at `file.c:42`, address `401ABC`, errors `0.7` and `1.3` over 12
calls. -/
def sampleTexts : EntryTexts :=
  { astString := "(+ x y)".toList
    plain_opname := "fadd".toList
    fnname := "add".toList
    src_filename := "file.c".toList
    src_line := "42".toList
    op_addr := "401ABC".toList
    avg_error := "0.700000".toList
    max_error := "1.300000".toList
    num_calls := "12".toList }

/-! ## Marks (`src/runtime/op-shadowstate/marks.c`) -/

namespace Marks

/-- Modelled from the spec: the declaration of the error aggregate that
`marks.c` works on (`marks.h`) is not among the source files. The fields are
those `marks.c` uses: `eagg.max_error`, `eagg.total_error` and
`eagg.num_evals`. The two errors are C doubles, modelled by the rational
number they denote; `num_evals` is a `long long`. -/
structure ErrorAggregate where
  max_error : ℚ
  total_error : ℚ
  num_evals : Int
deriving DecidableEq, Repr

/-- Modelled from the spec: the declaration of `MarkInfo` (`marks.h`) is not
among the source files. A mark site with the fields `marks.c` uses: the
address of the call, the influences merged so far (`NULL` is `none`), the
error aggregate and the generalised expression (a pointer, `NULL` is
`none`). -/
structure MarkInfo where
  addr : Nat
  influences : Option (List Nat)
  eagg : ErrorAggregate
  expr : Option Nat
deriving DecidableEq, Repr

/-- Modelled from the spec: the declaration of `ShadowValue` (`shadowval.h`)
is not among the source files. The fields of a shadow value that the marks
read: its real, its expression and its influences. -/
structure ShadowValue where
  real : ℚ
  expr : Option Nat
  influences : Option (List Nat)
deriving DecidableEq, Repr

/-- Modelled from the spec: the declarations of the options (`options.h`) are
not among the source files. The options that the marks consult:
`no_influences`, `no_exprs` and `error_threshold`. -/
structure Options where
  no_influences : Bool
  no_exprs : Bool
  error_threshold : ℚ
deriving DecidableEq, Repr

/-- The functions that `marks.c` calls and whose source is not among the
files, taken as parameters: `updateError` (the updated aggregate and the
error of this evaluation), `inPlaceMergeInfluences` and
`generalizeSymbolicExpr`. -/
structure Helpers where
  updateError : ErrorAggregate → ℚ → ℚ → ErrorAggregate × ℚ
  inPlaceMergeInfluences : Option (List Nat) → Option (List Nat) → Option (List Nat)
  generalizeSymbolicExpr : Option Nat → Nat → Option Nat

/-- The value of a `long long` after an arithmetic result `x`: reduced to 64
bits, two's complement. -/
def wrapLongLong (x : Int) : Int :=
  (x + 2 ^ 63) % 2 ^ 64 - 2 ^ 63

/-- `VG_(HT_lookup)(markMap, callAddr)`: the first mark site with the
address. -/
def lookupMark : List MarkInfo → Nat → Option MarkInfo
  | [], _ => none
  | info :: rest, callAddr =>
    if info.addr = callAddr then some info else lookupMark rest callAddr

/-- `getMarkInfo` (marks.c:125): the mark site of the address, created with
`max_error = -1`, `total_error = 0`, `num_evals = 0` and no influences when
there is none yet. The new site is cut from fresh permanent memory, whose
`expr` field is zero. -/
def getMarkInfo (markMap : List MarkInfo) (callAddr : Nat) : List MarkInfo × MarkInfo :=
  match lookupMark markMap callAddr with
  | some markInfo => (markMap, markInfo)
  | none =>
    let markInfo : MarkInfo :=
      { addr := callAddr, influences := none,
        eagg := { max_error := -1, total_error := 0, num_evals := 0 },
        expr := none }
    (markInfo :: markMap, markInfo)

/-- The writes through the pointer that `getMarkInfo` returned: the first
mark site with the address is replaced. -/
def storeMark : List MarkInfo → MarkInfo → List MarkInfo
  | [], _ => []
  | info :: rest, new =>
    if info.addr = new.addr then new :: rest else info :: storeMark rest new

/-- `markImportant` (marks.c:58). `callAddr` is the result of `getCallAddr()`,
`val` the result of `getMemShadow(varAddr)` and `hostValue` the double at
`varAddr`. Without a shadow value the diagnostic is printed, a negative
`max_error` is raised to zero and `num_evals` is incremented. With one, the
error is folded in, the influences are merged when the error reaches the
threshold, and the expression is generalised unless `no_exprs` is set; the
`tl_assert` on the expression of the value can stop the process. -/
def markImportant (opts : Options) (hp : Helpers) (markMap : List MarkInfo)
    (callAddr : Nat) (val : Option ShadowValue) (hostValue : ℚ) :
    Option (List MarkInfo) :=
  if opts.no_influences then some markMap
  else
    let (markMap1, info) := getMarkInfo markMap callAddr
    match val with
    | none =>
      let info1 : MarkInfo :=
        if info.eagg.max_error < 0 then
          { info with eagg := { info.eagg with max_error := 0 } }
        else info
      let info2 : MarkInfo :=
        { info1 with eagg :=
            { info1.eagg with num_evals := wrapLongLong (info1.eagg.num_evals + 1) } }
      some (storeMark markMap1 info2)
    | some v =>
      let (eagg1, thisError) := hp.updateError info.eagg v.real hostValue
      let info1 : MarkInfo := { info with eagg := eagg1 }
      let info2 : MarkInfo :=
        if thisError ≥ opts.error_threshold then
          { info1 with influences := hp.inPlaceMergeInfluences info1.influences v.influences }
        else info1
      if !opts.no_exprs then
        match v.expr with
        | none => none
        | some e =>
          some (storeMark markMap1
            { info2 with expr := hp.generalizeSymbolicExpr info2.expr e })
      else some (storeMark markMap1 info2)

/-- `maybeMarkImportant` (marks.c:42): as `markImportant`, except that an
address without a shadow value leaves everything as it is. -/
def maybeMarkImportant (opts : Options) (hp : Helpers) (markMap : List MarkInfo)
    (callAddr : Nat) (val : Option ShadowValue) (hostValue : ℚ) :
    Option (List MarkInfo) :=
  if opts.no_influences then some markMap
  else
    match val with
    | none => some markMap
    | some v =>
      let (markMap1, info) := getMarkInfo markMap callAddr
      let (eagg1, thisError) := hp.updateError info.eagg v.real hostValue
      let info1 : MarkInfo := { info with eagg := eagg1 }
      let info2 : MarkInfo :=
        if thisError ≥ opts.error_threshold then
          { info1 with influences := hp.inPlaceMergeInfluences info1.influences v.influences }
        else info1
      if !opts.no_exprs then
        match v.expr with
        | none => none
        | some e =>
          some (storeMark markMap1
            { info2 with expr := hp.generalizeSymbolicExpr info2.expr e })
      else some (storeMark markMap1 info2)

/-- Modelled from the spec: the declaration of `IntMarkInfo` (`marks.h`) is
not among the source files. An integer-coercion site with the fields
`marks.c` uses: the address of the call, the merged influences, the two
counters, the kind of the mark, the per-argument expressions (the array that
`getIntMarkInfo` allocates) and the largest number of values seen. The
counters and `nargs` are C integers whose declared width is not known here;
they are modelled by the integers, without overflow. -/
structure IntMarkInfo where
  addr : Nat
  influences : Option (List Nat)
  num_hits : Int
  num_mismatches : Int
  markType : String
  exprs : List (Option Nat)
  nargs : Int
deriving DecidableEq, Repr

/-- `VG_(HT_lookup)(intMarkMap, callAddr)`: the first site with the address. -/
def lookupIntMark : List IntMarkInfo → Nat → Option IntMarkInfo
  | [], _ => none
  | info :: rest, callAddr =>
    if info.addr = callAddr then some info else lookupIntMark rest callAddr

/-- `getIntMarkInfo` (marks.c:107): the site of the address, created when
there is none yet with both counters zero, no influences and an `exprs` array
of two `NULL` entries. The new site is cut from fresh permanent memory, whose
`nargs` field is zero. -/
def getIntMarkInfo (intMarkMap : List IntMarkInfo) (callAddr : Nat) (markType : String) :
    List IntMarkInfo × IntMarkInfo :=
  match lookupIntMark intMarkMap callAddr with
  | some markInfo => (intMarkMap, markInfo)
  | none =>
    let markInfo : IntMarkInfo :=
      { addr := callAddr, influences := none, num_hits := 0, num_mismatches := 0,
        markType := markType, exprs := [none, none], nargs := 0 }
    (markInfo :: intMarkMap, markInfo)

/-- The writes through the pointer that `getIntMarkInfo` returned: the first
site with the address is replaced. -/
def storeIntMark : List IntMarkInfo → IntMarkInfo → List IntMarkInfo
  | [], _ => []
  | info :: rest, new =>
    if info.addr = new.addr then new :: rest else info :: storeIntMark rest new

/-- The first statement of the loop body in `markEscapeFromFloat`
(marks.c:97): with a non-zero `mismatch` the influences of `values[i]` are
merged into the site. `values[i]` is read where the array `values` has an
entry; outside of it the run stops. -/
def escapeMerge (hp : Helpers) (mismatch : Int) (values : List ShadowValue) (i : Nat)
    (info : IntMarkInfo) : Option IntMarkInfo :=
  if mismatch = 0 then some info
  else
    match values[i]? with
    | none => none
    | some v =>
      some { info with
        influences := hp.inPlaceMergeInfluences info.influences v.influences }

/-- The second statement of the loop body in `markEscapeFromFloat`
(marks.c:100): unless `no_exprs` is set, the expression of `values[i]` is
asserted to exist and `info->exprs[i]` is generalised against it. The slot
`exprs[i]` is read where the array has one; outside of it, and at a failed
`tl_assert`, the run stops. -/
def escapeGeneralize (opts : Options) (hp : Helpers) (values : List ShadowValue) (i : Nat)
    (info : IntMarkInfo) : Option IntMarkInfo :=
  if opts.no_exprs then some info
  else
    match values[i]? with
    | none => none
    | some v =>
      match v.expr with
      | none => none
      | some e =>
        match info.exprs[i]? with
        | none => none
        | some slot =>
          some { info with exprs := info.exprs.set i (hp.generalizeSymbolicExpr slot e) }

/-- The loop `for (i = 0; i < num_vals; ++i)` of `markEscapeFromFloat`
(marks.c:96), from index `i` with the first argument the number of rounds
left. -/
def escapeLoop (opts : Options) (hp : Helpers) (mismatch : Int)
    (values : List ShadowValue) : Nat → Nat → IntMarkInfo → Option IntMarkInfo
  | 0, _, info => some info
  | left + 1, i, info =>
    match escapeMerge hp mismatch values i info with
    | none => none
    | some info1 =>
      match escapeGeneralize opts hp values i info1 with
      | none => none
      | some info2 => escapeLoop opts hp mismatch values left (i + 1) info2

/-- `markEscapeFromFloat` (marks.c:83). `callAddr` is the result of
`getCallAddr()`. The site counts one hit, `mismatch` is added to
`num_mismatches`, `nargs` is raised to `num_vals`, and for each value the
influences are merged when `mismatch` is non-zero and the expression of the
slot is generalised unless `no_exprs` is set. -/
def markEscapeFromFloat (opts : Options) (hp : Helpers) (intMarkMap : List IntMarkInfo)
    (callAddr : Nat) (markType : String) (mismatch : Int) (num_vals : Int)
    (values : List ShadowValue) : Option (List IntMarkInfo) :=
  if opts.no_influences then some intMarkMap
  else
    let (intMarkMap1, info) := getIntMarkInfo intMarkMap callAddr markType
    let info1 : IntMarkInfo :=
      { info with num_hits := info.num_hits + 1
                  num_mismatches := info.num_mismatches + mismatch }
    let info2 : IntMarkInfo :=
      if info1.nargs < num_vals then { info1 with nargs := num_vals } else info1
    match escapeLoop opts hp mismatch values num_vals.toNat 0 info2 with
    | none => none
    | some info3 => some (storeIntMark intMarkMap1 info3)

/-- Modelled from the spec: the declaration of `SymbExpr` (`exprs.h`) is not
among the source files. A node of a symbolic expression with what `isSubexpr`
reads: its `type` (leaf or branch) and, for a branch, `branch.args`
(`branch.nargs` is their number). A pointer to a node is its index in the
list of nodes, `NULL` is `none`. -/
inductive SymbExpr where
  | Leaf
  | Branch (args : List (Option Nat))
deriving DecidableEq, Repr

/-- The fields of `ShadowOpInfo` (shadowop-info.h:54) that the influence
filter reads: the address of the op and its symbolic expression. -/
structure ShadowOpInfo where
  op_addr : Nat
  expr : Option Nat
deriving DecidableEq, Repr

/-- The loop over `haystack->branch.args` in `isSubexpr` (marks.c:149): the
first argument in which `sub` finds the needle ends the loop. -/
def anyArg (sub : Option Nat → Option Bool) : List (Option Nat) → Option Bool
  | [] => some false
  | arg :: rest =>
    match sub arg with
    | none => none
    | some true => some true
    | some false => anyArg sub rest

/-- `isSubexpr` (marks.c:144) with the depth as a natural number (a depth
below one is zero here). The pointers are compared first; a haystack that is
`NULL`, or not the address of a node, is then dereferenced: stop. -/
def isSubexpr (exprs : List SymbExpr) (needle : Option Nat) :
    Nat → Option Nat → Option Bool
  | 0, _ => some false
  | depth + 1, haystack =>
    if needle = haystack then some true
    else
      match haystack with
      | none => none
      | some p =>
        match exprs[p]? with
        | none => none
        | some .Leaf => some false
        | some (.Branch args) => anyArg (isSubexpr exprs needle depth) args

/-- The loop over `j` in `filterInfluenceSubexprs` (marks.c:161) for the
influence `influence`, over the entries of the list still to compare:
whether the `goto dont_keep_influence` is taken. An influence that is not the
address of an op info is dereferenced: stop. -/
def subexprOfOther (ops : List ShadowOpInfo) (exprs : List SymbExpr) (depth : Nat)
    (influence : Nat) : List Nat → Option Bool
  | [] => some false
  | otherInfluence :: rest =>
    if otherInfluence = influence then subexprOfOther ops exprs depth influence rest
    else
      match ops[influence]?, ops[otherInfluence]? with
      | some inf, some other =>
        match isSubexpr exprs inf.expr depth other.expr with
        | none => none
        | some true => some true
        | some false => subexprOfOther ops exprs depth influence rest
      | _, _ => none

/-- The loop over `i` in `filterInfluenceSubexprs` (marks.c:159) over the
entries still to visit; `data` is the whole list. -/
def filterLoop (ops : List ShadowOpInfo) (exprs : List SymbExpr) (depth : Nat)
    (data : List Nat) : List Nat → Option (List Nat)
  | [] => some []
  | influence :: rest =>
    match subexprOfOther ops exprs depth influence data with
    | none => none
    | some true => filterLoop ops exprs depth data rest
    | some false =>
      match filterLoop ops exprs depth data rest with
      | none => none
      | some result => some (influence :: result)

/-- `filterInfluenceSubexprs` (marks.c:156). `max_expr_block_depth` is the
option of that name; the depth handed to `isSubexpr` is twice its value. A
`NULL` list gives `NULL`. -/
def filterInfluenceSubexprs (ops : List ShadowOpInfo) (exprs : List SymbExpr)
    (max_expr_block_depth : Int) (influences : Option (List Nat)) :
    Option (Option (List Nat)) :=
  match influences with
  | none => some none
  | some data =>
    match filterLoop ops exprs (max_expr_block_depth * 2).toNat data data with
    | none => none
    | some result => some (some result)

/-- The expression of an influence (`influence->expr`); `none` also for an
influence that is not the address of an op info. -/
def exprOf (ops : List ShadowOpInfo) (influence : Nat) : Option Nat :=
  match ops[influence]? with
  | none => none
  | some info => info.expr

/-- The node `m` is found from the node `n` by descending `k` times from a
branch to one of its arguments. -/
inductive Descends (exprs : List SymbExpr) : Nat → Option Nat → Option Nat → Prop where
  | here (e : Option Nat) : Descends exprs 0 e e
  | step (p : Nat) (args : List (Option Nat)) (a : Option Nat) (k : Nat) (m : Option Nat) :
      exprs[p]? = some (.Branch args) → a ∈ args → Descends exprs k a m →
      Descends exprs (k + 1) (some p) m

/-- An `updateError` that counts the evaluation and reports the distance of
the two values: a stand-in for the helper in the concrete runs below. -/
def sampleHelpers : Helpers :=
  { updateError := fun eagg real host =>
      ({ eagg with total_error := eagg.total_error + |real - host|
                   num_evals := eagg.num_evals + 1 }, |real - host|)
    inPlaceMergeInfluences := fun a b =>
      match a, b with
      | none, b => b
      | some a, none => some a
      | some a, some b => some (a ++ b)
    generalizeSymbolicExpr := fun a e =>
      match a with
      | none => some e
      | some a => some a }

/-- A mark site at address 7 that has seen three evaluations. -/
def siteSeenThrice : MarkInfo :=
  { addr := 7
    influences := none
    eagg := { max_error := 2, total_error := 6, num_evals := 3 }
    expr := none }

/-- A shadow value with real 1 and the expression at address 0. -/
def shadowOne : ShadowValue :=
  { real := 1, expr := some 0, influences := none }

end Marks
/-! ## The instrumenter (`src/instrument/instrument-storage.c`, `ownership.c`)

The instrumentation functions append IR to the superblock `sbOut`; the IR
runs each time the block runs. The embedding follows the IR through one run
of the block: a function that emits IR acts on a `Block`, which holds the
static state of the instrumenter (`tempContext`, `tsContext`, `tempDebt`) and
the machine on which the emitted IR executes, and an `IRExpr*` that holds a
run-time quantity is the value it has when its statement executes. A C `if`
of the instrumenter reads the static state; a guarded statement (the helpers
whose name ends in `G`) reads its guard on the machine. The statements with an
effect (stores, pushes, helper calls) are also recorded, in the order of
emission, in `sbOut`. The debugging output (`PRINT_VALUE_MOVES`,
`PRINT_TYPES`) is off.

Memory is a map from addresses to 64-bit words. A pointer that the source
takes to be non-null (the argument of a `NonNull` function, the values of a
shadow temporary that exists) is dereferenced as it is. Where the emitted IR
tests a pointer against null and still stores through it when it is null
(`addExprDisownG`), that store is a fault of the run: the result is `none`.
-/

namespace Instrument

/-- Modelled from the spec: the declaration of `FloatType` is not among the
source files. The five static types of the spec, under the names the source
uses. -/
inductive FloatType where
  | Ft_Unknown
  | Ft_NonFloat
  | Ft_Unshadowed
  | Ft_Single
  | Ft_Double
deriving DecidableEq, Repr

/-- The VEX types of the IR values that reach the instrumenter. -/
inductive IRType where
  | Ity_I1
  | Ity_I8
  | Ity_I16
  | Ity_I32
  | Ity_I64
  | Ity_F32
  | Ity_F64
  | Ity_V128
deriving DecidableEq, Repr

/-- A flat VEX expression as an instrumentation function receives it: a
constant or the read of a temporary. -/
inductive IRExpr where
  | Const (ty : IRType) (con : Nat)
  | RdTmp (tmp : Nat)
deriving DecidableEq, Repr

/-- Modelled from the spec: the addresses of the tables and the offsets of the
fields that the emitted IR uses come from declarations that are not among the
source files; they are parameters. `shadowTemps` is the address of the array
of that name, `shadowThreadState` the address of the row
`shadowThreadState[VG_(get_running_tid)()]`; then `offsetof(ShadowTemp,
values)`, `offsetof(ShadowValue, ref_count)`, `offsetof(ShadowValue, expr)`,
`offsetof(ConcExpr, ref_count)`, `offsetof(ConcExpr, type)`, the value of the
enumerator `Node_Branch`, and the two free lists `freedVals` and
`leafCExprs`. -/
structure Layout where
  shadowTemps : Nat
  shadowThreadState : Nat
  values_off : Nat
  ref_count_off : Nat
  expr_off : Nat
  cexpr_ref_count_off : Nat
  cexpr_type_off : Nat
  Node_Branch : Nat
  freedVals : Nat
  leafCExprs : Nat
deriving DecidableEq, Repr

/-- The machine the emitted IR runs on: the 64-bit word at each address and
the content of each free list, newest entry first. -/
structure Machine where
  mem : Nat → Nat
  lists : Nat → List Nat

/-- An emitted statement with an effect, with the values its operands have
when it executes: a store, a guarded store, a guarded push on a free list and
a guarded call of a helper. -/
inductive IRStmt where
  | Store (addr data : Nat)
  | StoreG (guard : Bool) (addr data : Nat)
  | Push (guard : Bool) (stack item : Nat)
  | Dirty (guard : Bool) (name : String) (args : List Nat)
deriving DecidableEq, Repr

/-- The run-time helpers that the emitted IR calls and whose source is not
among the files, taken as parameters: what each does to the machine. -/
structure Runtime where
  freeBranchConcExpr : Nat → Machine → Machine
  dynamicPut64 : Nat → Nat → Machine → Machine
  dynamicPut128 : Nat → Nat → Machine → Machine

/-- The state that the instrumentation functions act on: the type of each
temporary (`sbOut->tyenv`), the static type of each temporary and of each
thread-state offset, the ownership ledger `tempDebt`, the statements with an
effect emitted so far and the machine. -/
structure Block where
  tyenv : Nat → IRType
  tempContext : Nat → FloatType
  tsContext : Nat → FloatType
  tempDebt : List Nat
  sbOut : List IRStmt
  machine : Machine

/-! ### The IR primitives

Modelled from the spec: the helpers of `helper/instrument-util.h` that build
single IR statements are not among the source files. Each is modelled by what
the statement it builds does when it executes, as its name says it. -/

/-- `Iop_Add64`. -/
def Iop_Add64 (a b : Nat) : Nat := (a + b) % 2 ^ 64

/-- `Iop_Sub64`. -/
def Iop_Sub64 (a b : Nat) : Nat := (a % 2 ^ 64 + 2 ^ 64 - b % 2 ^ 64) % 2 ^ 64

/-- `Iop_Mul64`. -/
def Iop_Mul64 (a b : Nat) : Nat := (a * b) % 2 ^ 64

/-- `Iop_CmpEQ64`. -/
def Iop_CmpEQ64 (a b : Nat) : Bool := a % 2 ^ 64 == b % 2 ^ 64

/-- Modelled from the spec: `runNonZeroCheck64` builds the test that a 64-bit
value is not zero. -/
def runNonZeroCheck64 (v : Nat) : Bool := !(Iop_CmpEQ64 v 0)

/-- Modelled from the spec: `runZeroCheck64` builds the test that a 64-bit
value is zero. -/
def runZeroCheck64 (v : Nat) : Bool := Iop_CmpEQ64 v 0

/-- Modelled from the spec: `runLoad64` and `runLoad64C` build the load of the
64-bit word at an address. -/
def runLoad64 (s : Block) (addr : Nat) : Nat := s.machine.mem addr

/-- Modelled from the spec: `runLoadG64` builds a guarded load; with a false
guard the loaded value is zero. -/
def runLoadG64 (s : Block) (addr : Nat) (guard : Bool) : Nat :=
  if guard then s.machine.mem addr else 0

/-- Modelled from the spec: the macro `runArrow(sbOut, p, T, field)` builds the
load of `p->field`, at `offsetof(T, field)` from `p`. -/
def runArrow (s : Block) (p field_off : Nat) : Nat :=
  runLoad64 s (Iop_Add64 p field_off)

/-- Modelled from the spec: the macro `runArrowG` builds the guarded load of
`p->field`. -/
def runArrowG (s : Block) (guard : Bool) (p field_off : Nat) : Nat :=
  runLoadG64 s (Iop_Add64 p field_off) guard

/-- Modelled from the spec: the macro `runIndex(sbOut, arr, T, i)` builds the
load of `arr[i]`, for elements of eight bytes. -/
def runIndex (s : Block) (arr i : Nat) : Nat :=
  runLoad64 s (Iop_Add64 arr (i * 8))

/-- Modelled from the spec: `addStore` and `addStoreC` build the store of a
word at an address. -/
def addStore (s : Block) (data addr : Nat) : Block :=
  { s with
    sbOut := s.sbOut ++ [.Store addr data]
    machine := { s.machine with mem := fun a => if a = addr then data else s.machine.mem a } }

/-- Modelled from the spec: `addStoreGC` builds a guarded store; with a false
guard memory is left as it is. -/
def addStoreG (s : Block) (guard : Bool) (data addr : Nat) : Block :=
  { s with
    sbOut := s.sbOut ++ [.StoreG guard addr data]
    machine :=
      { s.machine with
        mem := fun a => if guard && decide (a = addr) then data else s.machine.mem a } }

/-- Modelled from the spec: the macro `addStoreArrow(sbOut, p, T, field, v)`
builds the store `p->field = v`. -/
def addStoreArrow (s : Block) (p field_off data : Nat) : Block :=
  addStore s data (Iop_Add64 p field_off)

/-- Modelled from the spec: the macro `addStoreArrowG` builds the guarded
store `p->field = v`. -/
def addStoreArrowG (s : Block) (guard : Bool) (p field_off data : Nat) : Block :=
  addStoreG s guard data (Iop_Add64 p field_off)

/-- Modelled from the spec: `addStackPushG` builds the guarded push of an item
on a free list. -/
def addStackPushG (s : Block) (guard : Bool) (stack item : Nat) : Block :=
  { s with
    sbOut := s.sbOut ++ [.Push guard stack item]
    machine :=
      { s.machine with
        lists := fun k =>
          if guard && decide (k = stack) then item :: s.machine.lists k
          else s.machine.lists k } }

/-- A guarded call of a run-time helper (`IRStmt_Dirty`): with a false guard
the helper does not run. -/
def addDirtyG (s : Block) (guard : Bool) (name : String) (args : List Nat)
    (effect : Machine → Machine) : Block :=
  { s with
    sbOut := s.sbOut ++ [.Dirty guard name args]
    machine := if guard then effect s.machine else s.machine }

/-! ### Static type helpers

Modelled from the spec: the helpers that read the static types (`exprSize`,
`canHaveShadow`, `canBeFloat`, `hasStaticShadow`, `tempType`,
`tsAddrCanHaveShadow`, `tsHasStaticShadow`) are not among the source files.
They follow the meaning the spec gives to the five static types: `NonFloat`
is known not to hold a float, `Unshadowed` holds a float without a shadow,
`Single` and `Double` assert a shadow of that width, `Unknown` is checked at
run time. -/

/-- Modelled from the spec: the number of 4-byte units of a value of a type
(`typeSize`): one up to 32 bits, two for 64 bits, four for 128 bits. -/
def typeSize : IRType → Nat
  | .Ity_I64 => 2
  | .Ity_F64 => 2
  | .Ity_V128 => 4
  | _ => 1

/-- Modelled from the spec: the types wide enough to carry a float. -/
def isFloatType : IRType → Bool
  | .Ity_I32 => true
  | .Ity_I64 => true
  | .Ity_F32 => true
  | .Ity_F64 => true
  | .Ity_V128 => true
  | _ => false

/-- `typeOfIRExpr(sbOut->tyenv, e)`. -/
def typeOfIRExpr (s : Block) : IRExpr → IRType
  | .Const ty _ => ty
  | .RdTmp tmp => s.tyenv tmp

/-- Modelled from the spec: `exprSize(sbOut->tyenv, e)`, the number of 4-byte
units of the value of an expression. -/
def exprSize (s : Block) (e : IRExpr) : Nat :=
  typeSize (typeOfIRExpr s e)

/-- Modelled from the spec: `canBeFloat(sbOut->tyenv, e)`: the type can carry a
float and the expression is not a temporary known to hold none. -/
def canBeFloat (s : Block) : IRExpr → Bool
  | .Const ty _ => isFloatType ty
  | .RdTmp tmp => isFloatType (s.tyenv tmp) && s.tempContext tmp != .Ft_NonFloat

/-- Modelled from the spec: `canHaveShadow(sbOut->tyenv, e)`: the expression is
a temporary of a type that can carry a float, and it is not known to hold no
float or to hold a float without a shadow. -/
def canHaveShadow (s : Block) : IRExpr → Bool
  | .Const _ _ => false
  | .RdTmp tmp =>
    isFloatType (s.tyenv tmp) && s.tempContext tmp != .Ft_NonFloat &&
      s.tempContext tmp != .Ft_Unshadowed

/-- Modelled from the spec: `hasStaticShadow(e)`: the expression is a temporary
whose static type asserts a shadow. -/
def hasStaticShadow (s : Block) : IRExpr → Bool
  | .Const _ _ => false
  | .RdTmp tmp => s.tempContext tmp == .Ft_Single || s.tempContext tmp == .Ft_Double

/-- Modelled from the spec: `tempType(idx)`, the static type of a temporary. -/
def tempType (s : Block) (idx : Nat) : FloatType := s.tempContext idx

/-- Modelled from the spec: `tsAddrCanHaveShadow(addr)`: the thread-state
offset is not known to hold no float or a float without a shadow. -/
def tsAddrCanHaveShadow (s : Block) (addr : Nat) : Bool :=
  s.tsContext addr != .Ft_NonFloat && s.tsContext addr != .Ft_Unshadowed

/-- Modelled from the spec: `tsHasStaticShadow(addr)`: the static type of the
thread-state offset asserts a shadow. -/
def tsHasStaticShadow (s : Block) (addr : Nat) : Bool :=
  s.tsContext addr == .Ft_Single || s.tsContext addr == .Ft_Double

/-! ### Ownership (`ownership.c`) -/

/-- `resetOwnership` (ownership.c:66): the ledger is emptied. -/
def resetOwnership (s : Block) : Block :=
  { s with tempDebt := [] }

/-- `cleanupAtEndOfBlock` (ownership.c:72): the temporary is appended to the
ledger unless an entry of the ledger is that temporary. -/
def cleanupAtEndOfBlock (s : Block) (shadowed_temp : Nat) : Block :=
  if s.tempDebt.any (fun prevEntry => prevEntry == shadowed_temp) then s
  else { s with tempDebt := s.tempDebt ++ [shadowed_temp] }

/-- `addSVOwnNonNullG` (ownership.c:145). -/
def addSVOwnNonNullG (lay : Layout) (s : Block) (guard : Bool) (sv : Nat) : Block :=
  let prevRefCount := runArrowG s guard sv lay.ref_count_off
  let newRefCount := Iop_Add64 prevRefCount 1
  addStoreArrowG s guard sv lay.ref_count_off newRefCount

/-- `addSVOwnNonNull` (ownership.c:155). -/
def addSVOwnNonNull (lay : Layout) (s : Block) (sv : Nat) : Block :=
  let prevRefCount := runArrow s sv lay.ref_count_off
  let newRefCount := Iop_Add64 prevRefCount 1
  addStoreArrow s sv lay.ref_count_off newRefCount

/-- `addSVOwn` (ownership.c:141). -/
def addSVOwn (lay : Layout) (s : Block) (sv : Nat) : Block :=
  let valueNonNull := runNonZeroCheck64 sv
  addSVOwnNonNullG lay s valueNonNull sv

/-- `addExprDisownG` (ownership.c:217). The count of the expression is loaded
under `shouldDoAnything` and stored back, one lower, under `guard`; a leaf
whose count has reached zero is pushed on `leafCExprs`; for a branch the
helper `freeBranchConcExpr` is called. With a true `guard` and a null
expression the store of the count goes through the null pointer: the run
faults there. -/
def addExprDisownG (lay : Layout) (rt : Runtime) (s : Block) (guard : Bool) (expr : Nat) :
    Option Block :=
  let exprNonNull := runNonZeroCheck64 expr
  let shouldDoAnything := guard && exprNonNull
  let prevRefCount := runArrowG s shouldDoAnything expr lay.cexpr_ref_count_off
  let newRefCount := Iop_Sub64 prevRefCount 1
  if guard && !exprNonNull then none
  else
    let s1 := addStoreArrowG s guard expr lay.cexpr_ref_count_off newRefCount
    let lastRef := runZeroCheck64 newRefCount
    let isBranch :=
      Iop_CmpEQ64 (runArrowG s1 shouldDoAnything expr lay.cexpr_type_off) lay.Node_Branch
    let s2 := addStackPushG s1 (lastRef && !isBranch) lay.leafCExprs expr
    let shouldFreeBranch := isBranch && shouldDoAnything
    some (addDirtyG s2 shouldFreeBranch "freeBranchConcExpr" [expr] (rt.freeBranchConcExpr expr))

/-- `addSVDisownNonNull` (ownership.c:169). -/
def addSVDisownNonNull (lay : Layout) (rt : Runtime) (s : Block) (sv : Nat) : Option Block :=
  let prevRefCount := runArrow s sv lay.ref_count_off
  let lastRef := Iop_CmpEQ64 prevRefCount 1
  let s1 := addStackPushG s lastRef lay.freedVals sv
  let newRefCount := Iop_Sub64 prevRefCount 1
  let s2 := addStoreArrow s1 sv lay.ref_count_off newRefCount
  addExprDisownG lay rt s2 lastRef (runArrowG s2 lastRef sv lay.expr_off)

/-- `addSVDisownNonNullG` (ownership.c:191). -/
def addSVDisownNonNullG (lay : Layout) (rt : Runtime) (s : Block) (guard : Bool) (sv : Nat) :
    Option Block :=
  let prevRefCount := runArrowG s guard sv lay.ref_count_off
  let lastRef := Iop_CmpEQ64 prevRefCount 1
  let s1 := addStackPushG s lastRef lay.freedVals sv
  let newRefCount := Iop_Sub64 prevRefCount 1
  let s2 := addStoreArrowG s1 guard sv lay.ref_count_off newRefCount
  addExprDisownG lay rt s2 lastRef (runArrowG s2 lastRef sv lay.expr_off)

/-- `addSVDisown` (ownership.c:165). -/
def addSVDisown (lay : Layout) (rt : Runtime) (s : Block) (sv : Nat) : Option Block :=
  let valueNonNull := runNonZeroCheck64 sv
  addSVDisownNonNullG lay rt s valueNonNull sv

/-! ### Temporaries and thread state (`instrument-storage.c`) -/

/-- The address `&(shadowTemps[idx])`: the array holds pointers of eight
bytes. -/
def shadowTempAddr (lay : Layout) (idx : Nat) : Nat :=
  lay.shadowTemps + idx * 8

/-- The address `&(shadowThreadState[VG_(get_running_tid)()][tsSrc])`: the row
holds pointers of eight bytes. -/
def tsAddr (lay : Layout) (tsSrc : Nat) : Nat :=
  lay.shadowThreadState + tsSrc * 8

/-- `runLoadTemp` (instrument-storage.c:840). -/
def runLoadTemp (lay : Layout) (s : Block) (idx : Nat) : Nat :=
  runLoad64 s (shadowTempAddr lay idx)

/-- `runGetTSVal` (instrument-storage.c:843). -/
def runGetTSVal (lay : Layout) (s : Block) (tsSrc : Nat) : Nat :=
  runLoad64 s (tsAddr lay tsSrc)

/-- `runGetTSValDynamic` (instrument-storage.c:847): the load at the sum of the
address of the row and `tsSrc`. -/
def runGetTSValDynamic (lay : Layout) (s : Block) (tsSrc : Nat) : Nat :=
  runLoad64 s (Iop_Add64 lay.shadowThreadState tsSrc)

/-- `addSetTSVal` (instrument-storage.c:875). -/
def addSetTSVal (lay : Layout) (s : Block) (tsDest newVal : Nat) : Block :=
  addStore s newVal (tsAddr lay tsDest)

/-- `addSetTSValDynamic` (instrument-storage.c:889): the store at the sum of the
address of the row and `tsDest * sizeof(ShadowValue*)`. -/
def addSetTSValDynamic (lay : Layout) (s : Block) (tsDest newVal : Nat) : Block :=
  addStore s newVal (Iop_Add64 lay.shadowThreadState (Iop_Mul64 tsDest 8))

/-- The assignment `tsContext[tsDest] = floatType`. -/
def Block.setTsContext (s : Block) (tsDest : Nat) (floatType : FloatType) : Block :=
  { s with tsContext := fun a => if a = tsDest then floatType else s.tsContext a }

/-- The assignment `tempContext[idx] = type`. -/
def Block.setTempContext (s : Block) (idx : Nat) (type : FloatType) : Block :=
  { s with tempContext := fun t => if t = idx then type else s.tempContext t }

/-- `addSetTSValNonNull` (instrument-storage.c:855); a type other than
`Ft_Single` and `Ft_Double` fails the `tl_assert`. -/
def addSetTSValNonNull (lay : Layout) (s : Block) (tsDest newVal : Nat)
    (floatType : FloatType) : Option Block :=
  if floatType = .Ft_Single ∨ floatType = .Ft_Double then
    let s1 := s.setTsContext tsDest floatType
    let s2 := addSVOwnNonNull lay s1 newVal
    some (addSetTSVal lay s2 tsDest newVal)
  else none

/-- `addSetTSValNonFloat` (instrument-storage.c:863). -/
def addSetTSValNonFloat (lay : Layout) (s : Block) (tsDest : Nat) : Block :=
  (addSetTSVal lay s tsDest 0).setTsContext tsDest .Ft_NonFloat

/-- `addSetTSValUnshadowed` (instrument-storage.c:867). -/
def addSetTSValUnshadowed (lay : Layout) (s : Block) (tsDest : Nat) : Block :=
  (addSetTSVal lay s tsDest 0).setTsContext tsDest .Ft_Unshadowed

/-- `addSetTSValUnknown` (instrument-storage.c:871). -/
def addSetTSValUnknown (lay : Layout) (s : Block) (tsDest newVal : Nat) : Block :=
  (addSetTSVal lay s tsDest newVal).setTsContext tsDest .Ft_Unknown

/-- `addStoreTemp` (instrument-storage.c:909); a temporary whose static type is
neither `Ft_Unknown` nor `Ft_Unshadowed` fails the `tl_assert2`. -/
def addStoreTemp (lay : Layout) (s : Block) (shadow_temp : Nat) (type : FloatType)
    (idx : Nat) : Option Block :=
  if s.tempContext idx = .Ft_Unknown ∨ s.tempContext idx = .Ft_Unshadowed then
    let s1 := s.setTempContext idx type
    let s2 := addStore s1 shadow_temp (shadowTempAddr lay idx)
    some (cleanupAtEndOfBlock s2 idx)
  else none

/-- `addStoreTempG` (instrument-storage.c:920). -/
def addStoreTempG (lay : Layout) (s : Block) (guard : Bool) (shadow_temp : Nat)
    (type : FloatType) (idx : Nat) : Option Block :=
  if s.tempContext idx = .Ft_Unknown ∨ s.tempContext idx = .Ft_NonFloat ∨
      s.tempContext idx = .Ft_Unshadowed ∨ s.tempContext idx = type then
    let s1 := addStoreG s guard shadow_temp (shadowTempAddr lay idx)
    let s2 := s1.setTempContext idx .Ft_Unknown
    some (cleanupAtEndOfBlock s2 idx)
  else none

/-- `addStoreTempNonFloat` (instrument-storage.c:935). -/
def addStoreTempNonFloat (s : Block) (idx : Nat) : Block :=
  s.setTempContext idx .Ft_NonFloat

/-- `addStoreTempUnknown` (instrument-storage.c:941). -/
def addStoreTempUnknown (lay : Layout) (s : Block) (shadow_temp_maybe : Nat) (idx : Nat) :
    Option Block :=
  addStoreTemp lay s shadow_temp_maybe .Ft_Unknown idx

/-- `addStoreTempUnshadowed` (instrument-storage.c:945). -/
def addStoreTempUnshadowed (s : Block) (idx : Nat) : Block :=
  s.setTempContext idx .Ft_Unshadowed

/-- `instrumentWriteConst` (instrument-storage.c:71). -/
def instrumentWriteConst (s : Block) (dest : Nat) (_con : Nat) : Block :=
  s.setTempContext dest .Ft_Unknown

/-- The loop at instrument-storage.c:145 of `instrumentPut`, from unit `i`
with the first argument the number of units left: the shadow value that each
overwritten thread-state unit can hold is disowned, without a run-time check
where the static type asserts a shadow. -/
def putDisownLoop (lay : Layout) (rt : Runtime) (tsDest : Nat) :
    Nat → Nat → Block → Option Block
  | 0, _, s => some s
  | left + 1, i, s =>
    let dest_addr := tsDest + i * 4
    let disowned : Option Block :=
      if tsAddrCanHaveShadow s dest_addr then
        let oldVal := runGetTSVal lay s dest_addr
        if tsHasStaticShadow s dest_addr then addSVDisownNonNull lay rt s oldVal
        else addSVDisown lay rt s oldVal
      else some s
    match disowned with
    | none => none
    | some s1 => putDisownLoop lay rt tsDest left (i + 1) s1

/-- The loop at instrument-storage.c:183 of `instrumentPut`, for data that
cannot have a shadow. -/
def putNoShadowLoop (lay : Layout) (tsDest : Nat) (data : IRExpr) : Nat → Nat → Block → Block
  | 0, _, s => s
  | left + 1, i, s =>
    let dest_addr := tsDest + i * 4
    let s1 :=
      if canBeFloat s data then addSetTSValUnshadowed lay s dest_addr
      else addSetTSValNonFloat lay s dest_addr
    putNoShadowLoop lay tsDest data left (i + 1) s1

/-- The loop at instrument-storage.c:207 of `instrumentPut`, for a temporary
`idx` with a static shadow whose values are at `values`: for a double the odd
units are cleared and the even unit `i` receives value `i / 2`; for a single
unit `i` receives value `i`. Any other static type fails the `tl_assert`. -/
def putStaticLoop (lay : Layout) (tsDest idx values : Nat) : Nat → Nat → Block → Option Block
  | 0, _, s => some s
  | left + 1, i, s =>
    let dest_addr := tsDest + i * 4
    if tempType s idx = .Ft_Double then
      if i % 2 = 1 then
        putStaticLoop lay tsDest idx values left (i + 1) (addSetTSValNonFloat lay s dest_addr)
      else
        let value := if i = 0 then runLoad64 s values else runIndex s values (i / 2)
        match addSetTSValNonNull lay s dest_addr value .Ft_Double with
        | none => none
        | some s1 => putStaticLoop lay tsDest idx values left (i + 1) s1
    else if tempType s idx = .Ft_Single then
      let value := runIndex s values i
      match addSetTSValNonNull lay s dest_addr value .Ft_Single with
      | none => none
      | some s1 => putStaticLoop lay tsDest idx values left (i + 1) s1
    else none

/-- The loops at instrument-storage.c:261 and 293 of `instrumentPut`: each unit
is cleared and its static type is set to `Ft_Unknown`. -/
def putUnknownLoop (lay : Layout) (tsDest : Nat) : Nat → Nat → Block → Block
  | 0, _, s => s
  | left + 1, i, s =>
    let dest_addr := tsDest + i * 4
    let s1 := (addSetTSValNonFloat lay s dest_addr).setTsContext dest_addr .Ft_Unknown
    putUnknownLoop lay tsDest left (i + 1) s1

/-- `instrumentPut` (instrument-storage.c:118). The old occupants of the
overwritten units are disowned; then the units are written: cleared for data
that cannot have a shadow, lane by lane from the shadow temporary of the data
when its static type is known, and otherwise under a run-time check (inline
for one unit, by `dynamicPut64` or `dynamicPut128` for more). -/
def instrumentPut (lay : Layout) (rt : Runtime) (s : Block) (tsDest : Nat) (data : IRExpr) :
    Option Block :=
  let dest_size := exprSize s data
  match putDisownLoop lay rt tsDest dest_size 0 s with
  | none => none
  | some s1 =>
    if !canHaveShadow s1 data then
      some (putNoShadowLoop lay tsDest data dest_size 0 s1)
    else
      match data with
      | .Const _ _ => none
      | .RdTmp idx =>
        let st := runLoadTemp lay s1 idx
        if hasStaticShadow s1 data then
          let values := runArrow s1 st lay.values_off
          putStaticLoop lay tsDest idx values dest_size 0 s1
        else
          let stExists := runNonZeroCheck64 st
          if dest_size = 1 then
            let values := runArrowG s1 stExists st lay.values_off
            let value := runLoadG64 s1 values stExists
            let s2 := addSVOwnNonNullG lay s1 stExists value
            some (addSetTSValUnknown lay s2 tsDest value)
          else if dest_size = 2 then
            let s2 := putUnknownLoop lay tsDest 2 0 s1
            some (addDirtyG s2 stExists "dynamicPut64" [tsDest, st] (rt.dynamicPut64 tsDest st))
          else
            let s2 := putUnknownLoop lay tsDest 4 0 s1
            some (addDirtyG s2 stExists "dynamicPut128" [tsDest, st]
              (rt.dynamicPut128 tsDest st))

/-- `mkU64(x)` and `mkU32(x)` of a C `Int`: the value as an unsigned word. -/
def mkU (bits : Nat) (x : Int) : Nat := (x % 2 ^ bits).toNat

/-- `sizeofIRType`, the size of a type in bytes. -/
def sizeofIRType : IRType → Nat
  | .Ity_I1 => 1
  | .Ity_I8 => 1
  | .Ity_I16 => 2
  | .Ity_I32 => 4
  | .Ity_I64 => 8
  | .Ity_F32 => 4
  | .Ity_F64 => 8
  | .Ity_V128 => 16

/-- `Iop_DivModU64to32`: the remainder in the high half and the quotient in
the low half of the result. A zero divisor, or a quotient that does not fit
32 bits, is a fault. -/
def Iop_DivModU64to32 (a b : Nat) : Option Nat :=
  if b % 2 ^ 32 = 0 then none
  else if (a % 2 ^ 64) / (b % 2 ^ 32) ≥ 2 ^ 32 then none
  else some (((a % 2 ^ 64) % (b % 2 ^ 32)) * 2 ^ 32 + (a % 2 ^ 64) / (b % 2 ^ 32))

/-- `mkArrayLookupExpr` (instrument-storage.c:1152): `idx` is the value of the
index expression when the block runs. -/
def mkArrayLookupExpr (base : Int) (idx : Nat) (bias len : Int) (elemSize : IRType) :
    Option Nat :=
  let added := Iop_Add64 (idx % 2 ^ 32) (mkU 64 (if bias < 0 then bias + len else bias))
  match Iop_DivModU64to32 added (mkU 32 len) with
  | none => none
  | some divmod =>
    let index := (divmod / 2 ^ 32) % 2 ^ 32
    let ex1 := Iop_Mul64 (sizeofIRType elemSize) index
    some (Iop_Add64 (mkU 64 base) ex1)

/-- The loop at instrument-storage.c:334 of `instrumentPutI`: the static type of
every unit of the array becomes `Ft_Unknown`, except an odd unit that is
`Ft_NonFloat` when a double is written. -/
def putITypeLoop (arrayBase : Nat) (data : IRExpr) : Nat → Nat → Block → Block
  | 0, _, s => s
  | left + 1, i, s =>
    let dest := arrayBase + i * 4
    let skip : Bool :=
      match data with
      | .Const _ _ => false
      | .RdTmp tmp =>
        hasStaticShadow s data && tempType s tmp == .Ft_Double && i % 2 == 1 &&
          s.tsContext dest == .Ft_NonFloat
    if skip then putITypeLoop arrayBase data left (i + 1) s
    else putITypeLoop arrayBase data left (i + 1) (s.setTsContext dest .Ft_Unknown)

/-- The loop at instrument-storage.c:344 of `instrumentPutI`: the offset of each
lane is computed, the value read at it by `runGetTSValDynamic` is disowned
and the lane is cleared by `addSetTSValDynamic`. The offsets are returned
(`dest_addrs`). -/
def putIClearLoop (lay : Layout) (rt : Runtime) (arrayBase : Nat) (varOffset : Nat)
    (constOffset : Int) (dest_size : Nat) (numElems : Int) :
    Nat → Nat → Block → Option (Block × List Nat)
  | 0, _, s => some (s, [])
  | left + 1, i, s =>
    match mkArrayLookupExpr arrayBase varOffset (constOffset * dest_size + i) numElems
        .Ity_F32 with
    | none => none
    | some dest_addr =>
      let oldVal := runGetTSValDynamic lay s dest_addr
      match addSVDisown lay rt s oldVal with
      | none => none
      | some s1 =>
        let s2 := addSetTSValDynamic lay s1 dest_addr 0
        match putIClearLoop lay rt arrayBase varOffset constOffset dest_size numElems left
            (i + 1) s2 with
        | none => none
        | some (s3, dest_addrs) => some (s3, dest_addr :: dest_addrs)

/-- The loop at instrument-storage.c:359 of `instrumentPutI`, for a temporary
with a static shadow: the lanes are written by `addSetTSValDynamic`. -/
def putIStaticLoop (lay : Layout) (tempIdx values : Nat) (dest_addrs : List Nat) :
    Nat → Nat → Block → Option Block
  | 0, _, s => some s
  | left + 1, i, s =>
    match dest_addrs[i]? with
    | none => none
    | some dest_addr =>
      if tempType s tempIdx = .Ft_Double then
        if i % 2 = 1 then
          putIStaticLoop lay tempIdx values dest_addrs left (i + 1)
            (addSetTSValDynamic lay s dest_addr 0)
        else
          let value := runIndex s values (i / 2)
          putIStaticLoop lay tempIdx values dest_addrs left (i + 1)
            (addSetTSValDynamic lay s dest_addr value)
      else
        let value := runIndex s values i
        putIStaticLoop lay tempIdx values dest_addrs left (i + 1)
          (addSetTSValDynamic lay s dest_addr value)

/-- `instrumentPutI` (instrument-storage.c:322). `varOffset` is the value of
the index expression when the block runs. -/
def instrumentPutI (lay : Layout) (rt : Runtime) (s : Block) (varOffset : Nat)
    (constOffset : Int) (arrayBase : Nat) (numElems : Int) (_elemType : IRType)
    (data : IRExpr) : Option Block :=
  let dest_size := exprSize s data
  let s1 := putITypeLoop arrayBase data (numElems * dest_size).toNat 0 s
  match putIClearLoop lay rt arrayBase varOffset constOffset dest_size numElems dest_size 0
      s1 with
  | none => none
  | some (s2, dest_addrs) =>
    if canHaveShadow s2 data then
      match data with
      | .Const _ _ => none
      | .RdTmp tempIdx =>
        let st := runLoadTemp lay s2 tempIdx
        if hasStaticShadow s2 data then
          let values := runArrow s2 st lay.values_off
          putIStaticLoop lay tempIdx values dest_addrs dest_size 0 s2
        else
          let stExists := runNonZeroCheck64 st
          match dest_addrs[0]? with
          | none => none
          | some dest_addr0 =>
            if dest_size = 1 then
              let values := runArrowG s2 stExists st lay.values_off
              let value := runLoadG64 s2 values stExists
              let s3 := addSVOwnNonNullG lay s2 stExists value
              some (addSetTSValDynamic lay s3 dest_addr0 value)
            else if dest_size = 2 then
              some (addDirtyG s2 stExists "dynamicPut64" [dest_addr0, st]
                (rt.dynamicPut64 dest_addr0 st))
            else
              some (addDirtyG s2 stExists "dynamicPut128" [dest_addr0, st]
                (rt.dynamicPut128 dest_addr0 st))
    else some s2

/-- A call of one of the functions of `instrument-storage.c` that set the
static type of a temporary (instrument-storage.c:909-950), with its
arguments. -/
inductive TempWrite where
  | StoreTemp (shadow_temp : Nat) (type : FloatType) (idx : Nat)
  | StoreTempG (guard : Bool) (shadow_temp : Nat) (type : FloatType) (idx : Nat)
  | StoreTempUnknown (shadow_temp_maybe : Nat) (idx : Nat)
  | StoreTempNonFloat (idx : Nat)
  | StoreTempUnshadowed (idx : Nat)
deriving DecidableEq, Repr

/-- The call that a `TempWrite` stands for. -/
def TempWrite.run (lay : Layout) (s : Block) : TempWrite → Option Block
  | .StoreTemp shadow_temp type idx => addStoreTemp lay s shadow_temp type idx
  | .StoreTempG guard shadow_temp type idx => addStoreTempG lay s guard shadow_temp type idx
  | .StoreTempUnknown shadow_temp_maybe idx => addStoreTempUnknown lay s shadow_temp_maybe idx
  | .StoreTempNonFloat idx => some (addStoreTempNonFloat s idx)
  | .StoreTempUnshadowed idx => some (addStoreTempUnshadowed s idx)

/-- The temporary that a call stores into the temp table, when it emits a
store: the three `addStoreTemp` functions do, the two that only mark a
temporary do not. -/
def TempWrite.stored : TempWrite → Option Nat
  | .StoreTemp _ _ idx => some idx
  | .StoreTempG _ _ _ idx => some idx
  | .StoreTempUnknown _ idx => some idx
  | .StoreTempNonFloat _ => none
  | .StoreTempUnshadowed _ => none

/-- A sequence of such calls, in order; a failed assertion ends it. -/
def runTempWrites (lay : Layout) : List TempWrite → Block → Option Block
  | [], s => some s
  | w :: rest, s =>
    match w.run lay s with
    | none => none
    | some s1 => runTempWrites lay rest s1

/-! ### A concrete block -/

/-- A layout for the concrete runs: the temporaries at 1000, the thread-state
row at 2000, `values` first in a shadow temporary, `ref_count` at 8 and `expr`
at 16 in a shadow value, `ref_count` at 0 and `type` at 8 in an expression. -/
def sampleLayout : Layout :=
  { shadowTemps := 1000
    shadowThreadState := 2000
    values_off := 0
    ref_count_off := 8
    expr_off := 16
    cexpr_ref_count_off := 0
    cexpr_type_off := 8
    Node_Branch := 1
    freedVals := 1
    leafCExprs := 2 }

/-- Run-time helpers that leave the machine as it is, for the concrete runs
that call none of them. -/
def sampleRuntime : Runtime :=
  { freeBranchConcExpr := fun _ m => m
    dynamicPut64 := fun _ _ m => m
    dynamicPut128 := fun _ _ m => m }

/-- A machine in which temporary 3 has the shadow temporary at 5000, whose
values are at 6000; its one value is the shadow value at 7000, with
`ref_count` 1 and the leaf expression at 8000, itself with `ref_count` 1.
Everything else is zero. -/
def sampleMachine : Machine :=
  { mem := fun a =>
      if a = 1024 then 5000
      else if a = 5000 then 6000
      else if a = 6000 then 7000
      else if a = 7008 then 1
      else if a = 7016 then 8000
      else if a = 8000 then 1
      else 0
    lists := fun _ => [] }

/-- A block in which temporary 3 is an `F32` with static type `Ft_Single`;
nothing is known about the thread state and nothing has been emitted. -/
def sampleBlock : Block :=
  { tyenv := fun _ => .Ity_F32
    tempContext := fun t => if t = 3 then .Ft_Single else .Ft_Unknown
    tsContext := fun _ => .Ft_Unknown
    tempDebt := []
    sbOut := []
    machine := sampleMachine }

/-- The concrete block with thread-state offset 72 occupied: its slot, at
address 2576, holds the shadow value at 7100, which has `ref_count` 1 and the
leaf expression at 8100, itself with `ref_count` 1. -/
def occupiedBlock : Block :=
  { sampleBlock with
    machine :=
      { sampleMachine with
        mem := fun a =>
          if a = 2576 then 7100
          else if a = 7108 then 1
          else if a = 7116 then 8100
          else if a = 8100 then 1
          else sampleMachine.mem a } }

/-- The concrete block with a shadow value at 7200 as `newShadowValue` makes
it: `ref_count` 1 (address 7208) and no expression (`expr`, at 7216, is
null). The thread-state slot of offset 80 (address 2640) holds it, and the
static type of that offset is `Ft_Single`. -/
def bareValueBlock : Block :=
  { sampleBlock with
    tsContext := fun a => if a = 80 then .Ft_Single else .Ft_Unknown
    machine :=
      { sampleMachine with
        mem := fun a =>
          if a = 2640 then 7200
          else if a = 7208 then 1
          else sampleMachine.mem a } }

/-- A sequence of calls for the concrete block: temporary 4 is stored,
temporary 5 is marked non-float, temporary 4 is stored again under a guard
and temporary 6 is stored. -/
def sampleWrites : List TempWrite :=
  [.StoreTemp 5000 .Ft_Single 4, .StoreTempNonFloat 5, .StoreTempG true 5100 .Ft_Single 4,
    .StoreTempUnknown 0 6]

/-- The concrete block with temporary 3 an `F64` of static type `Ft_Double`. -/
def doubleBlock : Block :=
  { sampleBlock with
    tyenv := fun _ => .Ity_F64
    tempContext := fun t => if t = 3 then .Ft_Double else .Ft_Unknown }

/-- The statements that disown a null old occupant: the run-time check fails
and every guard is false. -/
def nullDisownTrace : List IRStmt :=
  [.Push false 1 0, .StoreG false 8 (2 ^ 64 - 1), .StoreG false 0 (2 ^ 64 - 1),
    .Push false 2 0, .Dirty false "freeBranchConcExpr" [0]]

end Instrument
/-! ## The instrumenter: reads, loads, stores and inputs

The rest of `src/instrument/instrument-storage.c`, in the same embedding. -/

namespace Instrument

/-- The helpers that this part of `instrument-storage.c` calls and whose source
is not among the files, taken as parameters. `inferTSType64` and
`inferMemType` read static tables; `runGet32C`, `runGet64C` and `runGetI64`
give the value of a read of the guest state when the block runs;
`runF32toF64` is the conversion of a float pattern; `floatTypeCode` is the
number `mkU64(type)` of a static type; `skipped` is the value of the result
of a guarded helper call that is not made; the other functions are run-time
helpers, each with its result; `computedArgs0` is the address
`computedArgs.argValues[0]`, `freedTemps k` the free list `freedTemps[k]` and
`irTypeAsFloatType` the conversion of an `IRType` passed where a `FloatType`
is expected. -/
structure Helpers where
  inferTSType64 : (Nat → FloatType) → Nat → FloatType
  inferMemType : Nat → Nat → FloatType
  runGet32C : Nat → Nat
  runGet64C : Nat → Nat
  runGetI64 : Nat → Int → Nat → Int → Nat
  runF32toF64 : Nat → Nat
  floatTypeCode : FloatType → Nat
  skipped : Nat
  mkShadowValue : Nat → Nat → Machine → Machine × Nat
  newShadowTemp : Nat → Machine → Machine × Nat
  copyShadowTemp : Nat → Machine → Machine × Nat
  dynamicGet64 : Nat → Nat → Machine → Machine × Nat
  dynamicGet128 : Nat → Nat → Nat → Machine → Machine × Nat
  dynamicLoad32 : Nat → Machine → Machine × Nat
  dynamicLoad64 : Nat → Nat → Machine → Machine × Nat
  dynamicLoad128 : Nat → Nat → Nat → Machine → Machine × Nat
  setMemShadowTemp : Nat → Nat → Nat → Machine → Machine
  mkShadowTempOneSingle : Nat → Machine → Machine × Nat
  mkShadowTempOneDouble : Nat → Machine → Machine × Nat
  mkShadowTempTwoSingles : Nat → Machine → Machine × Nat
  mkShadowTempTwoDoubles : Nat → Machine → Machine × Nat
  mkShadowTempFourSingles : Nat → Machine → Machine × Nat
  computedArgs0 : Nat
  freedTemps : Nat → Nat
  irTypeAsFloatType : IRType → FloatType

/-- Modelled from the spec: `runPureCCall64` and its variants, and the dirty
calls with a result (`runDirtyG_1_1`, `unsafeIRDirty_1_N`), build the call of
a helper whose result goes to a temporary. With a false guard the call is
not made and the result is `skipped`. -/
def runCallG (hp : Helpers) (s : Block) (guard : Bool) (name : String) (args : List Nat)
    (helper : Machine → Machine × Nat) : Block × Nat :=
  if guard then
    ({ s with sbOut := s.sbOut ++ [.Dirty guard name args]
              machine := (helper s.machine).1 }, (helper s.machine).2)
  else ({ s with sbOut := s.sbOut ++ [.Dirty guard name args] }, hp.skipped)

/-- Modelled from the spec: `runITE` builds the choice between two values. -/
def runITE (cond : Bool) (a b : Nat) : Nat := if cond then a else b

/-- Modelled from the spec: `runStackEmpty` builds the test that a free list is
empty. -/
def runStackEmpty (s : Block) (stack : Nat) : Bool := (s.machine.lists stack).isEmpty

/-- Modelled from the spec: `runStackPopG` builds the guarded pop of a free
list; the popped item is its result. With a false guard nothing is popped
and the result is `skipped`; an empty list gives a null item. -/
def runStackPopG (hp : Helpers) (s : Block) (guard : Bool) (stack : Nat) : Block × Nat :=
  if guard then
    match s.machine.lists stack with
    | [] => (s, 0)
    | item :: rest =>
      ({ s with
         machine :=
           { s.machine with
             lists := fun k => if k = stack then rest else s.machine.lists k } }, item)
  else (s, hp.skipped)

/-- Modelled from the spec: the macro `addStoreIndexG(sbOut, guard, arr, T, i,
v)` builds the guarded store `arr[i] = v`, for elements of eight bytes. -/
def addStoreIndexG (s : Block) (guard : Bool) (arr i data : Nat) : Block :=
  addStoreG s guard data (Iop_Add64 arr (i * 8))

/-- Modelled from the spec: the macro `addStoreIndex(sbOut, arr, T, i, v)`
builds the store `arr[i] = v`, for elements of eight bytes. -/
def addStoreIndex (s : Block) (arr i data : Nat) : Block :=
  addStore s data (Iop_Add64 arr (i * 8))

/-- The store of a 128-bit value (`addStoreC` of a `V128`): its low word at
the address and its high word eight bytes above. -/
def addStore128 (s : Block) (guard : Bool) (data addr : Nat) : Block :=
  { s with
    sbOut := s.sbOut ++ [.StoreG guard addr data]
    machine :=
      { s.machine with
        mem := fun a =>
          if guard && decide (a = addr) then data % 2 ^ 64
          else if guard && decide (a = addr + 8) then data / 2 ^ 64 % 2 ^ 64
          else s.machine.mem a } }

/-- Modelled from the spec: `isFloat(sbOut->tyenv, t)`: the type of the
temporary can carry a float. -/
def isFloat (s : Block) (tmp : Nat) : Bool := isFloatType (s.tyenv tmp)

/-- Modelled from the spec: `canStoreShadow(sbOut->tyenv, e)`: the expression is
a temporary of a type that can carry a float. -/
def canStoreShadow (s : Block) : IRExpr → Bool
  | .Const _ _ => false
  | .RdTmp tmp => isFloatType (s.tyenv tmp)

/-- The loop of `runMkShadowTempValuesG` (instrument-storage.c:733): each
value is owned and stored in the array of the temporary, under the guard. -/
def mkTempValuesLoopG (lay : Layout) (guard : Bool) (tempValues : Nat) :
    List Nat → Nat → Block → Block
  | [], _, s => s
  | value :: rest, i, s =>
    let s1 := addSVOwnNonNullG lay s guard value
    let s2 := addStoreIndexG s1 guard tempValues i value
    mkTempValuesLoopG lay guard tempValues rest (i + 1) s2

/-- `runMkShadowTempValuesG` (instrument-storage.c:719): under the guard, a
shadow temporary is taken from the free list of its size, or made by
`newShadowTemp` when the list is empty, and filled with the values, each
owned once more. The result is the temporary, or null with a false guard.
`values` are the `num_values` values. -/
def runMkShadowTempValuesG (lay : Layout) (hp : Helpers) (s : Block) (guard : Bool)
    (num_values : Nat) (values : List Nat) : Block × Nat :=
  let stackEmpty := runStackEmpty s (hp.freedTemps (num_values - 1))
  let shouldMake := guard && stackEmpty
  let (s1, freshTemp) :=
    runCallG hp s shouldMake "newShadowTemp" [num_values] (hp.newShadowTemp num_values)
  let shouldPop := guard && !stackEmpty
  let (s2, poppedTemp) := runStackPopG hp s1 shouldPop (hp.freedTemps (num_values - 1))
  let temp := runITE stackEmpty freshTemp poppedTemp
  let tempValues := runArrowG s2 guard temp lay.values_off
  let s3 := mkTempValuesLoopG lay guard tempValues values 0 s2
  (s3, runITE guard temp 0)

/-- The loop of `runMkShadowTempValues` (instrument-storage.c:750). -/
def mkTempValuesLoop (lay : Layout) (tempValues : Nat) : List Nat → Nat → Block → Block
  | [], _, s => s
  | value :: rest, i, s =>
    let s1 := addSVOwnNonNull lay s value
    let s2 := addStoreIndex s1 tempValues i value
    mkTempValuesLoop lay tempValues rest (i + 1) s2

/-- `runMkShadowTempValues` (instrument-storage.c:740). -/
def runMkShadowTempValues (lay : Layout) (hp : Helpers) (s : Block) (num_values : Nat)
    (values : List Nat) : Block × Nat :=
  let stackEmpty := runStackEmpty s (hp.freedTemps (num_values - 1))
  let (s1, freshTemp) :=
    runCallG hp s stackEmpty "newShadowTemp" [num_values] (hp.newShadowTemp num_values)
  let (s2, poppedTemp) := runStackPopG hp s1 (!stackEmpty) (hp.freedTemps (num_values - 1))
  let temp := runITE stackEmpty freshTemp poppedTemp
  let tempValues := runArrow s2 temp lay.values_off
  let s3 := mkTempValuesLoop lay tempValues values 0 s2
  (s3, temp)

/-- `runMkShadowVal` (instrument-storage.c:756). -/
def runMkShadowVal (hp : Helpers) (s : Block) (type : FloatType) (valExpr : Nat) :
    Block × Nat :=
  runCallG hp s true "mkShadowValue" [hp.floatTypeCode type, valExpr]
    (hp.mkShadowValue (hp.floatTypeCode type) valExpr)

/-- `runMkShadowValG` (instrument-storage.c:759). -/
def runMkShadowValG (hp : Helpers) (s : Block) (guard : Bool) (type : FloatType)
    (valExpr : Nat) : Block × Nat :=
  runCallG hp s guard "mkShadowValue" [hp.floatTypeCode type, valExpr]
    (hp.mkShadowValue (hp.floatTypeCode type) valExpr)

/-- `addStoreTempCopy` (instrument-storage.c:1183): the copy is made by
`copyShadowTemp` when the original is not null, and stored under the same
guard. -/
def addStoreTempCopy (lay : Layout) (hp : Helpers) (s : Block) (original : Nat)
    (dest : Nat) (type : FloatType) : Option Block :=
  let originalNonNull := runNonZeroCheck64 original
  let (s1, newShadowTempCopy) :=
    runCallG hp s originalNonNull "copyShadowTemp" [original] (hp.copyShadowTemp original)
  addStoreTempG lay s1 originalNonNull newShadowTempCopy type dest

/-- `instrumentRdTmp` (instrument-storage.c:52); temporaries of different types
fail the `tl_assert2`. -/
def instrumentRdTmp (lay : Layout) (hp : Helpers) (s : Block) (dest src : Nat) :
    Option Block :=
  if s.tyenv dest ≠ s.tyenv src then none
  else if !canHaveShadow s (.RdTmp src) then
    some (s.setTempContext dest (s.tempContext src))
  else
    let s1 :=
      if hasStaticShadow s (.RdTmp src) then s.setTempContext dest (tempType s src)
      else s.setTempContext dest .Ft_Unknown
    let newShadowTemp := runLoadTemp lay s1 src
    addStoreTempCopy lay hp s1 newShadowTemp dest (s1.tempContext src)

/-- The three loops of `instrumentGet` over the lanes of a value of a known
static type (instrument-storage.c:476, 541 and 566): lane `i` is at offset
`tsSrc + i * stride`; a lane of the expected static type is read from the
thread state, a lane of type `Ft_Unknown` is read and replaced by a fresh
shadow value of the computed value when it is null, and any other lane gets
a fresh shadow value. `stride` is `sizeof(float)` or `sizeof(double)`, `type`
the expected type and `read` the computed value at an offset
(`runF32toF64` of `runGet64C` or of `runGet32C`, or `runGet64C`). The values
of the lanes are returned (`vals`). -/
def getLanesLoop (lay : Layout) (hp : Helpers) (tsSrc stride : Nat) (type : FloatType)
    (read : Nat → Nat) : Nat → Nat → Block → Block × List Nat
  | 0, _, s => (s, [])
  | left + 1, i, s =>
    let src_addr := tsSrc + i * stride
    let (s1, val) :=
      if s.tsContext src_addr = type then (s, runGetTSVal lay s src_addr)
      else if s.tsContext src_addr = .Ft_Unknown then
        let loaded := runGetTSVal lay s src_addr
        let loadedNull := runZeroCheck64 loaded
        let valExpr := read src_addr
        let (s1, freshSV) := runMkShadowValG hp s loadedNull type valExpr
        (s1, runITE loadedNull freshSV loaded)
      else runMkShadowVal hp s type (read src_addr)
    let (s2, vals) := getLanesLoop lay hp tsSrc stride type read left (i + 1) s1
    (s2, val :: vals)

/-- `instrumentGet` (instrument-storage.c:412). -/
def instrumentGet (lay : Layout) (hp : Helpers) (s : Block) (dest tsSrc : Nat)
    (type : IRType) : Option Block :=
  if !canStoreShadow s (.RdTmp dest) then some s
  else
    let src_size := typeSize type
    if src_size = 1 then
      let valType : FloatType := .Ft_Unknown
      if valType = .Ft_Double then none
      else if valType = .Ft_NonFloat then some (addStoreTempNonFloat s dest)
      else if valType = .Ft_Unshadowed then some (addStoreTempUnshadowed s dest)
      else if valType = .Ft_Single then
        let val := runGetTSVal lay s tsSrc
        let (s1, temp) := runMkShadowTempValues lay hp s 1 [val]
        addStoreTemp lay s1 temp .Ft_Single dest
      else if valType = .Ft_Unknown then
        let loadedVal := runGetTSVal lay s tsSrc
        let loadedValNonNull := runNonZeroCheck64 loadedVal
        let (s1, temp) := runMkShadowTempValuesG lay hp s loadedValNonNull 1 [loadedVal]
        addStoreTempUnknown lay s1 temp dest
      else some s
    else if src_size = 2 then
      let valType := hp.inferTSType64 s.tsContext tsSrc
      if valType = .Ft_NonFloat then some (addStoreTempNonFloat s dest)
      else if valType = .Ft_Unshadowed then some (addStoreTempUnshadowed s dest)
      else if valType = .Ft_Single then
        let (s1, vals) :=
          getLanesLoop lay hp tsSrc 4 .Ft_Single (fun a => hp.runF32toF64 (hp.runGet64C a)) 2 0 s
        let (s2, temp) := runMkShadowTempValues lay hp s1 2 vals
        addStoreTemp lay s2 temp .Ft_Single dest
      else if valType = .Ft_Double then
        let val := runGetTSVal lay s tsSrc
        let (s1, temp) := runMkShadowTempValues lay hp s 1 [val]
        addStoreTemp lay s1 temp .Ft_Double dest
      else
        let (s1, temp) :=
          runCallG hp s true "dynamicGet64" [tsSrc, hp.runGet64C tsSrc]
            (hp.dynamicGet64 tsSrc (hp.runGet64C tsSrc))
        addStoreTempUnknown lay s1 temp dest
    else if src_size = 4 then
      let valType := hp.inferTSType64 s.tsContext tsSrc
      if valType = .Ft_NonFloat then some (addStoreTempNonFloat s dest)
      else if valType = .Ft_Unshadowed then some (addStoreTempUnshadowed s dest)
      else if valType = .Ft_Single then
        let (s1, vals) :=
          getLanesLoop lay hp tsSrc 4 .Ft_Single (fun a => hp.runF32toF64 (hp.runGet32C a)) 4 0 s
        let (s2, temp) := runMkShadowTempValues lay hp s1 4 vals
        addStoreTemp lay s2 temp .Ft_Single dest
      else if valType = .Ft_Double then
        let (s1, vals) := getLanesLoop lay hp tsSrc 8 .Ft_Double hp.runGet64C 2 0 s
        let (s2, temp) := runMkShadowTempValues lay hp s1 2 vals
        addStoreTemp lay s2 temp .Ft_Double dest
      else
        let (s1, loaded) :=
          runCallG hp s true "dynamicGet128"
            [tsSrc, hp.runGet64C tsSrc, hp.runGet64C (tsSrc + 8)]
            (hp.dynamicGet128 tsSrc (hp.runGet64C tsSrc) (hp.runGet64C (tsSrc + 8)))
        addStoreTempUnknown lay s1 loaded dest
    else some s

/-- The loop at instrument-storage.c:613 of `instrumentGetI`: the offset of
each lane (`src_addrs`). -/
def getISrcAddrs (arrayBase : Nat) (varOffset : Nat) (constOffset : Int) (src_size : Nat)
    (numElems : Int) : Nat → Nat → Option (List Nat)
  | 0, _ => some []
  | left + 1, i =>
    match mkArrayLookupExpr arrayBase varOffset (constOffset * src_size + i) numElems
        .Ity_F32 with
    | none => none
    | some src_addr =>
      match getISrcAddrs arrayBase varOffset constOffset src_size numElems left (i + 1) with
      | none => none
      | some src_addrs => some (src_addr :: src_addrs)

/-- `instrumentGetI` (instrument-storage.c:604). `varOffset` is the value of
the index expression when the block runs. -/
def instrumentGetI (lay : Layout) (hp : Helpers) (s : Block) (dest : Nat) (varOffset : Nat)
    (constOffset : Int) (arrayBase : Nat) (numElems : Int) (elemType : IRType) :
    Option Block :=
  if !canStoreShadow s (.RdTmp dest) then some s
  else
    let src_size := typeSize elemType
    match getISrcAddrs arrayBase varOffset constOffset src_size numElems src_size 0 with
    | none => none
    | some src_addrs =>
      match src_addrs[0]? with
      | none => none
      | some src_addr0 =>
        if src_size = 1 then
          let val := runGetTSValDynamic lay s src_addr0
          let valNonNull := runNonZeroCheck64 val
          let (s1, temp) := runMkShadowTempValuesG lay hp s valNonNull 1 [val]
          addStoreTempUnknown lay s1 temp dest
        else if src_size = 2 then
          let (s1, temp) :=
            runCallG hp s true "dynamicGet64"
              [src_addr0, hp.runGetI64 varOffset constOffset arrayBase numElems]
              (hp.dynamicGet64 src_addr0 (hp.runGetI64 varOffset constOffset arrayBase numElems))
          addStoreTempUnknown lay s1 temp dest
        else if src_size = 4 then
          let (s1, temp) :=
            runCallG hp s true "dynamicGet128"
              [src_addr0, hp.runGetI64 varOffset constOffset arrayBase numElems,
                hp.runGetI64 varOffset (constOffset + 1) arrayBase numElems]
              (hp.dynamicGet128 src_addr0
                (hp.runGetI64 varOffset constOffset arrayBase numElems)
                (hp.runGetI64 varOffset (constOffset + 1) arrayBase numElems))
          addStoreTempUnknown lay s1 temp dest
        else some s

/-- `runGetMemG` (instrument-storage.c:1014): the call of the helper for the
size; the guard is not given to the call, and the first `return` gives the
result of the helper. A size other than 1, 2 or 4 fails the `tl_assert`.
`memSrc` is the value of the address when the block runs. -/
def runGetMemG (hp : Helpers) (s : Block) (_guard : Bool) (size : Nat) (memSrc : Nat) :
    Option (Block × Nat) :=
  if size = 1 then
    some (runCallG hp s true "dynamicLoad32" [memSrc] (hp.dynamicLoad32 memSrc))
  else if size = 2 then
    some (runCallG hp s true "dynamicLoad64" [memSrc, runLoad64 s memSrc]
      (hp.dynamicLoad64 memSrc (runLoad64 s memSrc)))
  else if size = 4 then
    some (runCallG hp s true "dynamicLoad128"
      [memSrc, runLoad64 s memSrc, runLoad64 s (Iop_Add64 memSrc 8)]
      (hp.dynamicLoad128 memSrc (runLoad64 s memSrc) (runLoad64 s (Iop_Add64 memSrc 8))))
  else none

/-- `runGetMemUnknownG` (instrument-storage.c:984): the first statement
returns the result of `runGetMemG` under a true guard. -/
def runGetMemUnknownG (hp : Helpers) (s : Block) (_guard : Bool) (size : Nat)
    (memSrc : Nat) : Option (Block × Nat) :=
  runGetMemG hp s true size memSrc

/-- `runGetMemUnknown` (instrument-storage.c:1011). -/
def runGetMemUnknown (hp : Helpers) (s : Block) (size : Nat) (memSrc : Nat) :
    Option (Block × Nat) :=
  runGetMemUnknownG hp s true size memSrc

/-- `instrumentLoad` (instrument-storage.c:641). `addrVal` is the value of the
address when the block runs; a constant address that is not a 64-bit
constant fails the `tl_assert`. -/
def instrumentLoad (lay : Layout) (hp : Helpers) (s : Block) (dest : Nat) (addr : IRExpr)
    (addrVal : Nat) (type : IRType) : Option Block :=
  if !isFloat s dest then some s
  else
    let dest_size := typeSize type
    match addr with
    | .Const ty const_addr =>
      if ty ≠ .Ity_I64 then none
      else
        let fType := hp.inferMemType const_addr dest_size
        if fType = .Ft_NonFloat then some (addStoreTempNonFloat s dest)
        else if fType = .Ft_Unshadowed then some (addStoreTempUnshadowed s dest)
        else if fType = .Ft_Unknown then
          match runGetMemUnknown hp s dest_size addrVal with
          | none => none
          | some (s1, st) => addStoreTempUnknown lay s1 st dest
        else
          match runGetMemUnknown hp s dest_size addrVal with
          | none => none
          | some (s1, st) => addStoreTemp lay s1 st (hp.irTypeAsFloatType type) dest
    | .RdTmp _ =>
      match runGetMemUnknown hp s dest_size addrVal with
      | none => none
      | some (s1, st) => addStoreTempUnknown lay s1 st dest

/-- `addSetMemG` (instrument-storage.c:1112): the call of `setMemShadowTemp`;
the guard is not given to the call. -/
def addSetMemG (hp : Helpers) (s : Block) (_guard : Bool) (size : Nat) (memDest : Nat)
    (newTemp : Nat) : Block :=
  addDirtyG s true "setMemShadowTemp" [memDest, size, newTemp]
    (hp.setMemShadowTemp memDest size newTemp)

/-- `addClearMemG` (instrument-storage.c:1060): `addSetMemG` with a true guard
and a null temporary. -/
def addClearMemG (hp : Helpers) (s : Block) (_guard : Bool) (size : Nat) (memDest : Nat) :
    Block :=
  addSetMemG hp s true size memDest 0

/-- `addSetMemUnknownG` (instrument-storage.c:1082): the call of
`setMemShadowTemp` built by `mkDirtyG_0_3` with the guard `mkU1(True)`. -/
def addSetMemUnknownG (hp : Helpers) (s : Block) (_guard : Bool) (size : Nat)
    (memDest : Nat) (st : Nat) : Block :=
  addDirtyG s true "setMemShadowTemp" [memDest, size, st]
    (hp.setMemShadowTemp memDest size st)

/-- `instrumentStoreG` (instrument-storage.c:697). `addr` and `guard` are the
values of the address and of the guard when the block runs. -/
def instrumentStoreG (lay : Layout) (hp : Helpers) (s : Block) (addr : Nat) (guard : Bool)
    (data : IRExpr) : Block :=
  let dest_size := exprSize s data
  match data with
  | .RdTmp idx =>
    let st := runLoadTemp lay s idx
    addSetMemUnknownG hp s guard dest_size addr st
  | .Const _ _ => addClearMemG hp s guard dest_size addr

/-- `toDoubleBytes` (instrument-storage.c:1124): the bytes of a float as the
bytes of a double. A type other than `F32`, `I32`, `F64` and `I64` fails the
`tl_assert`. `floatVal` is the value of the expression when the block
runs. -/
def toDoubleBytes (hp : Helpers) (s : Block) (floatExpr : IRExpr) (floatVal : Nat) :
    Option Nat :=
  match typeOfIRExpr s floatExpr with
  | .Ity_F32 => some (hp.runF32toF64 floatVal)
  | .Ity_I32 => some (hp.runF32toF64 floatVal)
  | .Ity_F64 => some floatVal
  | .Ity_I64 => some floatVal
  | _ => none

/-- The end of `runMakeInput` (instrument-storage.c:792): the result is stored
as the shadow of the argument when it is a temporary that can store one. -/
def storeInput (lay : Layout) (s : Block) (argExpr : IRExpr) (valType : FloatType)
    (result : Nat) : Option (Block × Nat) :=
  if canStoreShadow s argExpr then
    match argExpr with
    | .RdTmp tmp =>
      match addStoreTemp lay s result valType tmp with
      | none => none
      | some s1 => some (s1, result)
    | .Const _ _ => none
  else some (s, result)

/-- `runMakeInput` (instrument-storage.c:764). `argVal` is the value of the
argument when the block runs. A combination of `num_vals` and `valType` that
no branch takes, and a type of the argument that a branch does not expect,
fail an assertion. -/
def runMakeInput (lay : Layout) (hp : Helpers) (s : Block) (argExpr : IRExpr)
    (argVal : Nat) (valType : FloatType) (num_vals : Int) : Option (Block × Nat) :=
  let bytesType := typeOfIRExpr s argExpr
  if num_vals = 1 then
    match toDoubleBytes hp s argExpr argVal with
    | none => none
    | some argI64 =>
      if valType = .Ft_Single then
        let (s1, result) :=
          runCallG hp s true "mkShadowTempOneSingle" [argI64] (hp.mkShadowTempOneSingle argI64)
        storeInput lay s1 argExpr valType result
      else
        let (s1, result) :=
          runCallG hp s true "mkShadowTempOneDouble" [argI64] (hp.mkShadowTempOneDouble argI64)
        storeInput lay s1 argExpr valType result
  else if num_vals = 2 ∧ valType = .Ft_Double then
    if bytesType ≠ .Ity_V128 then none
    else
      let s1 := addStore128 s true argVal hp.computedArgs0
      let (s2, result) :=
        runCallG hp s1 true "mkShadowTempTwoDoubles" [hp.computedArgs0]
          (hp.mkShadowTempTwoDoubles hp.computedArgs0)
      storeInput lay s2 argExpr valType result
  else if num_vals = 2 ∧ valType = .Ft_Single then
    if bytesType ≠ .Ity_I64 then none
    else
      let (s1, result) :=
        runCallG hp s true "mkShadowTempTwoSingles" [argVal] (hp.mkShadowTempTwoSingles argVal)
      storeInput lay s1 argExpr valType result
  else if num_vals = 4 then
    if valType ≠ .Ft_Single then none
    else if bytesType ≠ .Ity_V128 then none
    else
      let s1 := addStore128 s true argVal hp.computedArgs0
      let (s2, result) :=
        runCallG hp s1 true "mkShadowTempFourSingles" [hp.computedArgs0]
          (hp.mkShadowTempFourSingles hp.computedArgs0)
      storeInput lay s2 argExpr valType result
  else none

/-- The end of `runMakeInputG` (instrument-storage.c:834). -/
def storeInputG (lay : Layout) (s : Block) (guard : Bool) (argExpr : IRExpr)
    (valType : FloatType) (result : Nat) : Option (Block × Nat) :=
  if canStoreShadow s argExpr then
    match argExpr with
    | .RdTmp tmp =>
      match addStoreTempG lay s guard result valType tmp with
      | none => none
      | some s1 => some (s1, result)
    | .Const _ _ => none
  else some (s, result)

/-- `runMakeInputG` (instrument-storage.c:798). `guard` and `argVal` are the
values of the guard and of the argument when the block runs. -/
def runMakeInputG (lay : Layout) (hp : Helpers) (s : Block) (guard : Bool)
    (argExpr : IRExpr) (argVal : Nat) (valType : FloatType) (num_vals : Int) :
    Option (Block × Nat) :=
  let bytesType := typeOfIRExpr s argExpr
  if num_vals = 1 then
    if (if valType = .Ft_Single then bytesType ≠ .Ity_I32
        else ¬ (bytesType = .Ity_I64 ∨ bytesType = .Ity_F64)) then none
    else
      match toDoubleBytes hp s argExpr argVal with
      | none => none
      | some argI64 =>
        let (s1, result) :=
          if valType = .Ft_Single then
            runCallG hp s guard "mkShadowTempOneSingle" [argI64]
              (hp.mkShadowTempOneSingle argI64)
          else
            runCallG hp s guard "mkShadowTempOneDouble" [argI64]
              (hp.mkShadowTempOneDouble argI64)
        storeInputG lay s1 guard argExpr valType result
  else if num_vals = 2 ∧ valType = .Ft_Single then
    if bytesType ≠ .Ity_I64 then none
    else
      let (s1, result) :=
        runCallG hp s guard "mkShadowTempTwoSingles" [argVal] (hp.mkShadowTempTwoSingles argVal)
      storeInputG lay s1 guard argExpr valType result
  else if num_vals = 2 ∧ valType = .Ft_Double then
    if bytesType ≠ .Ity_V128 then none
    else
      let s1 := addStore128 s guard argVal hp.computedArgs0
      let (s2, result) :=
        runCallG hp s1 guard "mkShadowTempTwoDoubles" [hp.computedArgs0]
          (hp.mkShadowTempTwoDoubles hp.computedArgs0)
      storeInputG lay s2 guard argExpr valType result
  else if num_vals = 4 then
    if valType ≠ .Ft_Single then none
    else if bytesType ≠ .Ity_V128 then none
    else
      let s1 := addStore128 s guard argVal hp.computedArgs0
      let (s2, result) :=
        runCallG hp s1 guard "mkShadowTempFourSingles" [hp.computedArgs0]
          (hp.mkShadowTempFourSingles hp.computedArgs0)
      storeInputG lay s2 guard argExpr valType result
  else none

/-! ### Concrete helpers -/

/-- Helpers for the concrete runs. The static inference knows nothing
(`Ft_Unknown`) except that the constant address 4096 holds no float; the
reads of the guest state give zero and the conversion of a float pattern is
the identity; `newShadowTemp` makes the temporary at 5200 with its array of
values at 5208; each other helper that makes a temporary or a value returns
a fixed address and leaves the machine as it is; `setMemShadowTemp` keeps the
shadow of the memory at address `a` in the word at `9000 + a`; the constant
address 8192 holds a float without a shadow. -/
def plainHelpers : Helpers :=
  { inferTSType64 := fun _ _ => .Ft_Unknown
    inferMemType := fun a _ =>
      if a = 4096 then .Ft_NonFloat else if a = 8192 then .Ft_Unshadowed else .Ft_Unknown
    runGet32C := fun _ => 0
    runGet64C := fun _ => 0
    runGetI64 := fun _ _ _ _ => 0
    runF32toF64 := fun v => v
    floatTypeCode := fun _ => 0
    skipped := 0
    mkShadowValue := fun _ _ m => (m, 7200)
    newShadowTemp := fun _ m =>
      ({ m with mem := fun a => if a = 5200 then 5208 else m.mem a }, 5200)
    copyShadowTemp := fun _ m => (m, 5300)
    dynamicGet64 := fun _ _ m => (m, 0)
    dynamicGet128 := fun _ _ _ m => (m, 0)
    dynamicLoad32 := fun a m => (m, m.mem (9000 + a))
    dynamicLoad64 := fun a _ m => (m, m.mem (9000 + a))
    dynamicLoad128 := fun a _ _ m => (m, m.mem (9000 + a))
    setMemShadowTemp := fun a _ st m =>
      { m with mem := fun x => if x = 9000 + a then st else m.mem x }
    mkShadowTempOneSingle := fun _ m => (m, 5400)
    mkShadowTempOneDouble := fun _ m => (m, 5400)
    mkShadowTempTwoSingles := fun _ m => (m, 5400)
    mkShadowTempTwoDoubles := fun _ m => (m, 5400)
    mkShadowTempFourSingles := fun _ m => (m, 5400)
    computedArgs0 := 3000
    freedTemps := fun k => 10 + k
    irTypeAsFloatType := fun _ => .Ft_Unknown }

/-- The block with another static type for every offset of the thread
state. -/
def Block.withTsContext (s : Block) (ctx : Nat → FloatType) : Block :=
  { s with tsContext := ctx }

end Instrument
/-! ## Two concrete runs

Each argument of an op that has no shadow yet becomes a leaf value linked to
the value source of its argument slot (`initValueLeafAST`), whose expression
is the leaf holding the first value that came from it. -/

/-- The double `2.0` and its rounding to `float`. -/
def val2 : ShadowValue := { dbl := 0x4000000000000000, flt := 0x40000000 }
/-- The double `4.0` and its rounding to `float`. -/
def val4 : ShadowValue := { dbl := 0x4010000000000000, flt := 0x40800000 }
/-- The double `5.0` and its rounding to `float`. -/
def val5 : ShadowValue := { dbl := 0x4014000000000000, flt := 0x40A00000 }
/-- The double `6.0` and its rounding to `float`. -/
def val6 : ShadowValue := { dbl := 0x4018000000000000, flt := 0x40C00000 }
/-- The double `7.0` and its rounding to `float`. -/
def val7 : ShadowValue := { dbl := 0x401C000000000000, flt := 0x40E00000 }
/-- The double `9.0` and its rounding to `float`. -/
def val9 : ShadowValue := { dbl := 0x4022000000000000, flt := 0x41100000 }
/-- The double `10.0` and its rounding to `float`. -/
def val10 : ShadowValue := { dbl := 0x4024000000000000, flt := 0x41200000 }
/-- The double `11.0` and its rounding to `float`. -/
def val11 : ShadowValue := { dbl := 0x4026000000000000, flt := 0x41300000 }
/-- The double `13.0` and its rounding to `float`. -/
def val13 : ShadowValue := { dbl := 0x402A000000000000, flt := 0x41500000 }
/-- The double `17.0` and its rounding to `float`. -/
def val17 : ShadowValue := { dbl := 0x4031000000000000, flt := 0x41880000 }
/-- The double `20.0` and its rounding to `float`. -/
def val20 : ShadowValue := { dbl := 0x4034000000000000, flt := 0x41A00000 }
/-- The double `30.0` and its rounding to `float`. -/
def val30 : ShadowValue := { dbl := 0x403E000000000000, flt := 0x41F00000 }
/-- The double `-9.0` and its rounding to `float`. -/
def valNeg9 : ShadowValue := { dbl := 0xC022000000000000, flt := 0xC1100000 }
/-- The double `-20.0` and its rounding to `float`. -/
def valNeg20 : ShadowValue := { dbl := 0xC034000000000000, flt := 0xC1A00000 }

/-! ### The run of `bench/var-test.c`

`add(4, 5)` followed by `add(6, z + 6)` with `z = 5`: the op `+` inside `add`
is evaluated twice and the op `+` of `z + 6` once. -/

/-- The op `+` inside `add` (op 0) with the sources of its two arguments (ops
1 and 2), and the op `+` of `z + 6` (op 3) with the sources of its two
arguments (ops 4 and 5). No branch op has an expression yet; each source
holds the leaf of the first value that came from it (nodes 0 to 3). -/
def varTestHeap : Heap :=
  { ops :=
      [ { tag := .Op_Branch, symbol := ['+'], ast := none },
        { tag := .Op_Leaf, symbol := [], ast := some 0 },
        { tag := .Op_Leaf, symbol := [], ast := some 1 },
        { tag := .Op_Branch, symbol := ['+'], ast := none },
        { tag := .Op_Leaf, symbol := [], ast := some 2 },
        { tag := .Op_Leaf, symbol := [], ast := some 3 } ]
    nodes := [.Leaf (some val4), .Leaf (some val5), .Leaf (some val5), .Leaf (some val6)] }

/-- The value of the first call `add(4, 5)`: both arguments are fresh
leaves. -/
def addCall1 : ValueASTNode :=
  .mk val9 0 [leafValueAST val4 1, leafValueAST val5 2]
    [ { key := { val := val5, op := 2 }, varidx := 1 },
      { key := { val := val4, op := 1 }, varidx := 0 } ]

/-- The value of `z + 6` with `z = 5`: both arguments are fresh leaves. -/
def zPlus6 : ValueASTNode :=
  .mk val11 3 [leafValueAST val5 4, leafValueAST val6 5]
    [ { key := { val := val6, op := 5 }, varidx := 1 },
      { key := { val := val5, op := 4 }, varidx := 0 } ]

/-- The value of the second call `add(6, z + 6)`: the first argument is a
fresh leaf, the second is the value of `z + 6`. -/
def addCall2 : ValueASTNode :=
  .mk val17 0 [leafValueAST val6 1, zPlus6]
    [ { key := { val := val5, op := 4 }, varidx := 1 },
      { key := { val := val6, op := 5 }, varidx := 0 },
      { key := { val := val6, op := 1 }, varidx := 0 } ]

/-- A second call `add(6, 7)` whose two arguments are fresh leaves. -/
def addCall2Leaves : ValueASTNode :=
  .mk val13 0 [leafValueAST val6 1, leafValueAST val7 2]
    [ { key := { val := val7, op := 2 }, varidx := 1 },
      { key := { val := val6, op := 1 }, varidx := 0 } ]

/-- The expression updates of the run of `bench/var-test.c` that come before
the second call of `add`: `updateAST` for the first `add` and for
`z + 6`. -/
def varTestRunBeforeSecondAdd : Option Heap :=
  match updateAST varTestHeap 0 addCall1 with
  | none => none
  | some h1 => updateAST h1 3 zPlus6

/-- The three expression updates of the run of `bench/var-test.c`, in program
order: the last one is `updateAST` for the second `add`. -/
def varTestRun : Option Heap :=
  match varTestRunBeforeSecondAdd with
  | none => none
  | some h2 => updateAST h2 0 addCall2

/-! ### A source that keeps a stale constant

`s = x + y; t = x * y; u = -s; v = -t` with the two negations at one op site
(op 3), then a second evaluation of `x + y` on new inputs `10` and `20`, and
`d = x * 2` at a site (op 5) that has not been evaluated before. -/

/-- The op `+` (op 0) with the sources of its arguments (ops 1 and 2), the
negation (op 3), the op `*` of `x * y` (op 4), the op `*` of `x * 2` (op 5)
and the source of its second argument (op 6). -/
def staleHeap : Heap :=
  { ops :=
      [ { tag := .Op_Branch, symbol := ['+'], ast := none },
        { tag := .Op_Leaf, symbol := [], ast := some 0 },
        { tag := .Op_Leaf, symbol := [], ast := some 1 },
        { tag := .Op_Branch, symbol := ['-'], ast := none },
        { tag := .Op_Branch, symbol := ['*'], ast := none },
        { tag := .Op_Branch, symbol := ['*'], ast := none },
        { tag := .Op_Leaf, symbol := [], ast := some 2 } ]
    nodes := [.Leaf (some val4), .Leaf (some val5), .Leaf (some val2)] }

/-- The value of `x * y` with `x = 4` and `y = 5`, the leaves that the op `+`
created. -/
def mulXY : ValueASTNode :=
  .mk val20 4 [leafValueAST val4 1, leafValueAST val5 2]
    [ { key := { val := val5, op := 2 }, varidx := 1 },
      { key := { val := val4, op := 1 }, varidx := 0 } ]

/-- The value of `-(x + y)`. -/
def negSum : ValueASTNode :=
  .mk valNeg9 3 [addCall1]
    [ { key := { val := val4, op := 1 }, varidx := 1 },
      { key := { val := val5, op := 2 }, varidx := 0 } ]

/-- The value of `-(x * y)`. -/
def negProd : ValueASTNode :=
  .mk valNeg20 3 [mulXY]
    [ { key := { val := val4, op := 1 }, varidx := 1 },
      { key := { val := val5, op := 2 }, varidx := 0 } ]

/-- The value of the second evaluation of `x + y`, on the fresh leaves `10`
and `20`. -/
def addCall10 : ValueASTNode :=
  .mk val30 0 [leafValueAST val10 1, leafValueAST val20 2]
    [ { key := { val := val20, op := 2 }, varidx := 1 },
      { key := { val := val10, op := 1 }, varidx := 0 } ]

/-- The value of `x * 2` with `x = 10`, the leaf that the second evaluation
of `+` created. -/
def mulX2 : ValueASTNode :=
  .mk val20 5 [leafValueAST val10 1, leafValueAST val2 6]
    [ { key := { val := val2, op := 6 }, varidx := 1 },
      { key := { val := val10, op := 1 }, varidx := 0 } ]

/-- The updates that come before the first evaluation of `x * 2`, in program
order: `x + y`, `x * y`, the two negations and the second `x + y`. -/
def staleRunBefore : Option Heap :=
  match updateAST staleHeap 0 addCall1 with
  | none => none
  | some h1 =>
    match updateAST h1 4 mulXY with
    | none => none
    | some h2 =>
      match updateAST h2 3 negSum with
      | none => none
      | some h3 =>
        match updateAST h3 3 negProd with
        | none => none
        | some h4 => updateAST h4 0 addCall10

/-- The run including the first, and only, update of the site of
`x * 2`. -/
def staleRun : Option Heap :=
  match staleRunBefore with
  | none => none
  | some h5 => updateASTs h5 5 [mulX2]

/-! ### A tracked expression and its sub-expression -/

/-- The expression `(+ (* x y) z)` of op 0, whose first child is the
expression of op 1, and the expression `(* x y)` of op 1. -/
def sampleAstOf : Nat → Option OpASTTree
  | 0 => some (.Branch 0 [.Branch 1 [.Leaf none, .Leaf none], .Leaf none])
  | 1 => some (.Branch 1 [.Leaf none, .Leaf none])
  | _ => none


/-! ### Two expressions under one negation

The first three updates of the run above, `x + y`, `x * y` and `-(x + y)`, and
then the update of the negation with `-(x * y)`. -/

/-- The updates `x + y` at op 0, `x * y` at op 4 and `-(x + y)` at op 3. -/
def negRunBefore : Option Heap :=
  match updateAST staleHeap 0 addCall1 with
  | none => none
  | some h1 =>
    match updateAST h1 4 mulXY with
    | none => none
    | some h2 => updateAST h2 3 negSum

/-- The update of the negation (op 3) with `-(x * y)` after them. -/
def negRun : Option Heap :=
  match negRunBefore with
  | none => none
  | some h3 => updateAST h3 3 negProd

/-! ### A sum of nine inputs -/

/-- The expression of `((((((((x1 + x2) + x3) + x4) + x5) + x6) + x7) + x8) +
x9)`: nine variable leaves at the addresses 0 to 8 and eight additions, each
at its own op site, at the addresses 9 to 16. The addition at address `9 + i`
has the leaves 0 to `i + 1` below it, each in its own group. The root is at
address 16. -/
def nineSumHeap : Heap :=
  { ops := (List.range 8).map
      (fun i => { tag := .Op_Branch, symbol := ['+'], ast := some (9 + i) })
    nodes := List.replicate 9 (.Leaf none) ++ (List.range 8).map
      (fun i => .Branch i 2 [if i = 0 then 0 else 8 + i, i + 1]
        ((List.range (i + 2)).map (fun k => [k]))) }
/-! ## Relations used in the proofs -/

/-- The second node is the first one after some generalisation steps: the
same leaf or a variable in place of a leaf, and the same branch up to its
variable map or a variable in place of a branch. -/
def nodeLe : OpASTNode → OpASTNode → Prop
  | .Leaf v, n => n = .Leaf v ∨ n = .Leaf none
  | .Branch op na args _, n => (∃ vm, n = .Branch op na args vm) ∨ n = .Leaf none

/-- Every node of the first heap is still there in the second, generalised or
unchanged. -/
def nodesLe (h h' : Heap) : Prop :=
  ∀ (n : Nat) (node : OpASTNode), h.nodes[n]? = some node →
    ∃ node', h'.nodes[n]? = some node' ∧ nodeLe node node'

/-- What the split of one group has reached after the leaves `proc` of the
group: `kept` are the leaves left in the group and `grp` the groups split
off, each with the trace index of its leaves. -/
structure SplitInv (lk : Nat → Option Nat) (d0 : Nat) (proc kept : List Nat)
    (grp : List (Nat × List Nat)) : Prop where
  kept_eq : kept = proc.filter (fun x => lk x == some d0)
  grp_eq : ∀ (p d : Nat) (gg : List Nat), grp[p]? = some (d, gg) →
    d ≠ d0 ∧ gg = proc.filter (fun x => lk x == some d) ∧ gg ≠ []
  keys_inj : ∀ (p q d : Nat) (gg gg' : List Nat),
    grp[p]? = some (d, gg) → grp[q]? = some (d, gg') → p = q
  cover : ∀ x ∈ proc, lk x = some d0 ∨
    ∃ (p d : Nat) (gg : List Nat), grp[p]? = some (d, gg) ∧ lk x = some d

/-- The split map agrees with the groups split off so far. -/
structure SplitMapInv (sm : List (Nat × Nat)) (i base d0 : Nat)
    (grp : List (Nat × List Nat)) : Prop where
  first : HT_lookup sm d0 = some i
  found : ∀ (p d : Nat) (gg : List Nat),
    grp[p]? = some (d, gg) → HT_lookup sm d = some (base + p)
  missing : ∀ d, d ≠ d0 → (∀ (p : Nat) (gg : List Nat), grp[p]? ≠ some (d, gg)) →
    HT_lookup sm d = none

/-- The outcome of splitting the group `g`: the leaves kept in the group and
the groups split off it. -/
def GroupSplit (lk : Nat → Option Nat) (g kept : List Nat)
    (grp : List (Nat × List Nat)) : Prop :=
  ∃ d0, SplitInv lk d0 g kept grp ∧ kept ≠ []

/-- The groups that one original group has become. -/
def groupsOf (r : List Nat × List (Nat × List Nat)) : List (List Nat) :=
  r.1 :: r.2.map Prod.snd

/-- The groups of the result, listed original group by original group. -/
def outGroups (res : List (List Nat × List (Nat × List Nat))) : List (List Nat) :=
  (res.map groupsOf).flatten


/-- What holds of the state of `initValVarMap` between two registrations: the
indices handed out are those below the counter, one per float pattern, every
entry of the variable map carries the index of its pattern, and the counter
is the number of distinct patterns. -/
structure BuildInv (st : VarMapBuild) : Prop where
  below : ∀ k i, HT_lookup st.val_to_idx k = some i → i < st.idx_counter
  inj : ∀ k1 k2 i, HT_lookup st.val_to_idx k1 = some i →
    HT_lookup st.val_to_idx k2 = some i → k1 = k2
  entry : ∀ e ∈ st.var_map, HT_lookup st.val_to_idx (valKey e.key) = some e.varidx
  fromLeaf : ∀ k i, HT_lookup st.val_to_idx k = some i →
    ∃ e ∈ st.var_map, valKey e.key = k
  onto : ∀ i, i < st.idx_counter → ∃ k, HT_lookup st.val_to_idx k = some i
  count : st.idx_counter = ((st.var_map.map (fun e => valKey e.key)).dedup).length

/-- The second list of tracked ops is the first with some entries set to
`NULL`. -/
def Cleared (t t' : List (Option Nat)) : Prop :=
  List.Forall₂ (fun a b => b = a ∨ b = none) t t'

/-- The second variable map is the first one after some splits: its groups
are non-empty parts of groups of the first, and every leaf of the first is
still in a group. -/
def varMapLe (vm vm' : List (List Nat)) : Prop :=
  (∀ g' ∈ vm', g' ≠ [] ∧ ∃ g ∈ vm, ∀ x ∈ g', x ∈ g) ∧
    (∀ g ∈ vm, ∀ x ∈ g, ∃ g' ∈ vm', x ∈ g')

/-- The second node is the first one after some generalisation steps, with
what becomes of the variable map: the same leaf or a variable in place of a
leaf, and the same branch with its variable map split further, or a variable
in place of a branch. -/
def nodeRef : OpASTNode → OpASTNode → Prop
  | .Leaf v, n => n = .Leaf v ∨ n = .Leaf none
  | .Branch op na args vm, n =>
    (∃ vm', n = .Branch op na args vm' ∧ (vm' = vm ∨ varMapLe vm vm')) ∨ n = .Leaf none

/-- Every node of the first heap is still there in the second, generalised or
unchanged, and the ops are the same. -/
def nodesRef (h h' : Heap) : Prop :=
  h'.ops = h.ops ∧
    ∀ (n : Nat) (node : OpASTNode), h.nodes[n]? = some node →
      ∃ node', h'.nodes[n]? = some node' ∧ nodeRef node node'

/-- The variable map is one that a split against the lookup table leaves as it
is: the invariant check passes, no group is empty and the leaves of a group
have the same trace index. -/
def StableVarMap (tbl : List (Nat × Nat)) (vm : List (List Nat)) : Prop :=
  checkOpVarMapValueLookupTableMatch vm tbl = some () ∧
    (∀ g ∈ vm, g ≠ []) ∧
    (∀ g ∈ vm, ∀ x ∈ g, ∀ y ∈ g, HT_lookup tbl x = HT_lookup tbl y)

mutual
/-- The site expression at address `n` has nothing left to generalise against
the trace expression: a variable leaf, a constant leaf equal to the trace
value, or a branch of the op of the trace node whose variable map is stable
for the variable map of the trace node and whose children have nothing left
to generalise against the arguments. -/
def settled (h : Heap) (n : Nat) : ValueASTNode → Prop
  | .mk val op args var_map =>
    match h.nodes[n]? with
    | none => False
    | some (.Leaf none) => True
    | some (.Leaf (some c)) => doubleEq val.dbl c.dbl = true
    | some (.Branch bop _ bargs bvar_map) =>
      op = bop ∧
        (∃ tbl, opLookupTable h var_map [] = some tbl ∧ StableVarMap tbl bvar_map) ∧
        settledArgs h bargs 0 args
/-- The children `bargs[i], bargs[i+1], ...` have nothing left to generalise
against the arguments listed. -/
def settledArgs (h : Heap) (bargs : List Nat) (i : Nat) : List ValueASTNode → Prop
  | [] => True
  | a :: rest =>
    (match bargs[i]? with
      | none => False
      | some child => settled h child a) ∧ settledArgs h bargs (i + 1) rest
end
/-! ## Generalisation of expression trees -/

theorem nodeLe_refl (a : OpASTNode) : nodeLe a a := by
  cases a <;> simp [nodeLe]

theorem nodeLe_trans {a b c : OpASTNode} (h1 : nodeLe a b) (h2 : nodeLe b c) : nodeLe a c := by
  cases a with
  | Leaf v =>
    rcases h1 with rfl | rfl
    · exact h2
    · rcases h2 with rfl | rfl <;> simp [nodeLe]
  | Branch op na args vm =>
    rcases h1 with ⟨vm1, rfl⟩ | rfl
    · rcases h2 with ⟨vm2, rfl⟩ | rfl
      · exact Or.inl ⟨vm2, rfl⟩
      · exact Or.inr rfl
    · rcases h2 with h2 | h2 <;> exact Or.inr h2

theorem nodesLe_refl (h : Heap) : nodesLe h h :=
  fun _ node hn => ⟨node, hn, nodeLe_refl node⟩

theorem nodesLe_trans {a b c : Heap} (h1 : nodesLe a b) (h2 : nodesLe b c) : nodesLe a c := by
  intro n node hn
  obtain ⟨node1, hn1, hle1⟩ := h1 n node hn
  obtain ⟨node2, hn2, hle2⟩ := h2 n node1 hn1
  exact ⟨node2, hn2, nodeLe_trans hle1 hle2⟩

theorem nodesLe_setNode (h : Heap) (n : Nat) (old new : OpASTNode)
    (hold : h.nodes[n]? = some old) (hle : nodeLe old new) :
    nodesLe h (h.setNode n new) := by
  intro m node hm
  by_cases hmn : n = m
  · subst hmn
    rw [hold] at hm
    cases hm
    refine ⟨new, ?_, hle⟩
    have hlt : n < h.nodes.length := by
      rcases Nat.lt_or_ge n h.nodes.length with h1 | h1
      · exact h1
      · rw [List.getElem?_eq_none h1] at hold; cases hold
    simp [Heap.setNode, List.getElem?_set, hlt]
  · refine ⟨node, ?_, nodeLe_refl node⟩
    simp [Heap.setNode, List.getElem?_set, hmn, hm]

mutual
theorem fits_mono (h h' : Heap) (hle : nodesLe h h') (n : Nat) :
    ∀ v : ValueASTNode, fits h n v = true → fits h' n v = true
  | .mk val op args vm => by
    intro hf
    unfold fits at hf ⊢
    cases hn : h.nodes[n]? with
    | none => simp [hn] at hf
    | some node =>
      obtain ⟨node', hn', hle'⟩ := hle n node hn
      rw [hn'] 
      rw [hn] at hf
      cases node with
      | Leaf c =>
        rcases hle' with rfl | rfl
        · cases c with
          | none => rfl
          | some c => exact hf
        · rfl
      | Branch bop na bargs bvm =>
        rcases hle' with ⟨vm', rfl⟩ | rfl
        · simp only [Bool.and_eq_true, decide_eq_true_eq] at hf ⊢
          exact ⟨hf.1, fitsArgs_mono h h' hle bargs 0 args hf.2⟩
        · rfl
theorem fitsArgs_mono (h h' : Heap) (hle : nodesLe h h') (bargs : List Nat) (i : Nat) :
    ∀ args : List ValueASTNode, fitsArgs h bargs i args = true → fitsArgs h' bargs i args = true
  | [] => by intro _; simp [fitsArgs]
  | a :: rest => by
    intro hf
    unfold fitsArgs at hf ⊢
    simp only [Bool.and_eq_true] at hf ⊢
    refine ⟨?_, fitsArgs_mono h h' hle bargs (i + 1) rest hf.2⟩
    cases hb : bargs[i]? with
    | none => simp [hb] at hf
    | some child =>
      simp only [hb] at hf ⊢
      exact fits_mono h h' hle child a hf.1
end


theorem getElem?_nodes_lt {h : Heap} {n : Nat} {node : OpASTNode}
    (hn : h.nodes[n]? = some node) : n < h.nodes.length := by
  rcases Nat.lt_or_ge n h.nodes.length with h1 | h1
  · exact h1
  · rw [List.getElem?_eq_none h1] at hn; cases hn

theorem setNode_get (h : Heap) (n : Nat) (node new : OpASTNode)
    (hn : h.nodes[n]? = some node) : (h.setNode n new).nodes[n]? = some new := by
  have hlt := getElem?_nodes_lt hn
  simp [Heap.setNode, List.getElem?_set, hlt]

mutual
theorem generalizeAST_spec (h : Heap) (n : Nat) :
    ∀ (v : ValueASTNode) (h' : Heap), generalizeAST h n v = some h' →
      h'.ops = h.ops ∧ nodesLe h h' ∧ fits h' n v = true
  | .mk val op args vm => by
    intro h' hg
    unfold generalizeAST at hg
    cases hn : h.nodes[n]? with
    | none => simp [hn] at hg
    | some node =>
      rw [hn] at hg
      cases node with
      | Leaf c =>
        cases c with
        | none =>
          simp only [Option.some.injEq] at hg
          subst hg
          exact ⟨rfl, nodesLe_refl h, by unfold fits; rw [hn]⟩
        | some c =>
          simp only at hg
          split at hg
          · next heq =>
            simp only [Option.some.injEq] at hg
            subst hg
            refine ⟨rfl, nodesLe_refl h, ?_⟩
            unfold fits; rw [hn]; simp [sameDouble, heq]
          · simp only [Option.some.injEq] at hg
            subst hg
            refine ⟨rfl, nodesLe_setNode h n _ _ hn (Or.inr rfl), ?_⟩
            unfold fits; rw [setNode_get h n _ _ hn]
      | Branch bop na bargs bvm =>
        simp only at hg
        split at hg
        · simp only [Option.some.injEq] at hg
          subst hg
          refine ⟨rfl, nodesLe_setNode h n _ _ hn (Or.inr rfl), ?_⟩
          unfold fits; rw [setNode_get h n _ _ hn]
        · next hop =>
          have hop' : op = bop := by simpa using hop
          cases hvm : generalizeVarMap h bvm vm with
          | none => simp [hvm] at hg
          | some vm' =>
            rw [hvm] at hg
            simp only at hg
            have hle1 : nodesLe h (h.setNode n (.Branch bop na bargs vm')) :=
              nodesLe_setNode h n _ _ hn (Or.inl ⟨vm', rfl⟩)
            have hn1 := setNode_get h n _ (.Branch bop na bargs vm') hn
            obtain ⟨hops, hle2, hfa⟩ :=
              generalizeArgs_spec _ n 0 args h' hg bop na bargs vm' hn1
            refine ⟨hops, nodesLe_trans hle1 hle2, ?_⟩
            obtain ⟨node', hn', hle'⟩ := hle2 n _ hn1
            unfold fits; rw [hn']
            rcases hle' with ⟨vm2, rfl⟩ | rfl
            · simp [hop', hfa]
            · rfl
theorem generalizeArgs_spec (h : Heap) (n : Nat) (i : Nat) :
    ∀ (args : List ValueASTNode) (h' : Heap), generalizeArgs h n i args = some h' →
      ∀ bop na bargs vm, h.nodes[n]? = some (.Branch bop na bargs vm) →
      h'.ops = h.ops ∧ nodesLe h h' ∧ fitsArgs h' bargs i args = true
  | [] => by
    intro h' hg bop na bargs vm _
    unfold generalizeArgs at hg
    simp only [Option.some.injEq] at hg
    subst hg
    exact ⟨rfl, nodesLe_refl h, by simp [fitsArgs]⟩
  | a :: rest => by
    intro h' hg bop na bargs vm hn
    unfold generalizeArgs at hg
    rw [hn] at hg
    simp only at hg
    cases hb : bargs[i]? with
    | none => simp [hb] at hg
    | some child =>
      rw [hb] at hg
      simp only at hg
      cases hc : generalizeAST h child a with
      | none => simp [hc] at hg
      | some h1 =>
        rw [hc] at hg
        simp only at hg
        obtain ⟨hops1, hle1, hf1⟩ := generalizeAST_spec h child a h1 hc
        obtain ⟨node1, hn1, hnle⟩ := hle1 n _ hn
        rcases hnle with ⟨vm1, rfl⟩ | rfl
        · obtain ⟨hops2, hle2, hf2⟩ :=
            generalizeArgs_spec h1 n (i + 1) rest h' hg bop na bargs vm1 hn1
          refine ⟨hops2.trans hops1, nodesLe_trans hle1 hle2, ?_⟩
          unfold fitsArgs
          simp only [hb, Bool.and_eq_true]
          exact ⟨fits_mono h1 h' hle2 child a hf1, hf2⟩
        · cases rest with
          | nil =>
            unfold generalizeArgs at hg
            simp only [Option.some.injEq] at hg
            subst hg
            refine ⟨hops1, hle1, ?_⟩
            unfold fitsArgs
            simp [hb, hf1, fitsArgs]
          | cons b rest' =>
            unfold generalizeArgs at hg
            rw [hn1] at hg
            simp at hg
end

theorem setOpAst_nodes (h : Heap) (op n : Nat) : (h.setOpAst op n).nodes = h.nodes := rfl

theorem opAst_setOpAst_self (h : Heap) (op n : Nat) (info : Op_Info)
    (hi : h.ops[op]? = some info) : (h.setOpAst op n).opAst op = some n := by
  have hlt : op < h.ops.length := by
    rcases Nat.lt_or_ge op h.ops.length with h1 | h1
    · exact h1
    · rw [List.getElem?_eq_none h1] at hi; cases hi
  simp [Heap.setOpAst, Heap.opAst, hi, List.getElem?_set, hlt]

theorem nodesLe_of_unchanged (h h' : Heap)
    (hp : ∀ m, m < h.nodes.length → h'.nodes[m]? = h.nodes[m]?) : nodesLe h h' := by
  intro m node hm
  exact ⟨node, by rw [hp m (getElem?_nodes_lt hm)]; exact hm, nodeLe_refl node⟩

theorem convertArgs_shared (h : Heap) :
    ∀ args : List ValueASTNode, (∀ a ∈ args, ∃ n, h.opAst a.op = some n) →
      convertArgs h args = some (h, args.filterMap (fun a => h.opAst a.op))
  | [] => by intro _; simp [convertArgs]
  | a :: rest => by
    intro hall
    obtain ⟨n, hn⟩ := hall a (List.mem_cons_self a rest)
    have hrest := convertArgs_shared h rest
      (fun b hb => hall b (List.mem_cons_of_mem a hb))
    unfold convertArgs
    have hca : convertValASTtoOpAST h a = some (h, n) := by
      cases a with
      | mk val op args vm =>
        unfold convertValASTtoOpAST
        simp only [Heap.opAst, ValueASTNode.op] at hn
        cases hi : h.ops[op]? with
        | none => simp [hi] at hn
        | some info =>
          simp only [hi] at hn
          simp [hn]
    rw [hca]
    simp only [hrest]
    simp [List.filterMap_cons, hn]

theorem fitsArgs_shared (h h' : Heap) (hle : nodesLe h h') (f : ValueASTNode → Option Nat) :
    ∀ (args : List ValueASTNode) (pre : List Nat),
      (∀ a ∈ args, ∃ n, f a = some n ∧ fits h n a = true) →
      fitsArgs h' (pre ++ args.filterMap f) pre.length args = true
  | [], pre => by intro _; simp [fitsArgs]
  | a :: rest, pre => by
    intro hall
    obtain ⟨n, hn, hf⟩ := hall a (List.mem_cons_self a rest)
    have hrest := fitsArgs_shared h h' hle f rest (pre ++ [n])
      (fun b hb => hall b (List.mem_cons_of_mem a hb))
    have hget : (pre ++ n :: List.filterMap f rest)[pre.length]? = some n := by
      rw [List.getElem?_append_right (Nat.le_refl _)]; simp
    unfold fitsArgs
    simp only [List.filterMap_cons, hn, Bool.and_eq_true, hget]
    constructor
    · exact fits_mono h h' hle n a hf
    · simpa using hrest


theorem setOpAst_ops_self (h : Heap) (op n : Nat) (info : Op_Info)
    (hi : h.ops[op]? = some info) :
    (h.setOpAst op n).ops[op]? = some { info with ast := some n } := by
  have hlt := (List.getElem?_eq_some.mp hi).1
  simp [Heap.setOpAst, hi, List.getElem?_set, hlt]

theorem updateAST_first (h h1 : Heap) (s : Nat) (v1 : ValueASTNode)
    (hs : h.opAst s = none) (hop : v1.op = s)
    (hargs : ∀ a ∈ v1.args, ∃ n, h.opAst a.op = some n ∧ fits h n a = true)
    (hrun : updateAST h s v1 = some h1) :
    ∃ n, h1.opAst s = some n ∧ fits h1 n v1 = true := by
  cases v1 with
  | mk val op args vm =>
    simp only [ValueASTNode.op] at hop
    subst hop
    simp only [ValueASTNode.args] at hargs
    unfold updateAST at hrun
    cases hi : h.ops[op]? with
    | none => simp [hi] at hrun
    | some info =>
      have hast : info.ast = none := by simpa [Heap.opAst, hi] using hs
      simp only [hi, hast] at hrun
      unfold convertValASTtoOpAST at hrun
      simp only [hi, hast] at hrun
      generalize hh0 : ({ h with nodes := h.nodes ++ [OpASTNode.Branch op args.length [] []] }
        : Heap) = h0 at hrun
      have h0ops : h0.ops = h.ops := by rw [← hh0]
      have h0nodes : h0.nodes = h.nodes ++ [OpASTNode.Branch op args.length [] []] := by
        rw [← hh0]
      have h0ast : ∀ a, h0.opAst a = h.opAst a := by
        intro a; simp [Heap.opAst, h0ops]
      have hca := convertArgs_shared h0 args
        (fun a ha => by
          obtain ⟨n, hn, _⟩ := hargs a ha
          exact ⟨n, by rw [h0ast]; exact hn⟩)
      rw [hca] at hrun
      simp only at hrun
      cases hvm : opvarmapFromValvarmap h0 vm [] with
      | none => simp [hvm] at hrun
      | some ovm =>
        simp only [hvm, Option.some.injEq] at hrun
        generalize hh2 : h0.setNode h.nodes.length (OpASTNode.Branch op args.length
          (List.filterMap (fun a => h0.opAst a.op) args) ovm) = h2 at hrun
        have h2ops : h2.ops[op]? = some info := by
          rw [← hh2]; show h0.ops[op]? = some info; rw [h0ops]; exact hi
        have h3ops := setOpAst_ops_self h2 op h.nodes.length info h2ops
        have hnodes : h1.nodes = (h.nodes ++ [OpASTNode.Branch op args.length [] []]).set
            h.nodes.length (OpASTNode.Branch op args.length
              (List.filterMap (fun a => h0.opAst a.op) args) ovm) := by
          rw [← hrun, setOpAst_nodes, setOpAst_nodes, ← hh2, ← h0nodes]; rfl
        have hlen : h.nodes.length <
            (h.nodes ++ [OpASTNode.Branch op args.length [] []]).length := by simp
        refine ⟨h.nodes.length, ?_, ?_⟩
        · rw [← hrun]
          exact opAst_setOpAst_self _ op _ _ h3ops
        · have hle : nodesLe h h1 := by
            apply nodesLe_of_unchanged
            intro m hm
            have hne : h.nodes.length ≠ m := by omega
            rw [hnodes, List.getElem?_set_ne hne, List.getElem?_append_left hm]
          have hfa := fitsArgs_shared h h1 hle (fun a => h0.opAst a.op) args []
            (fun a ha => by
              obtain ⟨n, hn, hf⟩ := hargs a ha
              exact ⟨n, by show h0.opAst a.op = some n; rw [h0ast]; exact hn, hf⟩)
          unfold fits
          rw [hnodes, List.getElem?_set_self hlen]
          simpa using hfa

theorem updateASTs_append (s : Nat) :
    ∀ (l1 l2 : List ValueASTNode) (h h' : Heap), updateASTs h s (l1 ++ l2) = some h' →
      ∃ h1, updateASTs h s l1 = some h1 ∧ updateASTs h1 s l2 = some h'
  | [], l2, h, h' => by
    intro hr
    exact ⟨h, by simp [updateASTs], by simpa using hr⟩
  | v :: l1, l2, h, h' => by
    intro hr
    simp only [List.cons_append] at hr
    unfold updateASTs at hr
    cases hu : updateAST h s v with
    | none => simp [hu] at hr
    | some ha =>
      rw [hu] at hr
      simp only at hr
      obtain ⟨h1, hr1, hr2⟩ := updateASTs_append s l1 l2 ha h' hr
      refine ⟨h1, ?_, hr2⟩
      unfold updateASTs
      rw [hu]
      exact hr1

theorem updateASTs_fits (s n : Nat) :
    ∀ (rest seen : List ValueASTNode) (h h' : Heap), h.opAst s = some n →
      (∀ v ∈ seen, fits h n v = true) → updateASTs h s rest = some h' →
      h'.opAst s = some n ∧ ∀ v ∈ seen ++ rest, fits h' n v = true
  | [], seen, h, h' => by
    intro hs hseen hr
    simp only [updateASTs, Option.some.injEq] at hr
    subst hr
    exact ⟨hs, by simpa using hseen⟩
  | v :: rest, seen, h, h' => by
    intro hs hseen hr
    unfold updateASTs at hr
    cases hu : updateAST h s v with
    | none => simp [hu] at hr
    | some h1 =>
      rw [hu] at hr
      simp only at hr
      have hg : generalizeAST h n v = some h1 := by
        unfold updateAST at hu
        simp only [Heap.opAst] at hs
        cases hi : h.ops[s]? with
        | none => simp [hi] at hs
        | some info =>
          simp only [hi] at hs hu
          simpa [hs] using hu
      obtain ⟨hops, hle, hf⟩ := generalizeAST_spec h n v h1 hg
      have hs1 : h1.opAst s = some n := by
        simpa [Heap.opAst, hops] using hs
      have hseen1 : ∀ w ∈ seen ++ [v], fits h1 n w = true := by
        intro w hw
        rcases List.mem_append.mp hw with hw | hw
        · exact fits_mono h h1 hle n w (hseen w hw)
        · simp only [List.mem_singleton] at hw
          subst hw
          exact hf
      have := updateASTs_fits s n rest (seen ++ [v]) h1 h' hs1 hseen1 hr
      simpa using this

/-- What `updateAST` does guarantee. For an op site `s` that has no expression yet, a
first trace value `v1` produced by `s` each of whose arguments comes from an op
whose recorded expression fits that argument, and later trace values `rest`:
whenever the calls of `updateAST` complete, then after each of them the site
expression fits every value passed so far (a constant leaf of the site sits
where the value has the same double, a branch sits where the value comes from
the same op and the children fit the arguments position by position), so no
later update makes the site expression stop fitting an earlier value. -/
theorem updateASTs_generalises (h h' : Heap) (s : Nat) (v1 : ValueASTNode)
    (rest : List ValueASTNode)
    (hs : h.opAst s = none) (hop : v1.op = s)
    (hargs : ∀ a ∈ v1.args, ∃ n, h.opAst a.op = some n ∧ fits h n a = true)
    (hrun : updateASTs h s (v1 :: rest) = some h') :
    ∀ k, k ≤ rest.length → ∃ hk n, updateASTs h s (v1 :: rest.take k) = some hk ∧
      hk.opAst s = some n ∧ ∀ v ∈ v1 :: rest.take k, fits hk n v = true := by
  intro k _
  have hsplit : v1 :: rest = (v1 :: rest.take k) ++ rest.drop k := by
    simp [List.take_append_drop]
  rw [hsplit] at hrun
  obtain ⟨hk, hrk, _⟩ := updateASTs_append s _ _ h h' hrun
  refine ⟨hk, ?_⟩
  have hrk' := hrk
  unfold updateASTs at hrk
  cases hu : updateAST h s v1 with
  | none => simp [hu] at hrk
  | some h1 =>
    rw [hu] at hrk
    simp only at hrk
    obtain ⟨n, hn, hf⟩ := updateAST_first h h1 s v1 hs hop hargs hu
    have := updateASTs_fits s n (rest.take k) [v1] h1 hk hn
      (by intro v hv; simp only [List.mem_singleton] at hv; subst hv; exact hf) hrk
    exact ⟨n, hrk', this.1, by simpa using this.2⟩

/-- An instance: the site of `add` observing `add(4, 5)` and then
`add(6, 7)`. -/
theorem updateASTs_generalises_witness :
    varTestHeap.opAst 0 = none ∧ addCall1.op = 0 ∧
    updateASTs varTestHeap 0 [addCall1, addCall2Leaves] ≠ none ∧
    ∀ k, k ≤ [addCall2Leaves].length →
      ∃ hk n, updateASTs varTestHeap 0 (addCall1 :: [addCall2Leaves].take k) = some hk ∧
        hk.opAst 0 = some n ∧
        ∀ v ∈ addCall1 :: [addCall2Leaves].take k, fits hk n v = true :=
  ⟨by decide, rfl, by decide,
    updateASTs_generalises varTestHeap
      ((updateASTs varTestHeap 0 [addCall1, addCall2Leaves]).getD varTestHeap) 0
      addCall1 [addCall2Leaves] (by decide) rfl
      (by
        intro a ha
        simp only [addCall1, ValueASTNode.args, List.mem_cons, List.mem_singleton,
          List.not_mem_nil, or_false] at ha
        rcases ha with rfl | rfl
        · exact ⟨0, by decide, by decide⟩
        · exact ⟨1, by decide, by decide⟩)
      (by decide)⟩

/-- C1: the site expression need not fit the value it was built from. In the
run `s = x + y; t = x * y;
u = -s; v = -t`, a second `x + y` on the inputs 10 and 20, and then
`d = x * 2`, every update completes and the site of `x * 2` (op 5) has no
expression before its first value; after that one update its expression is
the branch with children 0 and 2, and child 0 is still the constant `4.0`
where the value has `10.0`: the site expression does not fit the only value
it has seen. -/
theorem updateAST_shares_stale_constant :
    staleRunBefore.map (fun h => h.opAst 5) = some none ∧
    staleRun.map (fun h => h.opAst 5) = some (some 6) ∧
    staleRun.map (fun h => h.nodes[6]?) = some (some (.Branch 5 2 [0, 2] [[0], [2]])) ∧
    staleRun.map (fun h => h.nodes[0]?) = some (some (.Leaf (some val4))) ∧
    mulX2.args.map (fun a => a.val) = [val10, val2] ∧
    staleRun.map (fun h => fits h 6 mulX2) = some false := by
  decide

/-- The variable maps written out in the values of the two runs are the ones
`initValueBranchAST` builds. -/
theorem scenario_values_built :
    initValueBranchAST varTestHeap val9 0 [leafValueAST val4 1, leafValueAST val5 2]
      = some addCall1 ∧
    initValueBranchAST varTestHeap val11 3 [leafValueAST val5 4, leafValueAST val6 5]
      = some zPlus6 ∧
    initValueBranchAST varTestHeap val17 0 [leafValueAST val6 1, zPlus6] = some addCall2 ∧
    initValueBranchAST varTestHeap val13 0 [leafValueAST val6 1, leafValueAST val7 2]
      = some addCall2Leaves ∧
    initValueBranchAST staleHeap val20 4 [leafValueAST val4 1, leafValueAST val5 2]
      = some mulXY ∧
    initValueBranchAST staleHeap valNeg9 3 [addCall1] = some negSum ∧
    initValueBranchAST staleHeap valNeg20 3 [mulXY] = some negProd ∧
    initValueBranchAST staleHeap val30 0 [leafValueAST val10 1, leafValueAST val20 2]
      = some addCall10 ∧
    initValueBranchAST staleHeap val20 5 [leafValueAST val10 1, leafValueAST val2 6]
      = some mulX2 :=
  ⟨rfl, rfl, rfl, rfl, rfl, rfl, rfl, rfl, rfl⟩

/-- Claim C4, evaluated on the run of `bench/var-test.c`. The updates for
`add(4, 5)` and for `z + 6` complete, and the update for `add(6, z + 6)` does
not: `generalizeVarMap` stops in `checkOpVarMapValueLookupTableMatch`,
because the leaf of the second argument of the first call has no entry in the
variable map of the second value. No expression is printed for `add`. -/
theorem varTest_second_add_stops :
    varTestRunBeforeSecondAdd.isSome = true ∧
    varTestRunBeforeSecondAdd.map (fun h => h.opAst 0) = some (some 4) ∧
    varTestRunBeforeSecondAdd.map (fun h => h.nodes[4]?)
      = some (some (.Branch 0 2 [0, 1] [[0], [1]])) ∧
    varTestRunBeforeSecondAdd.map (fun h => opLookupTable h addCall2.var_map [])
      = some (some [(0, 0), (3, 0), (2, 1)]) ∧
    checkOpVarMapValueLookupTableMatch [[0], [1]] [(0, 0), (3, 0), (2, 1)] = none ∧
    varTestRun = none := by
  decide

/-- When both arguments are fresh leaves in both calls, `add(4, 5)` and then
`add(6, 7)`, the two updates complete and the site prints as `(+ x y)`. -/
theorem leaves_run_prints (fmt : Nat → List Char) :
    (updateASTs varTestHeap 0 [addCall1, addCall2Leaves]).bind
      (fun h => opASTtoExpr h fmt 2 4) = some ['(', '+', ' ', 'x', ' ', 'y', ')'] :=
  rfl

/-- Claim C5. `generalizeAST` at a site leaf completes and changes nothing but
that leaf: a constant `c` stays `c` when the value of the trace node compares
equal to it as a double and becomes a variable otherwise; a variable stays a
variable, whatever the trace node. -/
theorem generalizeAST_leaf (h : Heap) (opast : Nat) (c : Option ShadowValue)
    (valast : ValueASTNode) (hleaf : h.nodes[opast]? = some (.Leaf c)) :
    ∃ h', generalizeAST h opast valast = some h' ∧
      h'.nodes[opast]? = some (.Leaf
        (c.bind (fun k => if doubleEq valast.val.dbl k.dbl then some k else none))) ∧
      (∀ m, m ≠ opast → h'.nodes[m]? = h.nodes[m]?) ∧ h'.ops = h.ops := by
  cases valast with
  | mk val op args vm =>
    unfold generalizeAST
    rw [hleaf]
    cases c with
    | none => exact ⟨h, rfl, hleaf, fun _ _ => rfl, rfl⟩
    | some k =>
      simp only [ValueASTNode.val, Option.some_bind]
      by_cases heq : doubleEq val.dbl k.dbl = true
      · simp only [heq, ↓reduceIte]
        exact ⟨h, rfl, hleaf, fun _ _ => rfl, rfl⟩
      · simp only [heq, Bool.false_eq_true, ↓reduceIte]
        refine ⟨_, rfl, setNode_get h opast _ _ hleaf, ?_, rfl⟩
        intro m hm
        have : opast ≠ m := fun e => hm e.symm
        simp [Heap.setNode, List.getElem?_set, this]

/-- Witness for claim C5: the constant `4.0` of the first argument of `add`
against a trace leaf `6.0`. -/
theorem generalizeAST_leaf_witness :
    varTestHeap.nodes[0]? = some (.Leaf (some val4)) ∧
    ∃ h', generalizeAST varTestHeap 0 (leafValueAST val6 1) = some h' ∧
      h'.nodes[0]? = some (.Leaf
        ((some val4).bind
          (fun k => if doubleEq (leafValueAST val6 1).val.dbl k.dbl then some k else none))) ∧
      (∀ m, m ≠ 0 → h'.nodes[m]? = varTestHeap.nodes[m]?) ∧ h'.ops = varTestHeap.ops :=
  ⟨by decide, generalizeAST_leaf varTestHeap 0 (some val4) (leafValueAST val6 1) (by decide)⟩
/-! ## Generalisation of variable maps -/

theorem getElem?_mid {α : Type} (pre : List α) (G : α) (tl : List α) :
    (pre ++ G :: tl)[pre.length]? = some G := by
  rw [List.getElem?_append_right (Nat.le_refl _)]; simp

theorem set_mid {α : Type} (pre : List α) (G G' : α) (tl : List α) :
    (pre ++ G :: tl).set pre.length G' = pre ++ G' :: tl := by
  induction pre with
  | nil => rfl
  | cons a pre ih => simp [ih]

theorem eraseIdx_mid {α : Type} (pre : List α) (G : α) (tl : List α) :
    (pre ++ G :: tl).eraseIdx pre.length = pre ++ tl := by
  induction pre with
  | nil => rfl
  | cons a pre ih => simp [ih]

theorem set_append_right' {α : Type} (l1 l2 : List α) (p : Nat) (v : α) :
    (l1 ++ l2).set (l1.length + p) v = l1 ++ l2.set p v := by
  induction l1 with
  | nil => simp
  | cons a l1 ih =>
    simp only [List.cons_append, List.length_cons]
    have h1 : l1.length + 1 + p = (l1.length + p) + 1 := by omega
    rw [h1, List.set_cons_succ, ih]

theorem getElem?_tail {α : Type} (pre : List α) (G : α) (post news : List α) (p : Nat) :
    (pre ++ G :: (post ++ news))[pre.length + 1 + post.length + p]? = news[p]? := by
  have h : pre ++ G :: (post ++ news) = (pre ++ G :: post) ++ news := by simp
  rw [h, List.getElem?_append_right (by simp; omega)]
  congr 1; simp; omega

theorem set_tail {α : Type} (pre : List α) (G : α) (post news : List α) (p : Nat) (v : α) :
    (pre ++ G :: (post ++ news)).set (pre.length + 1 + post.length + p) v
      = pre ++ G :: (post ++ news.set p v) := by
  have h : pre ++ G :: (post ++ news) = (pre ++ G :: post) ++ news := by simp
  have h2 : pre.length + 1 + post.length + p = (pre ++ G :: post).length + p := by simp; omega
  rw [h, h2, set_append_right']
  simp

theorem length_mid {α : Type} (pre : List α) (G : α) (post news : List α) :
    (pre ++ G :: (post ++ news)).length = pre.length + 1 + post.length + news.length := by
  simp; omega

theorem splitLoop_inv (tbl : List (Nat × Nat)) (d0 : Nat) (pre post : List (List Nat)) :
    ∀ (rest proc kept : List Nat) (grp : List (Nat × List Nat)) (sm : List (Nat × Nat))
      (fuel : Nat), rest.length < fuel →
      (∀ x ∈ rest, ∃ d, HT_lookup tbl x = some d) →
      SplitInv (HT_lookup tbl) d0 proc kept grp →
      SplitMapInv sm pre.length (pre.length + 1 + post.length) d0 grp →
      ∃ kept' grp', splitLoop tbl pre.length fuel kept.length
          (pre ++ (kept ++ rest) :: (post ++ grp.map Prod.snd)) sm
          = some (pre ++ kept' :: (post ++ grp'.map Prod.snd)) ∧
        SplitInv (HT_lookup tbl) d0 (proc ++ rest) kept' grp' := by
  intro rest
  induction rest with
  | nil =>
    intro proc kept grp sm fuel hfuel _ hinv _
    obtain ⟨f, rfl⟩ : ∃ f, fuel = f + 1 := ⟨fuel - 1, by omega⟩
    refine ⟨kept, grp, ?_, by simpa using hinv⟩
    unfold splitLoop
    simp only [getElem?_mid, List.append_nil]
    have : kept[kept.length]? = none := List.getElem?_eq_none (Nat.le_refl _)
    simp [this]
  | cons x rest ih =>
    intro proc kept grp sm fuel hfuel hlk hinv hsm
    obtain ⟨f, rfl⟩ : ∃ f, fuel = f + 1 := ⟨fuel - 1, by omega⟩
    have hf : rest.length < f := by simp at hfuel; omega
    obtain ⟨d, hd⟩ := hlk x (List.mem_cons_self x rest)
    have hlk' : ∀ y ∈ rest, ∃ d, HT_lookup tbl y = some d :=
      fun y hy => hlk y (List.mem_cons_of_mem x hy)
    unfold splitLoop
    simp only [getElem?_mid, hd]
    by_cases hdd : d = d0
    · -- the leaf matches the first leaf of the group and stays
      subst hdd
      have inv1 : SplitInv (HT_lookup tbl) d (proc ++ [x]) (kept ++ [x]) grp := by
        refine ⟨?_, ?_, hinv.keys_inj, ?_⟩
        · rw [List.filter_append, ← hinv.kept_eq]; simp [hd]
        · intro p d' gg hp
          obtain ⟨h1, h2, h3⟩ := hinv.grp_eq p d' gg hp
          refine ⟨h1, ?_, h3⟩
          rw [List.filter_append, ← h2]
          have : (HT_lookup tbl x == some d') = false := by
            rw [hd]; simp; exact fun h => h1 h.symm
          simp [this]
        · intro y hy
          rcases List.mem_append.mp hy with hy | hy
          · exact hinv.cover y hy
          · simp only [List.mem_singleton] at hy; subst hy; exact Or.inl hd
      obtain ⟨kept', grp', hrun, hinv'⟩ := ih (proc ++ [x]) (kept ++ [x]) grp sm f hf hlk' inv1 hsm
      refine ⟨kept', grp', ?_, by simpa using hinv'⟩
      simp only [hsm.first, ne_eq, not_true_eq_false, ↓reduceIte]
      simpa using hrun
    · by_cases hex : ∃ (p : Nat) (gg : List Nat), grp[p]? = some (d, gg)
      · -- the leaf joins a group that was split off earlier
        obtain ⟨p, gg, hp⟩ := hex
        have hplt : p < grp.length := (List.getElem?_eq_some.mp hp).1
        have hne : pre.length + 1 + post.length + p ≠ pre.length := by omega
        have hget : (pre ++ (kept ++ x :: rest) :: (post ++ List.map Prod.snd grp))[
            pre.length + 1 + post.length + p]? = some gg := by
          rw [getElem?_tail, List.getElem?_map, hp]; rfl
        have inv1 : SplitInv (HT_lookup tbl) d0 (proc ++ [x]) kept
            (grp.set p (d, gg ++ [x])) := by
          refine ⟨?_, ?_, ?_, ?_⟩
          · rw [List.filter_append, ← hinv.kept_eq]
            have : (HT_lookup tbl x == some d0) = false := by
              rw [hd]; simp; exact hdd
            simp [this]
          · intro q d' gg' hq
            rw [List.getElem?_set] at hq
            by_cases hpq : p = q
            · simp only [hpq, ↓reduceIte] at hq
              split at hq
              · simp only [Option.some.injEq, Prod.mk.injEq] at hq
                obtain ⟨rfl, rfl⟩ := hq
                obtain ⟨h1, h2, _⟩ := hinv.grp_eq p d gg hp
                refine ⟨h1, ?_, by simp⟩
                rw [List.filter_append, ← h2]; simp [hd]
              · cases hq
            · simp only [hpq, ↓reduceIte] at hq
              obtain ⟨h1, h2, h3⟩ := hinv.grp_eq q d' gg' hq
              refine ⟨h1, ?_, h3⟩
              rw [List.filter_append, ← h2]
              have hd' : d ≠ d' := by
                intro hEq; subst hEq
                exact hpq (hinv.keys_inj p q d gg gg' hp hq)
              have : (HT_lookup tbl x == some d') = false := by
                rw [hd]; simp; exact hd'
              simp [this]
          · intro q1 q2 d' g1 g2 h1 h2
            have key : ∀ (q d' : Nat) (g' : List Nat),
                (grp.set p (d, gg ++ [x]))[q]? = some (d', g') →
                ∃ g'', grp[q]? = some (d', g'') := by
              intro q d' g' hq
              rw [List.getElem?_set] at hq
              by_cases hpq : p = q
              · simp only [hpq, ↓reduceIte] at hq
                split at hq
                · simp only [Option.some.injEq, Prod.mk.injEq] at hq
                  obtain ⟨rfl, rfl⟩ := hq
                  exact ⟨gg, hpq ▸ hp⟩
                · cases hq
              · simp only [hpq, ↓reduceIte] at hq
                exact ⟨g', hq⟩
            obtain ⟨g1', h1'⟩ := key q1 d' g1 h1
            obtain ⟨g2', h2'⟩ := key q2 d' g2 h2
            exact hinv.keys_inj q1 q2 d' g1' g2' h1' h2'
          · intro y hy
            have key : ∀ (q d' : Nat) (g' : List Nat), grp[q]? = some (d', g') →
                ∃ g'', (grp.set p (d, gg ++ [x]))[q]? = some (d', g'') := by
              intro q d' g' hq
              rw [List.getElem?_set]
              by_cases hpq : p = q
              · subst hpq
                rw [hp] at hq
                simp only [Option.some.injEq, Prod.mk.injEq] at hq
                obtain ⟨rfl, rfl⟩ := hq
                exact ⟨gg ++ [x], by simp [hplt]⟩
              · exact ⟨g', by simp [hpq, hq]⟩
            rcases List.mem_append.mp hy with hy | hy
            · rcases hinv.cover y hy with h | ⟨q, d', g', hq, hlk2⟩
              · exact Or.inl h
              · obtain ⟨g'', hq'⟩ := key q d' g' hq
                exact Or.inr ⟨q, d', g'', hq', hlk2⟩
            · simp only [List.mem_singleton] at hy; subst hy
              obtain ⟨g'', hq'⟩ := key p d gg hp
              exact Or.inr ⟨p, d, g'', hq', hd⟩
        have sm1 : SplitMapInv sm pre.length (pre.length + 1 + post.length) d0
            (grp.set p (d, gg ++ [x])) := by
          refine ⟨hsm.first, ?_, ?_⟩
          · intro q d' g' hq
            rw [List.getElem?_set] at hq
            by_cases hpq : p = q
            · simp only [hpq, ↓reduceIte] at hq
              split at hq
              · simp only [Option.some.injEq, Prod.mk.injEq] at hq
                obtain ⟨rfl, rfl⟩ := hq
                exact hpq ▸ hsm.found p d gg hp
              · cases hq
            · simp only [hpq, ↓reduceIte] at hq
              exact hsm.found q d' g' hq
          · intro d' hd' hno
            apply hsm.missing d' hd'
            intro q g' hq
            by_cases hpq : p = q
            · subst hpq
              rw [hp] at hq
              simp only [Option.some.injEq, Prod.mk.injEq] at hq
              obtain ⟨rfl, rfl⟩ := hq
              exact hno p (gg ++ [x]) (by simp [List.getElem?_set, hplt])
            · exact hno q g' (by simp [List.getElem?_set, hpq, hq])
        obtain ⟨kept', grp', hrun, hinv'⟩ :=
          ih (proc ++ [x]) kept (grp.set p (d, gg ++ [x])) sm f hf hlk' inv1 sm1
        refine ⟨kept', grp', ?_, by simpa using hinv'⟩
        simp only [hsm.found p d gg hp, ne_eq, hne, not_false_eq_true, ↓reduceIte, hget]
        rw [set_tail, set_mid, eraseIdx_mid]
        simpa [List.map_set] using hrun
      · -- the leaf opens a new group at the end of the map
        have hno : ∀ (p : Nat) (gg : List Nat), grp[p]? ≠ some (d, gg) := fun p gg hp => hex ⟨p, gg, hp⟩
        have hnone : ∀ y ∈ proc, HT_lookup tbl y ≠ some d := by
          intro y hy hyd
          rcases hinv.cover y hy with h | ⟨q, d', g', hq, hlk2⟩
          · rw [h] at hyd; exact hdd (Option.some.inj hyd).symm
          · rw [hlk2] at hyd
            have : d' = d := Option.some.inj hyd
            subst this
            exact hno q g' hq
        have inv1 : SplitInv (HT_lookup tbl) d0 (proc ++ [x]) kept (grp ++ [(d, [x])]) := by
          refine ⟨?_, ?_, ?_, ?_⟩
          · rw [List.filter_append, ← hinv.kept_eq]
            have : (HT_lookup tbl x == some d0) = false := by
              rw [hd]; simp; exact hdd
            simp [this]
          · intro q d' gg' hq
            rw [List.getElem?_append] at hq
            split at hq
            · obtain ⟨h1, h2, h3⟩ := hinv.grp_eq q d' gg' hq
              refine ⟨h1, ?_, h3⟩
              rw [List.filter_append, ← h2]
              have hd' : d ≠ d' := by
                intro hEq; subst hEq; exact hno q gg' hq
              have : (HT_lookup tbl x == some d') = false := by
                rw [hd]; simp; exact hd'
              simp [this]
            · rcases Nat.eq_zero_or_pos (q - grp.length) with h0 | h0
              · rw [h0] at hq
                simp only [List.getElem?_cons_zero, Option.some.injEq, Prod.mk.injEq] at hq
                obtain ⟨rfl, rfl⟩ := hq
                refine ⟨hdd, ?_, by simp⟩
                rw [List.filter_append]
                have : List.filter (fun y => HT_lookup tbl y == some d) proc = [] := by
                  rw [List.filter_eq_nil_iff]
                  intro y hy
                  simpa using hnone y hy
                simp [this, hd]
              · obtain ⟨k, hk⟩ : ∃ k, q - grp.length = k + 1 := ⟨q - grp.length - 1, by omega⟩
                rw [hk] at hq; simp at hq
          · intro q1 q2 d' g1 g2 h1 h2
            rw [List.getElem?_append] at h1 h2
            have last : ∀ (q : Nat) (g : List Nat), ¬ q < grp.length →
                [(d, [x])][q - grp.length]? = some (d', g) →
                q = grp.length ∧ d' = d := by
              intro q g hq h
              rcases Nat.eq_zero_or_pos (q - grp.length) with h0 | h0
              · rw [h0] at h
                simp only [List.getElem?_cons_zero, Option.some.injEq, Prod.mk.injEq] at h
                exact ⟨by omega, h.1.symm⟩
              · obtain ⟨k, hk⟩ : ∃ k, q - grp.length = k + 1 := ⟨q - grp.length - 1, by omega⟩
                rw [hk] at h; simp at h
            split at h1 <;> split at h2
            · exact hinv.keys_inj q1 q2 d' g1 g2 h1 h2
            · next hq1 hq2 =>
              obtain ⟨_, rfl⟩ := last q2 g2 hq2 h2
              exact absurd h1 (hno q1 g1)
            · next hq1 hq2 =>
              obtain ⟨_, rfl⟩ := last q1 g1 hq1 h1
              exact absurd h2 (hno q2 g2)
            · next hq1 hq2 =>
              obtain ⟨e1, _⟩ := last q1 g1 hq1 h1
              obtain ⟨e2, _⟩ := last q2 g2 hq2 h2
              omega
          · intro y hy
            rcases List.mem_append.mp hy with hy | hy
            · rcases hinv.cover y hy with h | ⟨q, d', g', hq, hlk2⟩
              · exact Or.inl h
              · refine Or.inr ⟨q, d', g', ?_, hlk2⟩
                rw [List.getElem?_append_left (List.getElem?_eq_some.mp hq).1]; exact hq
            · simp only [List.mem_singleton] at hy; subst hy
              refine Or.inr ⟨grp.length, d, [y], ?_, hd⟩
              rw [List.getElem?_append_right (Nat.le_refl _)]; simp
        have sm1 : SplitMapInv ((d, (pre ++ (kept ++ x :: rest) ::
            (post ++ List.map Prod.snd grp)).length) :: sm) pre.length
            (pre.length + 1 + post.length) d0 (grp ++ [(d, [x])]) := by
          refine ⟨?_, ?_, ?_⟩
          · unfold HT_lookup; simp [hdd, hsm.first]
          · intro q d' g' hq
            rw [List.getElem?_append] at hq
            split at hq
            · have hd' : d ≠ d' := by
                intro hEq; subst hEq; exact hno q g' hq
              unfold HT_lookup; simp only [hd', ↓reduceIte]
              exact hsm.found q d' g' hq
            · next hq1 =>
              rcases Nat.eq_zero_or_pos (q - grp.length) with h0 | h0
              · rw [h0] at hq
                simp only [List.getElem?_cons_zero, Option.some.injEq, Prod.mk.injEq] at hq
                obtain ⟨rfl, rfl⟩ := hq
                unfold HT_lookup
                simp only [↓reduceIte, length_mid, List.length_map, Option.some.injEq]
                omega
              · obtain ⟨k, hk⟩ : ∃ k, q - grp.length = k + 1 := ⟨q - grp.length - 1, by omega⟩
                rw [hk] at hq; simp at hq
          · intro d' hd' hno'
            have hne' : d ≠ d' := by
              intro hEq; subst hEq
              exact hno' grp.length [x] (by
                rw [List.getElem?_append_right (Nat.le_refl _)]; simp)
            unfold HT_lookup; simp only [hne', ↓reduceIte]
            apply hsm.missing d' hd'
            intro q g' hq
            exact hno' q g' (by
              rw [List.getElem?_append_left (List.getElem?_eq_some.mp hq).1]; exact hq)
        obtain ⟨kept', grp', hrun, hinv'⟩ :=
          ih (proc ++ [x]) kept (grp ++ [(d, [x])]) _ f hf hlk' inv1 sm1
        refine ⟨kept', grp', ?_, by simpa using hinv'⟩
        rw [hsm.missing d hdd hno]
        simp only
        have e1 : (pre ++ (kept ++ x :: rest) :: (post ++ List.map Prod.snd grp)) ++ [[x]]
            = pre ++ (kept ++ x :: rest) :: (post ++ List.map Prod.snd (grp ++ [(d, [x])])) := by
          simp
        rw [e1, set_mid, eraseIdx_mid]
        exact hrun

theorem splitGroup_empty (tbl : List (Nat × Nat)) (pre post : List (List Nat)) :
    splitGroup tbl pre.length (pre ++ [] :: post) = none := by
  unfold splitGroup
  rw [getElem?_mid]
  rfl

theorem splitGroup_inv (tbl : List (Nat × Nat)) (pre post : List (List Nat)) (g : List Nat)
    (hne : g ≠ []) (hlk : ∀ x ∈ g, ∃ d, HT_lookup tbl x = some d) :
    ∃ kept grp, splitGroup tbl pre.length (pre ++ g :: post)
        = some (pre ++ kept :: (post ++ grp.map Prod.snd)) ∧
      GroupSplit (HT_lookup tbl) g kept grp := by
  cases g with
  | nil => exact absurd rfl hne
  | cons g0 tl =>
    obtain ⟨d0, hd0⟩ := hlk g0 (List.mem_cons_self g0 tl)
    have inv0 : SplitInv (HT_lookup tbl) d0 [g0] [g0] [] := by
      refine ⟨by simp [hd0], ?_, ?_, ?_⟩
      · intro p d gg hp; simp at hp
      · intro p q d gg gg' hp; simp at hp
      · intro x hx
        simp only [List.mem_singleton] at hx; subst hx; exact Or.inl hd0
    have sm0 : SplitMapInv [(d0, pre.length)] pre.length (pre.length + 1 + post.length) d0 [] := by
      refine ⟨by simp [HT_lookup], ?_, ?_⟩
      · intro p d gg hp; simp at hp
      · intro d hd _
        have : d0 ≠ d := fun h => hd h.symm
        simp [HT_lookup, this]
    obtain ⟨kept', grp', hrun, hinv'⟩ := splitLoop_inv tbl d0 pre post tl [g0] [g0] []
      [(d0, pre.length)] (g0 :: tl).length (by simp)
      (fun x hx => hlk x (List.mem_cons_of_mem g0 hx)) inv0 sm0
    refine ⟨kept', grp', ?_, d0, by simpa using hinv', ?_⟩
    · unfold splitGroup
      simp only [getElem?_mid, List.getElem?_cons_zero, hd0]
      simpa using hrun
    · have := hinv'.kept_eq
      rw [this]
      simp [hd0]

theorem groupLoop_inv (tbl : List (Nat × Nat)) :
    ∀ (U P N : List (List Nat)),
      (∀ g ∈ U, g ≠ [] ∧ ∀ x ∈ g, ∃ d, HT_lookup tbl x = some d) →
      ∃ res : List (List Nat × List (Nat × List Nat)),
        groupLoop tbl U.length P.length (P ++ U ++ N)
          = some (P ++ res.map Prod.fst ++
              (N ++ (res.map (fun r => r.2.map Prod.snd)).flatten)) ∧
        List.Forall₂ (fun g r => GroupSplit (HT_lookup tbl) g r.1 r.2) U res := by
  intro U
  induction U with
  | nil =>
    intro P N _
    exact ⟨[], by simp [groupLoop], List.Forall₂.nil⟩
  | cons g U ih =>
    intro P N hU
    obtain ⟨hne, hlk⟩ := hU g (List.mem_cons_self g U)
    obtain ⟨kept, grp, hsg, hgs⟩ := splitGroup_inv tbl P (U ++ N) g hne hlk
    obtain ⟨res, hrun, hall⟩ := ih (P ++ [kept]) (N ++ grp.map Prod.snd)
      (fun g' hg' => hU g' (List.mem_cons_of_mem g hg'))
    refine ⟨(kept, grp) :: res, ?_, List.Forall₂.cons hgs hall⟩
    simp only [List.length_cons]
    unfold groupLoop
    have e1 : P ++ g :: U ++ N = P ++ g :: (U ++ N) := by simp
    rw [e1, hsg]
    simp only
    have e2 : P ++ kept :: (U ++ N ++ List.map Prod.snd grp)
        = (P ++ [kept]) ++ U ++ (N ++ List.map Prod.snd grp) := by simp
    have e3 : P.length + 1 = (P ++ [kept]).length := by simp
    rw [e2, e3, hrun]
    simp

theorem groupLoop_nonempty (tbl : List (Nat × Nat)) :
    ∀ (U P N : List (List Nat)) (r : List (List Nat)),
      (∀ g ∈ U, ∀ x ∈ g, ∃ d, HT_lookup tbl x = some d) →
      groupLoop tbl U.length P.length (P ++ U ++ N) = some r →
      ∀ g ∈ U, g ≠ [] := by
  intro U
  induction U with
  | nil => intro P N r _ _ g hg; simp at hg
  | cons g U ih =>
    intro P N r hlk hrun g' hg'
    have e1 : P ++ g :: U ++ N = P ++ g :: (U ++ N) := by simp
    simp only [List.length_cons] at hrun
    unfold groupLoop at hrun
    rw [e1] at hrun
    have hne : g ≠ [] := by
      intro h0
      subst h0
      rw [splitGroup_empty] at hrun
      simp at hrun
    rcases List.mem_cons.mp hg' with rfl | hg'
    · exact hne
    · obtain ⟨kept, grp, hsg, _⟩ := splitGroup_inv tbl P (U ++ N) g hne
        (hlk g (List.mem_cons_self g U))
      rw [hsg] at hrun
      simp only at hrun
      have e2 : P ++ kept :: (U ++ N ++ List.map Prod.snd grp)
          = (P ++ [kept]) ++ U ++ (N ++ List.map Prod.snd grp) := by simp
      have e3 : P.length + 1 = (P ++ [kept]).length := by simp
      rw [e2, e3] at hrun
      exact ih (P ++ [kept]) (N ++ grp.map Prod.snd) r
        (fun g2 hg2 => hlk g2 (List.mem_cons_of_mem g hg2)) hrun g' hg'

theorem SplitInv.keys_nodup {lk : Nat → Option Nat} {d0 : Nat} {proc kept : List Nat}
    {grp : List (Nat × List Nat)} (h : SplitInv lk d0 proc kept grp) :
    (grp.map Prod.fst).Nodup := by
  rw [List.nodup_iff_getElem?_ne_getElem?]
  intro i j hij hj heq
  simp only [List.length_map] at hj
  rw [List.getElem?_map, List.getElem?_map] at heq
  have hi : i < grp.length := by omega
  rw [List.getElem?_eq_getElem hi, List.getElem?_eq_getElem hj] at heq
  simp only [Option.map_some', Option.some.injEq] at heq
  have h1 : grp[i]? = some ((grp[i]).1, (grp[i]).2) := by
    rw [List.getElem?_eq_getElem hi]
  have h2 : grp[j]? = some ((grp[i]).1, (grp[j]).2) := by
    rw [List.getElem?_eq_getElem hj, heq]
  have := h.keys_inj i j _ _ _ h1 h2
  omega

theorem SplitInv.mem_grp {lk : Nat → Option Nat} {d0 : Nat} {proc kept : List Nat}
    {grp : List (Nat × List Nat)} (h : SplitInv lk d0 proc kept grp)
    (e : Nat × List Nat) (he : e ∈ grp) :
    e.1 ≠ d0 ∧ e.2 = proc.filter (fun x => lk x == some e.1) ∧ e.2 ≠ [] := by
  obtain ⟨p, hp⟩ := List.getElem?_of_mem he
  exact h.grp_eq p e.1 e.2 hp

theorem SplitInv.cover_mem {lk : Nat → Option Nat} {d0 : Nat} {proc kept : List Nat}
    {grp : List (Nat × List Nat)} (h : SplitInv lk d0 proc kept grp)
    (x : Nat) (hx : x ∈ proc) :
    lk x = some d0 ∨ ∃ e ∈ grp, lk x = some e.1 := by
  rcases h.cover x hx with h1 | ⟨p, d, gg, hp, hl⟩
  · exact Or.inl h1
  · exact Or.inr ⟨(d, gg), List.getElem?_mem hp, hl⟩

theorem GroupSplit.shape {lk : Nat → Option Nat} {g kept : List Nat}
    {grp : List (Nat × List Nat)} (h : GroupSplit lk g kept grp) :
    ∀ g' ∈ groupsOf (kept, grp), g' ≠ [] ∧
      ∃ d, g' = g.filter (fun x => lk x == some d) := by
  obtain ⟨d0, hinv, hne⟩ := h
  intro g' hg'
  simp only [groupsOf, List.mem_cons, List.mem_map] at hg'
  rcases hg' with rfl | ⟨e, he, rfl⟩
  · exact ⟨hne, d0, hinv.kept_eq⟩
  · obtain ⟨_, h2, h3⟩ := hinv.mem_grp e he
    exact ⟨h3, e.1, h2⟩

theorem GroupSplit.coarsest {lk : Nat → Option Nat} {g kept : List Nat}
    {grp : List (Nat × List Nat)} (h : GroupSplit lk g kept grp) :
    ∀ x ∈ g, ∃ g' ∈ groupsOf (kept, grp), ∀ y ∈ g, lk y = lk x → y ∈ g' := by
  obtain ⟨d0, hinv, _⟩ := h
  intro x hx
  rcases hinv.cover_mem x hx with h1 | ⟨e, he, h1⟩
  · refine ⟨kept, by simp [groupsOf], ?_⟩
    intro y hy hyx
    rw [hinv.kept_eq, List.mem_filter]
    exact ⟨hy, by simp [hyx, h1]⟩
  · refine ⟨e.2, by simp only [groupsOf, List.mem_cons, List.mem_map]; exact Or.inr ⟨e, he, rfl⟩, ?_⟩
    intro y hy hyx
    rw [(hinv.mem_grp e he).2.1, List.mem_filter]
    exact ⟨hy, by simp [hyx, h1]⟩

theorem GroupSplit.count {lk : Nat → Option Nat} {g kept : List Nat}
    {grp : List (Nat × List Nat)} (h : GroupSplit lk g kept grp) (x : Nat) :
    (groupsOf (kept, grp)).countP (fun g' => decide (x ∈ g'))
      = if x ∈ g then 1 else 0 := by
  obtain ⟨d0, hinv, _⟩ := h
  have hmap : (grp.map Prod.snd).countP (fun g' => decide (x ∈ g'))
      = grp.countP (fun e => decide (x ∈ g ∧ lk x = some e.1)) := by
    rw [List.countP_map]
    apply List.countP_congr
    intro e he
    simp only [Function.comp, decide_eq_true_eq]
    rw [(hinv.mem_grp e he).2.1, List.mem_filter]
    simp
  simp only [groupsOf, List.countP_cons, hmap]
  by_cases hx : x ∈ g
  · simp only [hx, true_and, ↓reduceIte]
    rcases hinv.cover_mem x hx with h1 | ⟨e, he, h1⟩
    · have hk : x ∈ kept := by
        rw [hinv.kept_eq, List.mem_filter]; exact ⟨hx, by simp [h1]⟩
      have h0 : grp.countP (fun e => decide (lk x = some e.1)) = 0 := by
        rw [List.countP_eq_zero]
        intro e he
        simp only [decide_eq_true_eq, h1, Option.some.injEq]
        exact fun hc => (hinv.mem_grp e he).1 hc.symm
      simp [hk, h0]
    · have hk : x ∉ kept := by
        rw [hinv.kept_eq, List.mem_filter]
        simp only [h1, beq_iff_eq, Option.some.injEq, not_and]
        exact fun _ => (hinv.mem_grp e he).1
      have h1' : grp.countP (fun e' => decide (lk x = some e'.1)) = 1 := by
        have : grp.countP (fun e' => decide (lk x = some e'.1))
            = (grp.map Prod.fst).count e.1 := by
          rw [List.count, List.countP_map]
          apply List.countP_congr
          intro e' _
          simp only [h1, Option.some.injEq, decide_eq_true_eq, Function.comp, beq_iff_eq]
          exact eq_comm
        rw [this]
        exact List.count_eq_one_of_mem hinv.keys_nodup (List.mem_map_of_mem Prod.fst he)
      simp [hk, h1']
  · have hk : x ∉ kept := by
      rw [hinv.kept_eq, List.mem_filter]; exact fun hc => hx hc.1
    simp [hx, hk]

theorem outGroups_perm (res : List (List Nat × List (Nat × List Nat))) :
    (res.map Prod.fst ++ (res.map (fun r => r.2.map Prod.snd)).flatten).Perm
      (outGroups res) := by
  induction res with
  | nil => simp [outGroups]
  | cons r res ih =>
    simp only [List.map_cons, List.flatten_cons, outGroups, groupsOf, List.cons_append]
    apply List.Perm.cons
    have : (List.map Prod.fst res ++
        (List.map Prod.snd r.2 ++ (List.map (fun r => List.map Prod.snd r.2) res).flatten)).Perm
        (List.map Prod.snd r.2 ++ (List.map Prod.fst res ++
          (List.map (fun r => List.map Prod.snd r.2) res).flatten)) := by
      rw [← List.append_assoc, ← List.append_assoc]
      exact List.Perm.append_right _ List.perm_append_comm
    exact this.trans (List.Perm.append_left _ ih)

theorem outGroups_spec (lk : Nat → Option Nat) (U : List (List Nat))
    (res : List (List Nat × List (Nat × List Nat)))
    (hall : List.Forall₂ (fun g r => GroupSplit lk g r.1 r.2) U res) :
    (∀ g' ∈ outGroups res, g' ≠ [] ∧
      ∃ g ∈ U, ∃ d, g' = g.filter (fun x => lk x == some d)) ∧
    (∀ g ∈ U, ∀ x ∈ g, ∃ g' ∈ outGroups res, ∀ y ∈ g, lk y = lk x → y ∈ g') ∧
    (∀ x, (outGroups res).countP (fun g' => decide (x ∈ g'))
      = U.countP (fun g => decide (x ∈ g))) := by
  induction hall with
  | nil => simp [outGroups]
  | @cons g r U res hgs _ ih =>
    obtain ⟨ih1, ih2, ih3⟩ := ih
    have hout : outGroups (r :: res) = groupsOf r ++ outGroups res := by
      simp [outGroups]
    refine ⟨?_, ?_, ?_⟩
    · intro g' hg'
      rw [hout, List.mem_append] at hg'
      rcases hg' with hg' | hg'
      · obtain ⟨h1, d, h2⟩ := hgs.shape g' hg'
        exact ⟨h1, g, List.mem_cons_self g U, d, h2⟩
      · obtain ⟨h1, g2, hg2, d, h2⟩ := ih1 g' hg'
        exact ⟨h1, g2, List.mem_cons_of_mem g hg2, d, h2⟩
    · intro g2 hg2 x hx
      rcases List.mem_cons.mp hg2 with rfl | hg2
      · obtain ⟨g', hg', h⟩ := hgs.coarsest x hx
        exact ⟨g', by rw [hout]; exact List.mem_append_left _ hg', h⟩
      · obtain ⟨g', hg', h⟩ := ih2 g2 hg2 x hx
        exact ⟨g', by rw [hout]; exact List.mem_append_right _ hg', h⟩
    · intro x
      rw [hout, List.countP_append, ih3 x, hgs.count x, List.countP_cons]
      simp only [decide_eq_true_eq]
      omega

theorem inOpVarMap_iff (m : List (List Nat)) (x : Nat) :
    inOpVarMap m x = true ↔ ∃ g ∈ m, x ∈ g := by
  simp [inOpVarMap]

theorem check_some_iff (m : List (List Nat)) (tbl : List (Nat × Nat)) :
    checkOpVarMapValueLookupTableMatch m tbl = some () ↔
      (∀ g ∈ m, ∀ x ∈ g, (HT_lookup tbl x).isSome = true) ∧
      (∀ e ∈ tbl, inOpVarMap m e.1 = true) := by
  unfold checkOpVarMapValueLookupTableMatch
  split
  · next h1 =>
    split
    · next h2 =>
      simp only [List.all_eq_true] at h1 h2
      simp only [true_iff]
      exact ⟨h1, h2⟩
    · next h2 =>
      simp only [List.all_eq_true] at h1 h2
      constructor
      · intro hc; cases hc
      · exact fun hc => absurd hc.2 h2
  · next h1 =>
    simp only [List.all_eq_true] at h1
    constructor
    · intro hc; cases hc
    · exact fun hc => absurd hc.1 h1

theorem generalizeVarMapWith_spec (m0 : List (List Nat)) (tbl : List (Nat × Nat))
    (r : List (List Nat)) (hr : generalizeVarMapWith m0 tbl = some r) :
    (∀ g' ∈ r, g' ≠ [] ∧
      ∃ g ∈ m0, ∃ d, g' = g.filter (fun x => HT_lookup tbl x == some d)) ∧
    (∀ g ∈ m0, ∀ x ∈ g, ∃ g' ∈ r, ∀ y ∈ g, HT_lookup tbl y = HT_lookup tbl x → y ∈ g') ∧
    (∀ x, r.countP (fun g' => decide (x ∈ g')) = m0.countP (fun g => decide (x ∈ g))) := by
  unfold generalizeVarMapWith at hr
  cases hc : checkOpVarMapValueLookupTableMatch m0 tbl with
  | none => simp [hc] at hr
  | some u =>
    rw [hc] at hr
    simp only at hr
    have hchk := (check_some_iff m0 tbl).mp hc
    have hlk : ∀ g ∈ m0, ∀ x ∈ g, ∃ d, HT_lookup tbl x = some d := by
      intro g hg x hx
      exact Option.isSome_iff_exists.mp (hchk.1 g hg x hx)
    have hrun0 : groupLoop tbl m0.length ([] : List (List Nat)).length ([] ++ m0 ++ []) = some r := by
      simpa using hr
    have hne := groupLoop_nonempty tbl m0 [] [] r hlk hrun0
    obtain ⟨res, hrun, hall⟩ := groupLoop_inv tbl m0 [] []
      (fun g hg => ⟨hne g hg, hlk g hg⟩)
    rw [hrun0] at hrun
    simp only [Option.some.injEq, List.nil_append] at hrun
    obtain ⟨s1, s2, s3⟩ := outGroups_spec (HT_lookup tbl) m0 res hall
    have hperm := outGroups_perm res
    rw [← hrun] at hperm
    refine ⟨?_, ?_, ?_⟩
    · intro g' hg'
      exact s1 g' (hperm.mem_iff.mp hg')
    · intro g hg x hx
      obtain ⟨g', hg', h⟩ := s2 g hg x hx
      exact ⟨g', hperm.mem_iff.mpr hg', h⟩
    · intro x
      rw [hperm.countP_eq, s3]

theorem generalizeVarMapWith_total (m0 : List (List Nat)) (tbl : List (Nat × Nat))
    (hne : ∀ g ∈ m0, g ≠ [])
    (hidx : ∀ g ∈ m0, ∀ x ∈ g, (HT_lookup tbl x).isSome = true)
    (hkeys : ∀ e ∈ tbl, inOpVarMap m0 e.1 = true) :
    ∃ r, generalizeVarMapWith m0 tbl = some r := by
  have hc := (check_some_iff m0 tbl).mpr ⟨hidx, hkeys⟩
  obtain ⟨res, hrun, _⟩ := groupLoop_inv tbl m0 [] []
    (fun g hg => ⟨hne g hg, fun x hx => Option.isSome_iff_exists.mp (hidx g hg x hx)⟩)
  refine ⟨List.map Prod.fst res ++ (List.map (fun r => List.map Prod.snd r.2) res).flatten, ?_⟩
  unfold generalizeVarMapWith
  rw [hc]
  simpa using hrun

theorem generalizeVarMap_eq (h : Heap) (opVarMap : List (List Nat))
    (valVarMap : List ValVarMapEntry) (tbl : List (Nat × Nat))
    (htbl : opLookupTable h valVarMap [] = some tbl) :
    generalizeVarMap h opVarMap valVarMap = generalizeVarMapWith opVarMap tbl := by
  unfold generalizeVarMap
  rw [htbl]

/-- Claim C2. For a site variable map whose groups are non-empty and a trace
variable map whose lookup table has an index for each leaf of the site map:
in every map that `generalizeVarMap` leaves behind, two leaves of one group
have the same trace index. The call completes whenever, in addition, every
leaf of the trace is a leaf of the site map, which is what the invariant
check at its start asserts. -/
theorem generalizeVarMap_no_mixed_group (h : Heap) (opVarMap : List (List Nat))
    (valVarMap : List ValVarMapEntry) (valueLookupTable : List (Nat × Nat))
    (htbl : opLookupTable h valVarMap [] = some valueLookupTable)
    (hne : ∀ varGroup ∈ opVarMap, varGroup ≠ [])
    (hidx : ∀ varGroup ∈ opVarMap, ∀ leaf ∈ varGroup,
      (HT_lookup valueLookupTable leaf).isSome = true) :
    (∀ r, generalizeVarMap h opVarMap valVarMap = some r →
      ∀ varGroup ∈ r, ∀ a ∈ varGroup, ∀ b ∈ varGroup,
        HT_lookup valueLookupTable a = HT_lookup valueLookupTable b) ∧
    ((∀ opEntry ∈ valueLookupTable, inOpVarMap opVarMap opEntry.1 = true) →
      ∃ r, generalizeVarMap h opVarMap valVarMap = some r) := by
  rw [generalizeVarMap_eq h opVarMap valVarMap valueLookupTable htbl]
  constructor
  · intro r hr g' hg' a ha b hb
    obtain ⟨_, g, _, d, rfl⟩ := (generalizeVarMapWith_spec opVarMap valueLookupTable r hr).1 g' hg'
    have h1 := (List.mem_filter.mp ha).2
    have h2 := (List.mem_filter.mp hb).2
    simp only [beq_iff_eq] at h1 h2
    rw [h1, h2]
  · intro hkeys
    exact generalizeVarMapWith_total opVarMap valueLookupTable hne hidx hkeys

/-- Claim C3. When every leaf of the site map has a trace index and occurs in
exactly one group, then in every map that `generalizeVarMap` leaves behind
every leaf of the site map occurs in exactly one group, every group is
non-empty, and two leaves are in one group if and only if they were in one
group before and have the same trace index. The call completes whenever, in
addition, the groups are non-empty and every leaf of the trace is a leaf of
the site map. -/
theorem generalizeVarMap_coarsest_refinement (h : Heap) (opVarMap : List (List Nat))
    (valVarMap : List ValVarMapEntry) (valueLookupTable : List (Nat × Nat))
    (htbl : opLookupTable h valVarMap [] = some valueLookupTable)
    (hidx : ∀ varGroup ∈ opVarMap, ∀ leaf ∈ varGroup,
      (HT_lookup valueLookupTable leaf).isSome = true)
    (hone : ∀ varGroup ∈ opVarMap, ∀ leaf ∈ varGroup,
      opVarMap.countP (fun g => decide (leaf ∈ g)) = 1) :
    (∀ r, generalizeVarMap h opVarMap valVarMap = some r →
      (∀ varGroup ∈ opVarMap, ∀ leaf ∈ varGroup,
        r.countP (fun g => decide (leaf ∈ g)) = 1) ∧
      (∀ varGroup ∈ r, varGroup ≠ []) ∧
      (∀ a b, (∃ varGroup ∈ r, a ∈ varGroup ∧ b ∈ varGroup) ↔
        ((∃ varGroup ∈ opVarMap, a ∈ varGroup ∧ b ∈ varGroup) ∧
          HT_lookup valueLookupTable a = HT_lookup valueLookupTable b))) ∧
    ((∀ varGroup ∈ opVarMap, varGroup ≠ []) →
      (∀ opEntry ∈ valueLookupTable, inOpVarMap opVarMap opEntry.1 = true) →
      ∃ r, generalizeVarMap h opVarMap valVarMap = some r) := by
  rw [generalizeVarMap_eq h opVarMap valVarMap valueLookupTable htbl]
  constructor
  · intro r hr
    obtain ⟨s1, s2, s3⟩ := generalizeVarMapWith_spec opVarMap valueLookupTable r hr
    refine ⟨?_, fun g hg => (s1 g hg).1, ?_⟩
    · intro g hg leaf hleaf
      rw [s3 leaf]
      exact hone g hg leaf hleaf
    · intro a b
      constructor
      · rintro ⟨g', hg', ha, hb⟩
        obtain ⟨_, g, hg, d, rfl⟩ := s1 g' hg'
        have h1 := List.mem_filter.mp ha
        have h2 := List.mem_filter.mp hb
        refine ⟨⟨g, hg, h1.1, h2.1⟩, ?_⟩
        have h1' := h1.2
        have h2' := h2.2
        simp only [beq_iff_eq] at h1' h2'
        rw [h1', h2']
      · rintro ⟨⟨g, hg, ha, hb⟩, hab⟩
        obtain ⟨g', hg', hall⟩ := s2 g hg a ha
        exact ⟨g', hg', hall a ha rfl, hall b hb hab.symm⟩
  · intro hne hkeys
    exact generalizeVarMapWith_total opVarMap valueLookupTable hne hidx hkeys

/-- Witness for claim C2: one group holding the two leaves of `add`, split
against the variable map of `add(4, 5)`. -/
theorem generalizeVarMap_no_mixed_group_witness :
    opLookupTable varTestHeap addCall1.var_map [] = some [(0, 0), (1, 1)] ∧
    generalizeVarMap varTestHeap [[0, 1]] addCall1.var_map = some [[0], [1]] ∧
    (∀ r, generalizeVarMap varTestHeap [[0, 1]] addCall1.var_map = some r →
      ∀ varGroup ∈ r, ∀ a ∈ varGroup, ∀ b ∈ varGroup,
        HT_lookup [(0, 0), (1, 1)] a = HT_lookup [(0, 0), (1, 1)] b) ∧
    ((∀ opEntry ∈ [(0, 0), (1, 1)], inOpVarMap [[0, 1]] opEntry.1 = true) →
      ∃ r, generalizeVarMap varTestHeap [[0, 1]] addCall1.var_map = some r) :=
  ⟨by decide, by decide,
    generalizeVarMap_no_mixed_group varTestHeap [[0, 1]] addCall1.var_map
      [(0, 0), (1, 1)] (by decide) (by decide) (by decide)⟩

/-- Witness for claim C3: one group holding the two leaves of `add`, split
against the variable map of `add(4, 5)`. -/
theorem generalizeVarMap_coarsest_refinement_witness :
    opLookupTable varTestHeap addCall1.var_map [] = some [(0, 0), (1, 1)] ∧
    generalizeVarMap varTestHeap [[0, 1]] addCall1.var_map = some [[0], [1]] ∧
    (∀ r, generalizeVarMap varTestHeap [[0, 1]] addCall1.var_map = some r →
      (∀ varGroup ∈ [[0, 1]], ∀ leaf ∈ varGroup,
        r.countP (fun g => decide (leaf ∈ g)) = 1) ∧
      (∀ varGroup ∈ r, varGroup ≠ []) ∧
      (∀ a b, (∃ varGroup ∈ r, a ∈ varGroup ∧ b ∈ varGroup) ↔
        ((∃ varGroup ∈ [[0, 1]], a ∈ varGroup ∧ b ∈ varGroup) ∧
          HT_lookup [(0, 0), (1, 1)] a = HT_lookup [(0, 0), (1, 1)] b))) ∧
    ((∀ varGroup ∈ [[0, 1]], varGroup ≠ []) →
      (∀ opEntry ∈ [(0, 0), (1, 1)], inOpVarMap [[0, 1]] opEntry.1 = true) →
      ∃ r, generalizeVarMap varTestHeap [[0, 1]] addCall1.var_map = some r) :=
  ⟨by decide, by decide,
    generalizeVarMap_coarsest_refinement varTestHeap [[0, 1]] addCall1.var_map
      [(0, 0), (1, 1)] (by decide) (by decide) (by decide)⟩
/-! ## The variable map of a value -/

theorem HT_lookup_cons (k v key : Nat) (tbl : List (Nat × Nat)) :
    HT_lookup ((k, v) :: tbl) key = if k = key then some v else HT_lookup tbl key := by
  rw [HT_lookup]

theorem registerLeaf_inv (leaf : ValueLeaf) (st : VarMapBuild) (hinv : BuildInv st) :
    BuildInv (registerLeaf leaf st) := by
  unfold registerLeaf
  cases hl : HT_lookup st.val_to_idx (valKey leaf) with
  | none =>
    simp only
    have hfresh : valKey leaf ∉ st.var_map.map (fun e => valKey e.key) := by
      intro hmem
      obtain ⟨e, he, hk⟩ := List.mem_map.mp hmem
      have := hinv.entry e he
      rw [hk, hl] at this
      cases this
    refine ⟨?_, ?_, ?_, ?_, ?_, ?_⟩ <;> dsimp only
    · intro k i hk
      rw [HT_lookup_cons] at hk
      split at hk
      · cases hk; omega
      · have := hinv.below k i hk; omega
    · intro k1 k2 i h1 h2
      rw [HT_lookup_cons] at h1 h2
      split at h1 <;> split at h2
      · next e1 e2 => rw [← e1, ← e2]
      · next e1 e2 =>
        cases h1
        have := hinv.below k2 _ h2; omega
      · next e1 e2 =>
        cases h2
        have := hinv.below k1 _ h1; omega
      · exact hinv.inj k1 k2 i h1 h2
    · intro e he
      rcases List.mem_cons.mp he with rfl | he
      · simp [HT_lookup_cons]
      · rw [HT_lookup_cons]
        have := hinv.entry e he
        split
        · next e1 => rw [← e1, hl] at this; cases this
        · exact this
    · intro k i hk
      rw [HT_lookup_cons] at hk
      split at hk
      · next e1 => exact ⟨_, List.mem_cons_self _ _, e1⟩
      · obtain ⟨e, he, hek⟩ := hinv.fromLeaf k i hk
        exact ⟨e, List.mem_cons_of_mem _ he, hek⟩
    · intro i hi
      by_cases hic : i = st.idx_counter
      · exact ⟨valKey leaf, by simp [HT_lookup_cons, hic]⟩
      · obtain ⟨k, hk⟩ := hinv.onto i (by omega)
        refine ⟨k, ?_⟩
        rw [HT_lookup_cons]
        split
        · next e1 => rw [← e1, hl] at hk; cases hk
        · exact hk
    · simp only [List.map_cons]
      rw [List.dedup_cons_of_not_mem hfresh, List.length_cons, ← hinv.count]
  | some varidx =>
    simp only
    have hold : valKey leaf ∈ st.var_map.map (fun e => valKey e.key) := by
      obtain ⟨e, he, hk⟩ := hinv.fromLeaf _ _ hl
      exact List.mem_map.mpr ⟨e, he, hk⟩
    refine ⟨hinv.below, hinv.inj, ?_, ?_, hinv.onto, ?_⟩
    · intro e he
      rcases List.mem_cons.mp he with rfl | he
      · exact hl
      · exact hinv.entry e he
    · intro k i hk
      obtain ⟨e, he, hek⟩ := hinv.fromLeaf k i hk
      exact ⟨e, List.mem_cons_of_mem _ he, hek⟩
    · simp only [List.map_cons]
      rw [List.dedup_cons_of_mem hold, ← hinv.count]

theorem registerLeaf_keys (leaf : ValueLeaf) (st : VarMapBuild) :
    (registerLeaf leaf st).var_map.map (fun e => e.key)
      = leaf :: st.var_map.map (fun e => e.key) := by
  unfold registerLeaf
  cases HT_lookup st.val_to_idx (valKey leaf) <;> simp

theorem registerEntries_inv :
    ∀ (entries : List ValVarMapEntry) (st : VarMapBuild), BuildInv st →
      BuildInv (registerEntries entries st) ∧
      (registerEntries entries st).var_map.map (fun e => e.key)
        = (entries.map (fun e => e.key)).reverse ++ st.var_map.map (fun e => e.key)
  | [], st => by intro hinv; exact ⟨hinv, by simp [registerEntries]⟩
  | entry :: rest, st => by
    intro hinv
    obtain ⟨h1, h2⟩ := registerEntries_inv rest (registerLeaf entry.key st)
      (registerLeaf_inv entry.key st hinv)
    unfold registerEntries
    refine ⟨h1, ?_⟩
    rw [h2, registerLeaf_keys]
    simp

theorem initValVarMapArgs_inv (h : Heap) :
    ∀ (args : List ValueASTNode) (st : VarMapBuild), BuildInv st →
      (∀ a ∈ args, a.op < h.ops.length) →
      ∃ st' leaves, initValVarMapArgs h args st = some st' ∧ BuildInv st' ∧
        registeredLeaves h args = some leaves ∧
        st'.var_map.map (fun e => e.key) = leaves.reverse ++ st.var_map.map (fun e => e.key)
  | [], st => by
    intro hinv _
    exact ⟨st, [], by simp [initValVarMapArgs], hinv, by simp [registeredLeaves], by simp⟩
  | arg :: rest, st => by
    intro hinv hops
    have hlt := hops arg (List.mem_cons_self arg rest)
    have hrest : ∀ a ∈ rest, a.op < h.ops.length :=
      fun a ha => hops a (List.mem_cons_of_mem arg ha)
    have hget : h.ops[arg.op]? = some (h.ops[arg.op]) := List.getElem?_eq_getElem hlt
    unfold initValVarMapArgs registeredLeaves
    rw [hget]
    simp only
    by_cases htag : (h.ops[arg.op]).tag = OpTag.Op_Leaf
    · simp only [htag, ↓reduceIte]
      obtain ⟨st', leaves, hr, hi, hl, hk⟩ := initValVarMapArgs_inv h rest
        (registerLeaf { val := arg.val, op := arg.op } st)
        (registerLeaf_inv _ st hinv) hrest
      refine ⟨st', { val := arg.val, op := arg.op } :: leaves, hr, hi, by simp [hl], ?_⟩
      rw [hk, registerLeaf_keys]
      simp
    · simp only [htag, ↓reduceIte]
      obtain ⟨hi0, hk0⟩ := registerEntries_inv arg.var_map st hinv
      obtain ⟨st', leaves, hr, hi, hl, hk⟩ := initValVarMapArgs_inv h rest
        (registerEntries arg.var_map st) hi0 hrest
      refine ⟨st', arg.var_map.map (fun e => e.key) ++ leaves, hr, hi, by simp [hl], ?_⟩
      rw [hk, hk0]
      simp

/-- Claim C6. For the arguments of a branch value whose ops exist,
`initValVarMap` completes; the variable map it builds has one entry for each
leaf it registers; two entries have the same variable index if and only if
the values of their leaves, rounded to `float`, have the same bit pattern;
and the indices in use are exactly those below the number of distinct bit
patterns among the leaves. -/
theorem initValVarMap_indices (h : Heap) (args : List ValueASTNode)
    (hops : ∀ a ∈ args, a.op < h.ops.length) :
    ∃ var_map leaves, initValVarMap h args = some var_map ∧
      registeredLeaves h args = some leaves ∧
      var_map.map (fun e => e.key) = leaves.reverse ∧
      (∀ e1 ∈ var_map, ∀ e2 ∈ var_map,
        e1.varidx = e2.varidx ↔ valKey e1.key = valKey e2.key) ∧
      (∀ i, (∃ e ∈ var_map, e.varidx = i) ↔
        i < ((leaves.map valKey).dedup).length) := by
  have inv0 : BuildInv { idx_counter := 0, val_to_idx := [], var_map := [] } := by
    refine ⟨?_, ?_, ?_, ?_, ?_, by simp⟩
    · intro k i hk; simp [HT_lookup] at hk
    · intro k1 k2 i hk; simp [HT_lookup] at hk
    · intro e he; simp at he
    · intro k i hk; simp [HT_lookup] at hk
    · intro i hi; simp at hi
  obtain ⟨st', leaves, hr, hi, hl, hk⟩ := initValVarMapArgs_inv h args _ inv0 hops
  have hk' : st'.var_map.map (fun e => e.key) = leaves.reverse := by simpa using hk
  have hcount : st'.idx_counter = ((leaves.map valKey).dedup).length := by
    rw [hi.count]
    have e1 : st'.var_map.map (fun e => valKey e.key) = (leaves.map valKey).reverse := by
      rw [← List.map_reverse, ← hk', List.map_map]; rfl
    rw [e1]
    exact (List.Perm.dedup (List.reverse_perm _)).length_eq
  refine ⟨st'.var_map, leaves, ?_, hl, hk', ?_, ?_⟩
  · unfold initValVarMap; rw [hr]
  · intro e1 he1 e2 he2
    constructor
    · intro heq
      have h1 := hi.entry e1 he1
      have h2 := hi.entry e2 he2
      rw [heq] at h1
      exact hi.inj _ _ _ h1 h2
    · intro heq
      have h1 := hi.entry e1 he1
      have h2 := hi.entry e2 he2
      rw [heq, h2] at h1
      exact (Option.some.inj h1).symm
  · intro i
    rw [← hcount]
    constructor
    · rintro ⟨e, he, rfl⟩
      exact hi.below _ _ (hi.entry e he)
    · intro hlt
      obtain ⟨k, hk1⟩ := hi.onto i hlt
      obtain ⟨e, he, hek⟩ := hi.fromLeaf k i hk1
      refine ⟨e, he, ?_⟩
      have := hi.entry e he
      rw [hek, hk1] at this
      exact (Option.some.inj this).symm

/-- Witness for claim C6: the arguments of `add(6, z + 6)`, where the leaf `6`
occurs twice. -/
theorem initValVarMap_indices_witness :
    (∀ a ∈ [leafValueAST val6 1, zPlus6], a.op < varTestHeap.ops.length) ∧
    initValVarMap varTestHeap [leafValueAST val6 1, zPlus6] = some addCall2.var_map ∧
    ∃ var_map leaves,
      initValVarMap varTestHeap [leafValueAST val6 1, zPlus6] = some var_map ∧
      registeredLeaves varTestHeap [leafValueAST val6 1, zPlus6] = some leaves ∧
      var_map.map (fun e => e.key) = leaves.reverse ∧
      (∀ e1 ∈ var_map, ∀ e2 ∈ var_map,
        e1.varidx = e2.varidx ↔ valKey e1.key = valKey e2.key) ∧
      (∀ i, (∃ e ∈ var_map, e.varidx = i) ↔
        i < ((leaves.map valKey).dedup).length) :=
  ⟨by decide, by decide,
    initValVarMap_indices varTestHeap [leafValueAST val6 1, zPlus6] (by decide)⟩
/-! ## The pruning pass of the report -/

theorem Cleared.refl (t : List (Option Nat)) : Cleared t t := by
  induction t with
  | nil => exact List.Forall₂.nil
  | cons a t ih => exact List.Forall₂.cons (Or.inl rfl) ih

theorem Cleared.trans {a b c : List (Option Nat)} (h1 : Cleared a b) (h2 : Cleared b c) :
    Cleared a c := by
  induction h1 generalizing c with
  | nil => cases h2; exact List.Forall₂.nil
  | cons hab _ ih =>
    cases h2 with
    | cons hbc h2' =>
      refine List.Forall₂.cons ?_ (ih h2')
      rcases hbc with rfl | rfl
      · exact hab
      · exact Or.inr rfl

theorem Cleared.mem {t t' : List (Option Nat)} (h : Cleared t t') (x : Nat)
    (hx : some x ∈ t') : some x ∈ t := by
  induction h with
  | nil => simp at hx
  | cons hab _ ih =>
    rcases List.mem_cons.mp hx with hx | hx
    · rcases hab with rfl | rfl
      · rw [hx]; exact List.mem_cons_self _ _
      · cases hx
    · exact List.mem_cons_of_mem _ (ih hx)

theorem Cleared.get {t t' : List (Option Nat)} (h : Cleared t t') (k x : Nat)
    (hx : t'[k]? = some (some x)) : t[k]? = some (some x) := by
  induction h generalizing k with
  | nil => simp at hx
  | cons hab _ ih =>
    cases k with
    | zero =>
      simp only [List.getElem?_cons_zero, Option.some.injEq] at hx ⊢
      rcases hab with rfl | rfl
      · exact hx
      · cases hx
    | succ k =>
      simp only [List.getElem?_cons_succ] at hx ⊢
      exact ih k hx

theorem Cleared.length {t t' : List (Option Nat)} (h : Cleared t t') :
    t'.length = t.length :=
  (List.Forall₂.length_eq h).symm

theorem Cleared.sublist {t t' : List (Option Nat)} (h : Cleared t t') :
    (t'.filterMap id).Sublist (t.filterMap id) := by
    induction h with
    | nil => exact List.Sublist.slnil
    | @cons a b l l' hab _ ih =>
      rcases hab with rfl | rfl
      · cases b with
        | none => simpa using ih
        | some v => simpa using ih
      · cases a with
        | none => simpa using ih
        | some v =>
          simp only [List.filterMap_cons, id]
          exact List.Sublist.cons v ih

theorem Cleared.nodup {t t' : List (Option Nat)} (h : Cleared t t')
    (hn : (t.filterMap id).Nodup) : (t'.filterMap id).Nodup :=
  h.sublist.nodup hn

theorem clearTrackedOp_cleared : ∀ (t : List (Option Nat)) (x : Nat),
    Cleared t (clearTrackedOp t x)
  | [], _ => List.Forall₂.nil
  | none :: rest, x => by
    unfold clearTrackedOp
    exact List.Forall₂.cons (Or.inl rfl) (clearTrackedOp_cleared rest x)
  | some e :: rest, x => by
    unfold clearTrackedOp
    split
    · exact List.Forall₂.cons (Or.inr rfl) (Cleared.refl rest)
    · exact List.Forall₂.cons (Or.inl rfl) (clearTrackedOp_cleared rest x)

theorem clearTrackedOp_absent : ∀ (t : List (Option Nat)) (x : Nat),
    (t.filterMap id).Nodup → some x ∉ clearTrackedOp t x
  | [], _ => by intro _; simp [clearTrackedOp]
  | none :: rest, x => by
    intro hn
    unfold clearTrackedOp
    have := clearTrackedOp_absent rest x (by simpa using hn)
    simpa using this
  | some e :: rest, x => by
    intro hn
    have hn' : e ∉ rest.filterMap id ∧ (rest.filterMap id).Nodup := by
      simpa using hn
    unfold clearTrackedOp
    split
    · next heq =>
      subst heq
      intro hmem
      rcases List.mem_cons.mp hmem with h | h
      · cases h
      · exact hn'.1 (List.mem_filterMap.mpr ⟨some e, h, rfl⟩)
    · next hne =>
      intro hmem
      rcases List.mem_cons.mp hmem with h | h
      · exact hne (Option.some.inj h).symm
      · exact clearTrackedOp_absent rest x hn'.2 h

mutual
theorem recursivelyClearChildren_spec (t : List (Option Nat)) :
    ∀ tree : OpASTTree, Cleared t (recursivelyClearChildren t tree) ∧
      ((t.filterMap id).Nodup → ∀ x ∈ subOps tree,
        some x ∉ recursivelyClearChildren t tree)
  | .Leaf _ => by
    unfold recursivelyClearChildren
    exact ⟨Cleared.refl t, fun _ x hx => by simp [subOps] at hx⟩
  | .Branch _ args => by
    unfold recursivelyClearChildren
    have := clearChildren_spec t args
    exact ⟨this.1, fun hn x hx => this.2 hn x (by simpa [subOps] using hx)⟩
theorem clearChildren_spec (t : List (Option Nat)) :
    ∀ args : List OpASTTree, Cleared t (clearChildren t args) ∧
      ((t.filterMap id).Nodup → ∀ x ∈ subOpsArgs args, some x ∉ clearChildren t args)
  | [] => by
    unfold clearChildren
    exact ⟨Cleared.refl t, fun _ x hx => by simp [subOpsArgs] at hx⟩
  | .Leaf val :: rest => by
    unfold clearChildren
    have h1 : recursivelyClearChildren t (.Leaf val) = t := by
      unfold recursivelyClearChildren; rfl
    rw [h1]
    have := clearChildren_spec t rest
    exact ⟨this.1, fun hn x hx => this.2 hn x (by simpa [subOpsArgs] using hx)⟩
  | .Branch op args :: rest => by
    unfold clearChildren
    have h1 : recursivelyClearChildren t (.Branch op args) = clearChildren t args := by
      unfold recursivelyClearChildren; rfl
    rw [h1]
    obtain ⟨c1, a1⟩ := clearChildren_spec t args
    have c2 := clearTrackedOp_cleared (clearChildren t args) op
    obtain ⟨c3, a3⟩ := clearChildren_spec (clearTrackedOp (clearChildren t args) op) rest
    refine ⟨c1.trans (c2.trans c3), ?_⟩
    intro hn x hx
    have hn1 := c1.nodup hn
    have hn2 := c2.nodup hn1
    simp only [subOpsArgs, List.mem_cons, List.mem_append] at hx
    rcases hx with rfl | hx | hx
    · exact fun hmem => clearTrackedOp_absent _ x hn1 (c3.mem x hmem)
    · exact fun hmem => a1 hn x hx ((c2.trans c3).mem x hmem)
    · exact a3 hn2 x hx
end

theorem pruneLoop_spec (astOf : Nat → Option OpASTTree) :
    ∀ (i : Nat) (t r : List (Option Nat)), (t.filterMap id).Nodup →
      (∀ (k y : Nat) (ty : OpASTTree), i ≤ k → t[k]? = some (some y) → astOf y = some ty →
        ∀ x ∈ subOps ty, some x ∉ t) →
      pruneLoop astOf i t = some r →
      Cleared t r ∧ ∀ (k y : Nat) (ty : OpASTTree), r[k]? = some (some y) →
        astOf y = some ty → ∀ x ∈ subOps ty, some x ∉ r
  | 0, t, r => by
    intro _ hinv hrun
    simp only [pruneLoop, Option.some.injEq] at hrun
    subst hrun
    exact ⟨Cleared.refl t, fun k y ty hk => hinv k y ty (Nat.zero_le k) hk⟩
  | i + 1, t, r => by
    intro hn hinv hrun
    unfold pruneLoop at hrun
    have skip : pruneLoop astOf i t = some r →
        (∀ y, t[i]? ≠ some (some y)) →
        Cleared t r ∧ ∀ (k y : Nat) (ty : OpASTTree), r[k]? = some (some y) →
          astOf y = some ty → ∀ x ∈ subOps ty, some x ∉ r := by
      intro hrun' hnot
      apply pruneLoop_spec astOf i t r hn _ hrun'
      intro k y ty hk hky
      rcases Nat.eq_or_lt_of_le hk with rfl | hlt
      · exact absurd hky (hnot y)
      · exact hinv k y ty hlt hky
    cases hti : t[i]? with
    | none =>
      rw [hti] at hrun
      exact skip hrun (fun y hy => by rw [hti] at hy; cases hy)
    | some e =>
      cases e with
      | none =>
        rw [hti] at hrun
        exact skip hrun (fun y hy => by rw [hti] at hy; cases hy)
      | some op =>
        rw [hti] at hrun
        simp only at hrun
        cases hast : astOf op with
        | none => rw [hast] at hrun; cases hrun
        | some ast =>
          rw [hast] at hrun
          simp only at hrun
          obtain ⟨c1, a1⟩ := recursivelyClearChildren_spec t ast
          obtain ⟨c2, a2⟩ := pruneLoop_spec astOf i (recursivelyClearChildren t ast) r
            (c1.nodup hn) (by
              intro k y ty hk hky hty x hx hmem
              have hky' := c1.get k y hky
              rcases Nat.eq_or_lt_of_le hk with rfl | hlt
              · rw [hti] at hky'
                cases hky'
                rw [hast] at hty
                cases hty
                exact a1 hn x hx hmem
              · exact hinv k y ty hlt hky' hty x hx (c1.mem x hmem)) hrun
          exact ⟨c1.trans c2, a2⟩

theorem pruneLoop_total (astOf : Nat → Option OpASTTree) :
    ∀ (i : Nat) (t : List (Option Nat)),
      (∀ op, some op ∈ t → (astOf op).isSome = true) →
      ∃ r, pruneLoop astOf i t = some r
  | 0, t => by intro _; exact ⟨t, by simp [pruneLoop]⟩
  | i + 1, t => by
    intro hall
    unfold pruneLoop
    cases hti : t[i]? with
    | none => exact pruneLoop_total astOf i t hall
    | some e =>
      cases e with
      | none => exact pruneLoop_total astOf i t hall
      | some op =>
        simp only
        obtain ⟨ast, hast⟩ := Option.isSome_iff_exists.mp
          (hall op (List.getElem?_mem hti))
        rw [hast]
        simp only
        apply pruneLoop_total astOf i
        intro op' hop'
        exact hall op' ((recursivelyClearChildren_spec t ast).1.mem op' hop')

/-- Claim C8. When `report_exprs` is set and the list of tracked ops has no
duplicates, then in every list that the pruning pass of `writeReport` leaves
behind, no op that remains is the op of a branch node strictly below the root
of the expression of an op that remains. The pass completes whenever every
tracked op has an expression. -/
theorem pruneTrackedOps_no_subexpression (astOf : Nat → Option OpASTTree)
    (tracked_ops : List (Option Nat))
    (hnodup : (tracked_ops.filterMap id).Nodup) :
    (∀ r, pruneTrackedOps true astOf tracked_ops = some r →
      ∀ x y ty, some x ∈ r → some y ∈ r → astOf y = some ty → x ∉ subOps ty) ∧
    ((∀ op, some op ∈ tracked_ops → (astOf op).isSome = true) →
      ∃ r, pruneTrackedOps true astOf tracked_ops = some r) := by
  constructor
  · intro r hr x y ty hx hy hty hsub
    simp only [pruneTrackedOps, ↓reduceIte] at hr
    obtain ⟨_, hspec⟩ := pruneLoop_spec astOf tracked_ops.length tracked_ops r hnodup
      (by
        intro k y ty hk hky
        have := (List.getElem?_eq_some.mp hky).1
        omega) hr
    obtain ⟨k, hk⟩ := List.getElem?_of_mem hy
    exact hspec k y ty hk hty x hsub hx
  · intro hall
    simp only [pruneTrackedOps, ↓reduceIte]
    exact pruneLoop_total astOf tracked_ops.length tracked_ops hall

/-- Witness for claim C8: the ops 1 and 0 are tracked and the expression of
op 1 is a child of the expression of op 0; the pass clears op 1. -/
theorem pruneTrackedOps_no_subexpression_witness :
    ([some 1, some 0].filterMap id).Nodup ∧
    pruneTrackedOps true sampleAstOf [some 1, some 0] = some [none, some 0] ∧
    (∀ r, pruneTrackedOps true sampleAstOf [some 1, some 0] = some r →
      ∀ x y ty, some x ∈ r → some y ∈ r → sampleAstOf y = some ty → x ∉ subOps ty) ∧
    ((∀ op, some op ∈ [some 1, some 0] → (sampleAstOf op).isSome = true) →
      ∃ r, pruneTrackedOps true sampleAstOf [some 1, some 0] = some r) :=
  ⟨by decide, by decide,
    pruneTrackedOps_no_subexpression sampleAstOf [some 1, some 0] (by decide)⟩

/-! ## The comparator of the sort -/

theorem doubleToInt_zero (x : ℚ) (h : |x| < 1) : doubleToInt x = 0 := by
  unfold doubleToInt
  have hden : (0 : ℚ) < x.den := by exact_mod_cast x.den_pos
  have hx : x = x.num / x.den := (Rat.num_div_den x).symm
  have habs : |(x.num : ℚ)| < x.den := by
    rw [hx, abs_div, abs_of_pos hden, div_lt_one hden] at h
    exact h
  have habs' : |x.num| < (x.den : Int) := by exact_mod_cast habs
  rcases abs_lt.mp habs' with ⟨hlo, hhi⟩
  rcases le_or_lt 0 x.num with hn | hn
  · exact Int.tdiv_eq_zero_of_lt hn hhi
  · have h1 : (-x.num).tdiv x.den = 0 :=
      Int.tdiv_eq_zero_of_lt (by omega) (by omega)
    have h2 : (-x.num).tdiv x.den = -(x.num.tdiv x.den) := Int.neg_tdiv _ _
    omega

/-- Whenever the maximum errors of two ops differ by less than one bit,
`cmp_debuginfo` returns 0 for them. -/
theorem cmp_debuginfo_zero_of_close (a b : Op_Info)
    (h : |b.evalinfo.max_error - a.evalinfo.max_error| < 1) : cmp_debuginfo a b = 0 :=
  doubleToInt_zero _ h

/-- Claim C7, evaluated. Two op sites with maximum errors 1.5 and 1.0 bits;
their difference is exact in binary64. `cmp_debuginfo` returns 0 in both
orders although the first error is the larger one: the difference -0.5 (or
0.5) loses its fraction when it is returned as an `Int`. -/
theorem cmp_debuginfo_truncates :
    ({ tag := .Op_Branch, symbol := ['+'], ast := none,
       evalinfo := { max_error := 3 / 2 } } : Op_Info).evalinfo.max_error >
    ({ tag := .Op_Branch, symbol := ['*'], ast := none,
       evalinfo := { max_error := 1 } } : Op_Info).evalinfo.max_error ∧
    cmp_debuginfo
      { tag := .Op_Branch, symbol := ['+'], ast := none, evalinfo := { max_error := 3 / 2 } }
      { tag := .Op_Branch, symbol := ['*'], ast := none, evalinfo := { max_error := 1 } } = 0 ∧
    cmp_debuginfo
      { tag := .Op_Branch, symbol := ['*'], ast := none, evalinfo := { max_error := 1 } }
      { tag := .Op_Branch, symbol := ['+'], ast := none, evalinfo := { max_error := 3 / 2 } }
      = 0 := by
  refine ⟨by norm_num, ?_, ?_⟩
  · norm_num [cmp_debuginfo, doubleToInt]
    rfl
  · norm_num [cmp_debuginfo, doubleToInt]
    rfl

/-! ## The machine-readable record -/

theorem parenDepth_cons (c : Char) (cs : List Char) (d : Nat) :
    parenDepth (c :: cs) d =
      if c = '(' then parenDepth cs (d + 1)
      else if c = ')' then
        match d with
        | 0 => none
        | d' + 1 => parenDepth cs d'
      else parenDepth cs d := by
  conv => lhs; unfold parenDepth

theorem parenDepth_append : ∀ (a b : List Char) (d : Nat),
    parenDepth (a ++ b) d = (parenDepth a d).bind (parenDepth b)
  | [], b, d => by simp [parenDepth]
  | c :: cs, b, d => by
    simp only [List.cons_append, parenDepth_cons]
    split
    · exact parenDepth_append cs b (d + 1)
    · split
      · cases d with
        | zero => rfl
        | succ d' => exact parenDepth_append cs b d'
      · exact parenDepth_append cs b d

theorem parenDepth_add : ∀ (a : List Char) (d d' k : Nat),
    parenDepth a d = some d' → parenDepth a (d + k) = some (d' + k)
  | [], d, d', k => by
    intro h
    simp only [parenDepth, Option.some.injEq] at h ⊢
    omega
  | c :: cs, d, d', k => by
    intro h
    rw [parenDepth_cons] at h ⊢
    split
    · next hc =>
      simp only [hc, ↓reduceIte] at h
      have := parenDepth_add cs (d + 1) d' k h
      rw [show d + k + 1 = d + 1 + k by omega]
      exact this
    · next hc =>
      simp only [hc, ↓reduceIte] at h
      split
      · next hc2 =>
        simp only [hc2, ↓reduceIte] at h
        cases d with
        | zero => simp at h
        | succ d0 =>
          simp only at h
          rw [show d0 + 1 + k = (d0 + k) + 1 by omega]
          exact parenDepth_add cs d0 d' k h
      · next hc2 =>
        simp only [hc2, ↓reduceIte] at h
        exact parenDepth_add cs d d' k h

theorem balanced_depth (f : List Char) (hf : balanced f = true) (d : Nat) :
    parenDepth f d = some d := by
  have h0 : parenDepth f 0 = some 0 := by simpa [balanced] using hf
  have := parenDepth_add f 0 0 d h0
  simpa using this

/-- A field `(name text) ` of the record: opened at any depth, it returns to
that depth when the text is balanced. -/
theorem parenDepth_field (opening text closing rest : List Char) (d : Nat)
    (ho : ∀ k, parenDepth opening k = some (k + 1))
    (hc : ∀ k, parenDepth closing (k + 1) = some k)
    (ht : balanced text = true) :
    parenDepth (opening ++ text ++ closing ++ rest) d = parenDepth rest d := by
  rw [parenDepth_append, parenDepth_append, parenDepth_append, ho,
    Option.some_bind, balanced_depth text ht, Option.some_bind, hc, Option.some_bind]

/-- The machine-readable record written when `report_exprs` is off is never
balanced, whatever the op, as long as the texts of its fields are balanced
and the record fits the entry buffer: its last parenthesis closes
nothing. -/
theorem reportEntry_plain_never_balanced (t : EntryTexts)
    (h1 : balanced t.plain_opname = true) (h2 : balanced t.fnname = true)
    (h3 : balanced t.src_filename = true) (h4 : balanced t.src_line = true)
    (h5 : balanced t.op_addr = true) (h6 : balanced t.avg_error = true)
    (h7 : balanced t.max_error = true) (h8 : balanced t.num_calls = true)
    (hlen : (machineFields t).length < ENTRY_BUFFER_SIZE) :
    parenDepth (reportEntry false false t) 0 = none ∧
    balanced (reportEntry false false t) = false := by
  have key : parenDepth (machineFields t) 0 = none := by
    unfold machineFields
    have e : "(plain-name \"".toList ++ t.plain_opname ++ "\") ".toList ++
        "(function \"".toList ++ t.fnname ++ "\") ".toList ++
        "(filename \"".toList ++ t.src_filename ++ "\") ".toList ++
        "(line-num ".toList ++ t.src_line ++ ") ".toList ++
        "(instr-addr ".toList ++ t.op_addr ++ ") ".toList ++
        "(avg-error ".toList ++ t.avg_error ++ ") ".toList ++
        "(max-error ".toList ++ t.max_error ++ ") ".toList ++
        "(num-calls ".toList ++ t.num_calls ++ "))\n".toList
        = "(plain-name \"".toList ++ t.plain_opname ++ "\") ".toList ++
          ("(function \"".toList ++ t.fnname ++ "\") ".toList ++
          ("(filename \"".toList ++ t.src_filename ++ "\") ".toList ++
          ("(line-num ".toList ++ t.src_line ++ ") ".toList ++
          ("(instr-addr ".toList ++ t.op_addr ++ ") ".toList ++
          ("(avg-error ".toList ++ t.avg_error ++ ") ".toList ++
          ("(max-error ".toList ++ t.max_error ++ ") ".toList ++
          ("(num-calls ".toList ++ t.num_calls ++ ") ".toList.take 1 ++
            ")\n".toList))))))) := by
      simp only [List.append_assoc]
      rfl
    rw [e]
    have cq : ∀ k, parenDepth "\") ".toList (k + 1) = some k := fun _ => rfl
    have cp : ∀ k, parenDepth ") ".toList (k + 1) = some k := fun _ => rfl
    have cl : ∀ k, parenDepth (") ".toList.take 1) (k + 1) = some k := fun _ => rfl
    rw [parenDepth_field "(plain-name \"".toList _ _ _ 0 (fun _ => rfl) cq h1,
      parenDepth_field "(function \"".toList _ _ _ 0 (fun _ => rfl) cq h2,
      parenDepth_field "(filename \"".toList _ _ _ 0 (fun _ => rfl) cq h3,
      parenDepth_field "(line-num ".toList _ _ _ 0 (fun _ => rfl) cp h4,
      parenDepth_field "(instr-addr ".toList _ _ _ 0 (fun _ => rfl) cp h5,
      parenDepth_field "(avg-error ".toList _ _ _ 0 (fun _ => rfl) cp h6,
      parenDepth_field "(max-error ".toList _ _ _ 0 (fun _ => rfl) cp h7,
      parenDepth_field "(num-calls ".toList _ _ _ 0 (fun _ => rfl) cl h8]
    rfl
  have hentry : reportEntry false false t = machineFields t := by
    simp [reportEntry, snprintfEntry, hlen]
  rw [hentry]
  exact ⟨key, by simp [balanced, key]⟩

set_option maxRecDepth 100000 in
/-- Claim C9, evaluated on the record of the specification. With
`report_exprs` set the machine-readable entry is one parenthesised list on one
line. With `report_exprs` off the entry starts with `(plain-name` and ends
with two closing parentheses: the last one closes nothing, so the entry is
not a balanced list. -/
theorem reportEntry_plain_unbalanced :
    singleListLine (reportEntry true false sampleTexts) = true ∧
    (reportEntry false false sampleTexts).take 12
      = ['(', 'p', 'l', 'a', 'i', 'n', '-', 'n', 'a', 'm', 'e', ' '] ∧
    parenDepth (reportEntry false false sampleTexts) 0 = none ∧
    balanced (reportEntry false false sampleTexts) = false ∧
    singleListLine (reportEntry false false sampleTexts) = false := by
  decide
/-! ## Marks -/

namespace Marks

end Marks
namespace Marks

/-- Claim C11, as amended. With the `no-influences` option set,
`markImportant` and `maybeMarkImportant` return at once, whether or not the
address has a shadow value: the mark map is left exactly as it was, so no
error sample is recorded, no mark site is created and no influence set
changes. -/
theorem markImportant_no_influences (opts : Options) (hp : Helpers)
    (markMap : List MarkInfo) (callAddr : Nat) (val : Option ShadowValue) (hostValue : ℚ)
    (hinf : opts.no_influences = true) :
    markImportant opts hp markMap callAddr val hostValue = some markMap ∧
    maybeMarkImportant opts hp markMap callAddr val hostValue = some markMap := by
  constructor
  · unfold markImportant
    simp only [hinf, ↓reduceIte]
  · unfold maybeMarkImportant
    simp only [hinf, ↓reduceIte]

/-- Witness for claim C11: a mark at address 7 of a value with a shadow, on a
map that holds the site of address 7. -/
theorem markImportant_no_influences_witness :
    markImportant { no_influences := true, no_exprs := false, error_threshold := 5 }
      sampleHelpers [siteSeenThrice] 7 (some shadowOne) 3 = some [siteSeenThrice] ∧
    maybeMarkImportant { no_influences := true, no_exprs := false, error_threshold := 5 }
      sampleHelpers [siteSeenThrice] 7 (some shadowOne) 3 = some [siteSeenThrice] :=
  markImportant_no_influences _ _ _ 7 _ 3 rfl

/-- Counterexample to claim C11 as stated. The site of address 7 has seen
three evaluations. With `no-influences` set, a mark at address 7 of a value
that has a shadow leaves the site with three evaluations, for
`markImportant` and for `maybeMarkImportant`; with the option off the same
mark, with the same `updateError`, leaves it with four. -/
theorem markImportant_no_influences_drops_sample :
    (lookupMark [siteSeenThrice] 7).map (fun info => info.eagg.num_evals) = some 3 ∧
    (markImportant { no_influences := true, no_exprs := false, error_threshold := 5 }
      sampleHelpers [siteSeenThrice] 7 (some shadowOne) 3).map
      (fun markMap => (lookupMark markMap 7).map (fun info => info.eagg.num_evals)) =
      some (some 3) ∧
    (maybeMarkImportant { no_influences := true, no_exprs := false, error_threshold := 5 }
      sampleHelpers [siteSeenThrice] 7 (some shadowOne) 3).map
      (fun markMap => (lookupMark markMap 7).map (fun info => info.eagg.num_evals)) =
      some (some 3) ∧
    (markImportant { no_influences := false, no_exprs := false, error_threshold := 5 }
      sampleHelpers [siteSeenThrice] 7 (some shadowOne) 3).map
      (fun markMap => (lookupMark markMap 7).map (fun info => info.eagg.num_evals)) =
      some (some 4) := by
  refine ⟨rfl, rfl, rfl, ?_⟩
  simp [markImportant, getMarkInfo, lookupMark, storeMark, sampleHelpers, siteSeenThrice,
    shadowOne]

end Marks
namespace Marks

theorem escapeMerge_counters (hp : Helpers) (mismatch : Int) (values : List ShadowValue)
    (i : Nat) (info info' : IntMarkInfo)
    (h : escapeMerge hp mismatch values i info = some info') :
    info'.addr = info.addr ∧ info'.num_hits = info.num_hits ∧
    info'.num_mismatches = info.num_mismatches ∧ info'.nargs = info.nargs ∧
    info'.exprs = info.exprs := by
  unfold escapeMerge at h
  split at h
  · cases h; exact ⟨rfl, rfl, rfl, rfl, rfl⟩
  · split at h
    · cases h
    · cases h; exact ⟨rfl, rfl, rfl, rfl, rfl⟩

theorem escapeGeneralize_counters (opts : Options) (hp : Helpers)
    (values : List ShadowValue) (i : Nat) (info info' : IntMarkInfo)
    (h : escapeGeneralize opts hp values i info = some info') :
    info'.addr = info.addr ∧ info'.num_hits = info.num_hits ∧
    info'.num_mismatches = info.num_mismatches ∧ info'.nargs = info.nargs ∧
    info'.exprs.length = info.exprs.length := by
  unfold escapeGeneralize at h
  split at h
  · cases h; exact ⟨rfl, rfl, rfl, rfl, rfl⟩
  · split at h
    · cases h
    · split at h
      · cases h
      · split at h
        · cases h
        · cases h; exact ⟨rfl, rfl, rfl, rfl, by simp⟩

/-- The loop of `markEscapeFromFloat` touches neither the address nor the two
counters of the site. -/
theorem escapeLoop_counters (opts : Options) (hp : Helpers) (mismatch : Int)
    (values : List ShadowValue) :
    ∀ (left i : Nat) (info info' : IntMarkInfo),
      escapeLoop opts hp mismatch values left i info = some info' →
      info'.addr = info.addr ∧ info'.num_hits = info.num_hits ∧
      info'.num_mismatches = info.num_mismatches ∧ info'.nargs = info.nargs ∧
      info'.exprs.length = info.exprs.length
  | 0, _, info, info' => by
    intro h
    simp only [escapeLoop, Option.some.injEq] at h
    subst h
    exact ⟨rfl, rfl, rfl, rfl, rfl⟩
  | left + 1, i, info, info' => by
    intro h
    unfold escapeLoop at h
    cases h1 : escapeMerge hp mismatch values i info with
    | none => simp [h1] at h
    | some info1 =>
      simp only [h1] at h
      cases h2 : escapeGeneralize opts hp values i info1 with
      | none => simp [h2] at h
      | some info2 =>
        simp only [h2] at h
        obtain ⟨a1, a2, a3, a4, a5⟩ := escapeMerge_counters hp mismatch values i _ _ h1
        obtain ⟨b1, b2, b3, b4, b5⟩ := escapeGeneralize_counters opts hp values i _ _ h2
        obtain ⟨c1, c2, c3, c4, c5⟩ :=
          escapeLoop_counters opts hp mismatch values left (i + 1) _ _ h
        exact ⟨c1.trans (b1.trans a1), c2.trans (b2.trans a2), c3.trans (b3.trans a3),
          c4.trans (b4.trans a4), c5.trans (b5.trans (by rw [a5]))⟩

/-- The loop of `markEscapeFromFloat` completes when the array `values` holds
the values it reads and, unless `no_exprs` is set, each of them has an
expression and the site has a slot for it. -/
theorem escapeLoop_total (opts : Options) (hp : Helpers) (mismatch : Int)
    (values : List ShadowValue) :
    ∀ (left i : Nat) (info : IntMarkInfo),
      i + left ≤ values.length →
      (opts.no_exprs = true ∨
        (i + left ≤ info.exprs.length ∧ ∀ v ∈ values, v.expr ≠ none)) →
      ∃ info', escapeLoop opts hp mismatch values left i info = some info'
  | 0, _, info => by
    intro _ _
    exact ⟨info, rfl⟩
  | left + 1, i, info => by
    intro hlen hex
    have hi : i < values.length := by omega
    have hv : values[i]? = some values[i] := List.getElem?_eq_getElem hi
    have h1 : ∃ info1, escapeMerge hp mismatch values i info = some info1 := by
      unfold escapeMerge
      split
      · exact ⟨_, rfl⟩
      · rw [hv]; exact ⟨_, rfl⟩
    obtain ⟨info1, h1⟩ := h1
    obtain ⟨_, _, _, _, a5⟩ := escapeMerge_counters hp mismatch values i _ _ h1
    have h2 : ∃ info2, escapeGeneralize opts hp values i info1 = some info2 := by
      unfold escapeGeneralize
      rcases hex with hn | ⟨hl, he⟩
      · simp only [hn, ↓reduceIte]; exact ⟨_, rfl⟩
      · split
        · exact ⟨_, rfl⟩
        · rw [hv]
          have hne := he values[i] (List.getElem_mem hi)
          cases hexpr : (values[i]).expr with
          | none => exact absurd hexpr hne
          | some e =>
            have hi2 : i < info1.exprs.length := by rw [a5]; omega
            simp only [hexpr, List.getElem?_eq_getElem hi2]
            exact ⟨_, rfl⟩
    obtain ⟨info2, h2⟩ := h2
    obtain ⟨_, _, _, _, b5⟩ := escapeGeneralize_counters opts hp values i _ _ h2
    unfold escapeLoop
    simp only [h1, h2]
    apply escapeLoop_total opts hp mismatch values left (i + 1) info2 (by omega)
    rcases hex with hn | ⟨hl, he⟩
    · exact Or.inl hn
    · exact Or.inr ⟨by rw [b5, a5]; omega, he⟩

end Marks
namespace Marks

theorem anyArg_spec (sub : Option Nat → Option Bool) (P : Option Nat → Prop) :
    ∀ (args : List (Option Nat)),
      (∀ a ∈ args, ∃ b, sub a = some b ∧ (b = true ↔ P a)) →
      ∃ b, anyArg sub args = some b ∧ (b = true ↔ ∃ a ∈ args, P a)
  | [] => by
    intro _
    exact ⟨false, rfl, by simp⟩
  | arg :: rest => by
    intro h
    obtain ⟨b, hb, hP⟩ := h arg (List.mem_cons_self _ _)
    unfold anyArg
    rw [hb]
    cases b with
    | true =>
      exact ⟨true, rfl, by simpa using Or.inl (hP.mp rfl)⟩
    | false =>
      obtain ⟨b', hb', hP'⟩ := anyArg_spec sub P rest
        (fun a ha => h a (List.mem_cons_of_mem _ ha))
      refine ⟨b', hb', ?_⟩
      rw [hP']
      have hn : ¬ P arg := fun hp => by simpa using hP.mpr hp
      simp [hn]

/-- On a heap whose branches only point to nodes, `isSubexpr` returns, and it
returns 1 exactly when the needle is found from the haystack in fewer than
`depth` descents. -/
theorem isSubexpr_spec (exprs : List SymbExpr) (needle : Option Nat)
    (hchild : ∀ (p : Nat) (args : List (Option Nat)), exprs[p]? = some (.Branch args) →
      ∀ a ∈ args, ∃ q, a = some q ∧ q < exprs.length) :
    ∀ (depth q : Nat), q < exprs.length →
      ∃ b, isSubexpr exprs needle depth (some q) = some b ∧
        (b = true ↔ ∃ k, k < depth ∧ Descends exprs k (some q) needle)
  | 0, q, _ => ⟨false, rfl, by simp⟩
  | depth + 1, q, hq => by
    unfold isSubexpr
    by_cases hn : needle = some q
    · simp only [hn, ↓reduceIte]
      exact ⟨true, rfl, by simpa using ⟨0, by omega, Descends.here _⟩⟩
    · simp only [hn, ↓reduceIte]
      have hget : exprs[q]? = some exprs[q] := List.getElem?_eq_getElem hq
      cases hnode : exprs[q] with
      | Leaf =>
        rw [hnode] at hget
        simp only [hget]
        refine ⟨false, rfl, ?_⟩
        simp only [Bool.false_eq_true, false_iff, not_exists, not_and]
        intro k _ hd
        cases hd with
        | here => exact hn rfl
        | step p args a k m hb _ _ => rw [hget] at hb; cases hb
      | Branch args =>
        rw [hnode] at hget
        simp only [hget]
        obtain ⟨b, hb, hP⟩ := anyArg_spec (isSubexpr exprs needle depth)
          (fun a => ∃ k, k < depth ∧ Descends exprs k a needle) args
          (by
            intro a ha
            obtain ⟨qa, rfl, hqa⟩ := hchild q args hget a ha
            exact isSubexpr_spec exprs needle hchild depth qa hqa)
        refine ⟨b, hb, hP.trans ?_⟩
        constructor
        · rintro ⟨a, ha, k, hk, hd⟩
          exact ⟨k + 1, by omega, Descends.step q args a k needle hget ha hd⟩
        · rintro ⟨k, hk, hd⟩
          cases hd with
          | here => exact absurd rfl hn
          | step p args' a k' m hb ha hd' =>
            rw [hget] at hb
            cases hb
            exact ⟨a, ha, k', by omega, hd'⟩

theorem subexprOfOther_spec (ops : List ShadowOpInfo) (exprs : List SymbExpr) (depth : Nat)
    (influence : Nat)
    (hchild : ∀ (p : Nat) (args : List (Option Nat)), exprs[p]? = some (.Branch args) →
      ∀ a ∈ args, ∃ q, a = some q ∧ q < exprs.length)
    (hinf : ∃ q, exprOf ops influence = some q) :
    ∀ (rest : List Nat),
      (∀ a ∈ rest, ∃ q, exprOf ops a = some q ∧ q < exprs.length) →
      ∃ b, subexprOfOther ops exprs depth influence rest = some b ∧
        (b = true ↔ ∃ other ∈ rest, other ≠ influence ∧
          ∃ k, k < depth ∧ Descends exprs k (exprOf ops other) (exprOf ops influence))
  | [] => by
    intro _
    exact ⟨false, rfl, by simp⟩
  | other :: rest => by
    intro hrest
    obtain ⟨b', hb', hP'⟩ := subexprOfOther_spec ops exprs depth influence hchild hinf rest
      (fun a ha => hrest a (List.mem_cons_of_mem _ ha))
    unfold subexprOfOther
    by_cases hsame : other = influence
    · simp only [hsame, ↓reduceIte]
      refine ⟨b', hb', hP'.trans ?_⟩
      simp
    · simp only [hsame, ↓reduceIte]
      obtain ⟨qi, hqi⟩ := hinf
      obtain ⟨qo, hqo, hlt⟩ := hrest other (List.mem_cons_self _ _)
      have e1 : ∃ inf, ops[influence]? = some inf ∧ inf.expr = exprOf ops influence := by
        unfold exprOf at hqi ⊢
        cases h : ops[influence]? with
        | none => simp [h] at hqi
        | some inf => exact ⟨inf, rfl, rfl⟩
      have e2 : ∃ o, ops[other]? = some o ∧ o.expr = some qo := by
        unfold exprOf at hqo
        cases h : ops[other]? with
        | none => simp [h] at hqo
        | some o => exact ⟨o, rfl, by simpa [h] using hqo⟩
      obtain ⟨inf, hinf1, hinf2⟩ := e1
      obtain ⟨o, ho1, ho2⟩ := e2
      simp only [hinf1, ho1, hinf2, ho2]
      obtain ⟨b, hb, hP⟩ := isSubexpr_spec exprs (exprOf ops influence) hchild depth qo hlt
      rw [hb]
      cases b with
      | true =>
        refine ⟨true, rfl, ?_⟩
        simp only [true_iff]
        exact ⟨other, List.mem_cons_self _ _, hsame, by rw [hqo]; exact hP.mp rfl⟩
      | false =>
        refine ⟨b', hb', hP'.trans ?_⟩
        have hno : ¬ ∃ k, k < depth ∧ Descends exprs k (exprOf ops other) (exprOf ops influence) := by
          rw [hqo]
          intro h
          simpa using hP.mpr h
        constructor
        · rintro ⟨x, hx, hne, hd⟩
          exact ⟨x, List.mem_cons_of_mem _ hx, hne, hd⟩
        · rintro ⟨x, hx, hne, hd⟩
          rcases List.mem_cons.mp hx with rfl | hx
          · exact absurd hd hno
          · exact ⟨x, hx, hne, hd⟩

theorem filterLoop_spec (ops : List ShadowOpInfo) (exprs : List SymbExpr) (depth : Nat)
    (data : List Nat) (keep : Nat → Bool)
    (hchild : ∀ (p : Nat) (args : List (Option Nat)), exprs[p]? = some (.Branch args) →
      ∀ a ∈ args, ∃ q, a = some q ∧ q < exprs.length)
    (hdata : ∀ a ∈ data, ∃ q, exprOf ops a = some q ∧ q < exprs.length)
    (hkeep : ∀ a ∈ data, (keep a = true ↔ ¬ ∃ other ∈ data, other ≠ a ∧
      ∃ k, k < depth ∧ Descends exprs k (exprOf ops other) (exprOf ops a))) :
    ∀ (rest : List Nat), (∀ a ∈ rest, a ∈ data) →
      filterLoop ops exprs depth data rest = some (rest.filter keep)
  | [] => by
    intro _
    rfl
  | influence :: rest => by
    intro hsub
    have hmem := hsub influence (List.mem_cons_self _ _)
    obtain ⟨q, hq, _⟩ := hdata influence hmem
    obtain ⟨b, hb, hP⟩ := subexprOfOther_spec ops exprs depth influence hchild ⟨q, hq⟩ data hdata
    have ih := filterLoop_spec ops exprs depth data keep hchild hdata hkeep rest
      (fun a ha => hsub a (List.mem_cons_of_mem _ ha))
    unfold filterLoop
    rw [hb, ih]
    cases b with
    | true =>
      have : keep influence = false := by
        cases hk : keep influence with
        | false => rfl
        | true => exact absurd (hP.mp rfl) ((hkeep influence hmem).mp hk)
      simp [List.filter_cons, this]
    | false =>
      have : keep influence = true := by
        apply (hkeep influence hmem).mpr
        intro h
        simpa using hP.mpr h
      simp [List.filter_cons, this]

/-- Claim C13, as amended. On a list of influences that each have an
expression, in a heap whose branches only point to nodes,
`filterInfluenceSubexprs` returns, in their original order, exactly those
influences whose expression is not found within the depth bound (fewer than
`2 * max_expr_block_depth` descents, zero descents included) from the
expression of a different influence of the list: an influence is dropped
when its expression lies strictly inside the expression of another one and
also when it is the very expression of another one. -/
theorem filterInfluenceSubexprs_keeps (ops : List ShadowOpInfo) (exprs : List SymbExpr)
    (max_expr_block_depth : Int) (data : List Nat) (keep : Nat → Bool)
    (hchild : ∀ (p : Nat) (args : List (Option Nat)), exprs[p]? = some (.Branch args) →
      ∀ a ∈ args, ∃ q, a = some q ∧ q < exprs.length)
    (hdata : ∀ a ∈ data, ∃ q, exprOf ops a = some q ∧ q < exprs.length)
    (hkeep : ∀ a ∈ data, (keep a = true ↔ ¬ ∃ other ∈ data, other ≠ a ∧
      ∃ k, k < (max_expr_block_depth * 2).toNat ∧
        Descends exprs k (exprOf ops other) (exprOf ops a))) :
    filterInfluenceSubexprs ops exprs max_expr_block_depth (some data) =
      some (some (data.filter keep)) := by
  unfold filterInfluenceSubexprs
  simp only
  rw [filterLoop_spec ops exprs _ data keep hchild hdata hkeep data (fun _ h => h)]

/-- Witness for claim C13: the op at index 1 computes on the result of the op
at index 0, whose expression is the argument of its own; only the outer one
is kept. -/
theorem filterInfluenceSubexprs_keeps_witness :
    filterInfluenceSubexprs
      [{ op_addr := 100, expr := some 0 }, { op_addr := 200, expr := some 1 }]
      [.Leaf, .Branch [some 0]] 1 (some [0, 1]) =
      some (some ([0, 1].filter (fun a => a == 1))) :=
  filterInfluenceSubexprs_keeps
    [{ op_addr := 100, expr := some 0 }, { op_addr := 200, expr := some 1 }]
    [.Leaf, .Branch [some 0]] 1 [0, 1] (fun a => a == 1)
    (by
      intro p args hp a ha
      match p, hp with
      | 1, hp =>
        simp only [List.getElem?_cons_succ, List.getElem?_cons_zero, Option.some.injEq,
          SymbExpr.Branch.injEq] at hp
        subst hp
        simp only [List.mem_singleton] at ha
        exact ⟨0, ha, by decide⟩
      | 0, hp => simp at hp
      | n + 2, hp => simp at hp)
    (by
      intro a ha
      simp only [List.mem_cons, List.mem_singleton, List.not_mem_nil, or_false] at ha
      rcases ha with rfl | rfl
      · exact ⟨0, rfl, by decide⟩
      · exact ⟨1, rfl, by decide⟩)
    (by
      intro a ha
      simp only [List.mem_cons, List.mem_singleton, List.not_mem_nil, or_false] at ha
      rcases ha with rfl | rfl
      · have hfound : ∃ other ∈ [0, 1], other ≠ 0 ∧ ∃ k, k < ((1 : Int) * 2).toNat ∧
            Descends [SymbExpr.Leaf, SymbExpr.Branch [some 0]] k
              (exprOf [{ op_addr := 100, expr := some 0 }, { op_addr := 200, expr := some 1 }]
                other)
              (exprOf [{ op_addr := 100, expr := some 0 }, { op_addr := 200, expr := some 1 }]
                0) :=
          ⟨1, by simp, by decide, 1, by decide,
            Descends.step 1 [some 0] (some 0) 0 (some 0) rfl (by simp) (Descends.here _)⟩
        constructor
        · intro h
          exact absurd h (by decide)
        · intro h
          exact absurd hfound h
      · simp only [beq_self_eq_true, true_iff]
        rintro ⟨other, ho, hne, k, hk, hd⟩
        simp only [List.mem_cons, List.mem_singleton, List.not_mem_nil, or_false] at ho
        rcases ho with rfl | rfl
        · cases hd with
          | step p args a k m hb _ _ => simp at hb
        · exact hne rfl)

/-- Counterexample to claim C13 as stated. Two different influences share
the expression at address 0, a leaf. Neither expression lies strictly inside
the other, since nothing is found from a leaf by one descent or more; yet
`filterInfluenceSubexprs` keeps neither influence. -/
theorem filterInfluenceSubexprs_drops_equal :
    filterInfluenceSubexprs
      [{ op_addr := 100, expr := some 0 }, { op_addr := 200, expr := some 0 }]
      [.Leaf] 1 (some [0, 1]) = some (some []) ∧
    ¬ ∃ k, 1 ≤ k ∧ Descends [SymbExpr.Leaf] k (some 0) (some 0) := by
  refine ⟨by decide, ?_⟩
  rintro ⟨k, hk, hd⟩
  cases hd with
  | here => omega
  | step p args a k m hb _ _ => simp at hb

end Marks
/-! ## The instrumenter -/

namespace Instrument

/-- Claim C14 fails on the statically typed path of `instrumentPutI`. Temporary
3 has static type `Ft_Single`; its shadow temporary holds the shadow value at
7000, whose `ref_count` (address 7008) is 1, and the thread-state slot it is
put into (offset 72, address 2576) is empty. After the statements that
disown the null old occupant, the IR that `instrumentPutI` emits for `PutI` of
the temporary is the clearing of the slot and the store of 7000 into it:
there is no store to the `ref_count`, which is still 1 afterwards. The IR that
`instrumentPut` emits for the same temporary, and the IR of `instrumentPutI` on
its run-time checked path (the same temporary with static type
`Ft_Unknown`), store the incremented `ref_count` 2 before they store the
value. -/
theorem instrumentPutI_static_stores_unowned :
    (instrumentPutI sampleLayout sampleRuntime sampleBlock 2 0 64 8 .Ity_F32 (.RdTmp 3)).map
      (fun s => (s.sbOut, s.machine.mem 2576, s.machine.mem 7008)) =
      some (nullDisownTrace ++ [.Store 2576 0, .Store 2576 7000], 7000, 1) ∧
    (instrumentPut sampleLayout sampleRuntime sampleBlock 72 (.RdTmp 3)).map
      (fun s => (s.sbOut, s.machine.mem 2576, s.machine.mem 7008)) =
      some (nullDisownTrace ++ [.Store 7008 2, .Store 2576 7000], 7000, 2) ∧
    (instrumentPutI sampleLayout sampleRuntime
        { sampleBlock with tempContext := fun _ => .Ft_Unknown }
        2 0 64 8 .Ity_F32 (.RdTmp 3)).map
      (fun s => (s.sbOut, s.machine.mem 2576, s.machine.mem 7008)) =
      some (nullDisownTrace ++ [.Store 2576 0, .StoreG true 7008 2, .Store 2576 7000],
        7000, 2) := by
  decide

/-- Claim C16 fails for a non-zero offset. For the offset 72,
`addSetTSValDynamic` writes the address 2000 + 72 * 8 = 2576, the slot that
`runGetTSVal` and `addSetTSVal` use, while `runGetTSValDynamic` reads the
address 2000 + 72 = 2072: after `addSetTSValDynamic` has stored 7000 at the
offset, `runGetTSVal` reads 7000 and `runGetTSValDynamic` reads 0. In the
block where the slot of offset 72 is occupied by the shadow value at 7100
(`ref_count` 1, at address 7108), the IR of `instrumentPutI` overwrites the slot
and leaves that `ref_count` at 1 and the free list empty: the prior occupant
is not disowned; the IR of `instrumentPut` for the same offset brings the
`ref_count` to 0 and pushes the value on `freedVals`. -/
theorem runGetTSValDynamic_reads_other_slot :
    tsAddr sampleLayout 72 = 2576 ∧
    Iop_Add64 sampleLayout.shadowThreadState (Iop_Mul64 72 8) = 2576 ∧
    Iop_Add64 sampleLayout.shadowThreadState 72 = 2072 ∧
    runGetTSVal sampleLayout (addSetTSValDynamic sampleLayout sampleBlock 72 7000) 72 = 7000 ∧
    runGetTSValDynamic sampleLayout (addSetTSValDynamic sampleLayout sampleBlock 72 7000) 72
      = 0 ∧
    (instrumentPutI sampleLayout sampleRuntime occupiedBlock 2 0 64 8 .Ity_F32 (.RdTmp 3)).map
      (fun s => (s.machine.mem 2576, s.machine.mem 7108,
        s.machine.lists sampleLayout.freedVals)) = some (7000, 1, []) ∧
    (instrumentPut sampleLayout sampleRuntime occupiedBlock 72 (.RdTmp 3)).map
      (fun s => (s.machine.mem 2576, s.machine.mem 7108,
        s.machine.lists sampleLayout.freedVals)) = some (7000, 0, [7100]) := by
  decide

end Instrument
namespace Instrument

@[simp] theorem addStore_mem (s : Block) (data addr b : Nat) :
    (addStore s data addr).machine.mem b = if b = addr then data else s.machine.mem b := rfl

@[simp] theorem addStore_lists (s : Block) (data addr : Nat) :
    (addStore s data addr).machine.lists = s.machine.lists := rfl

@[simp] theorem addStore_sbOut (s : Block) (data addr : Nat) :
    (addStore s data addr).sbOut = s.sbOut ++ [.Store addr data] := rfl

@[simp] theorem addStoreG_mem (s : Block) (guard : Bool) (data addr b : Nat) :
    (addStoreG s guard data addr).machine.mem b =
      if guard = true ∧ b = addr then data else s.machine.mem b := by
  simp [addStoreG]

@[simp] theorem addStoreG_lists (s : Block) (guard : Bool) (data addr : Nat) :
    (addStoreG s guard data addr).machine.lists = s.machine.lists := rfl

@[simp] theorem addStoreG_sbOut (s : Block) (guard : Bool) (data addr : Nat) :
    (addStoreG s guard data addr).sbOut = s.sbOut ++ [.StoreG guard addr data] := rfl

@[simp] theorem addStackPushG_mem (s : Block) (guard : Bool) (stack item : Nat) :
    (addStackPushG s guard stack item).machine.mem = s.machine.mem := rfl

@[simp] theorem addStackPushG_lists (s : Block) (guard : Bool) (stack item k : Nat) :
    (addStackPushG s guard stack item).machine.lists k =
      if guard = true ∧ k = stack then item :: s.machine.lists k else s.machine.lists k := by
  simp [addStackPushG]

@[simp] theorem addStackPushG_sbOut (s : Block) (guard : Bool) (stack item : Nat) :
    (addStackPushG s guard stack item).sbOut = s.sbOut ++ [.Push guard stack item] := rfl

@[simp] theorem addDirtyG_machine (s : Block) (guard : Bool) (name : String) (args : List Nat)
    (effect : Machine → Machine) :
    (addDirtyG s guard name args effect).machine =
      if guard = true then effect s.machine else s.machine := rfl

@[simp] theorem addDirtyG_sbOut (s : Block) (guard : Bool) (name : String) (args : List Nat)
    (effect : Machine → Machine) :
    (addDirtyG s guard name args effect).sbOut = s.sbOut ++ [.Dirty guard name args] := rfl

@[simp] theorem addStore_static (s : Block) (data addr : Nat) :
    (addStore s data addr).tempContext = s.tempContext ∧
    (addStore s data addr).tsContext = s.tsContext ∧
    (addStore s data addr).tyenv = s.tyenv ∧
    (addStore s data addr).tempDebt = s.tempDebt := ⟨rfl, rfl, rfl, rfl⟩

@[simp] theorem addStoreG_static (s : Block) (guard : Bool) (data addr : Nat) :
    (addStoreG s guard data addr).tempContext = s.tempContext ∧
    (addStoreG s guard data addr).tsContext = s.tsContext ∧
    (addStoreG s guard data addr).tyenv = s.tyenv ∧
    (addStoreG s guard data addr).tempDebt = s.tempDebt := ⟨rfl, rfl, rfl, rfl⟩

@[simp] theorem addStackPushG_static (s : Block) (guard : Bool) (stack item : Nat) :
    (addStackPushG s guard stack item).tempContext = s.tempContext ∧
    (addStackPushG s guard stack item).tsContext = s.tsContext ∧
    (addStackPushG s guard stack item).tyenv = s.tyenv ∧
    (addStackPushG s guard stack item).tempDebt = s.tempDebt := ⟨rfl, rfl, rfl, rfl⟩

@[simp] theorem addDirtyG_static (s : Block) (guard : Bool) (name : String) (args : List Nat)
    (effect : Machine → Machine) :
    (addDirtyG s guard name args effect).tempContext = s.tempContext ∧
    (addDirtyG s guard name args effect).tsContext = s.tsContext ∧
    (addDirtyG s guard name args effect).tyenv = s.tyenv ∧
    (addDirtyG s guard name args effect).tempDebt = s.tempDebt := ⟨rfl, rfl, rfl, rfl⟩

theorem Iop_Sub64_one (x : Nat) (h1 : 1 ≤ x) (h2 : x < 2 ^ 64) : Iop_Sub64 x 1 + 1 = x := by
  unfold Iop_Sub64
  have e1 : x % 2 ^ 64 = x := Nat.mod_eq_of_lt h2
  have e2 : (1 : Nat) % 2 ^ 64 = 1 := by norm_num
  rw [e1, e2]
  have : x + 2 ^ 64 - 1 = (x - 1) + 2 ^ 64 := by omega
  rw [this, Nat.add_mod_right, Nat.mod_eq_of_lt (by omega)]
  omega

theorem Iop_CmpEQ64_one (x : Nat) (h2 : x < 2 ^ 64) : Iop_CmpEQ64 x 1 = decide (x = 1) := by
  unfold Iop_CmpEQ64
  rw [Nat.mod_eq_of_lt h2]
  have e2 : (1 : Nat) % 2 ^ 64 = 1 := by norm_num
  rw [e2]
  by_cases h : x = 1 <;> simp [h]

/-- The expression disown under a false guard completes: nothing is stored,
pushed or called. -/
theorem addExprDisownG_false (lay : Layout) (rt : Runtime) (s : Block) :
    ∃ s', addExprDisownG lay rt s false 0 = some s' ∧
      s'.machine.mem = s.machine.mem ∧ s'.machine.lists = s.machine.lists := by
  have h0 : runZeroCheck64 (Iop_Sub64 0 1) = false := by decide
  refine ⟨_, rfl, ?_, ?_⟩
  · funext b
    simp [addStoreArrowG, runArrowG, runLoadG64, h0]
  · funext k
    simp [addStoreArrowG, runArrowG, runLoadG64, h0]

/-- The expression disown of a null expression under a true guard faults. -/
theorem addExprDisownG_null (lay : Layout) (rt : Runtime) (s : Block) (expr : Nat)
    (hnull : runNonZeroCheck64 expr = false) :
    addExprDisownG lay rt s true expr = none := by
  unfold addExprDisownG
  simp [hnull]

/-- The expression disown of an expression that is not null completes; it
leaves alone every word other than the count of the expression that the
helper leaves alone, and the list `freedVals`, and it stores the count one
lower. -/
theorem addExprDisownG_frame (lay : Layout) (rt : Runtime) (s : Block) (expr a : Nat)
    (hnz : runNonZeroCheck64 expr = true)
    (hne : Iop_Add64 expr lay.cexpr_ref_count_off ≠ a)
    (hfree : ∀ (x : Nat) (m : Machine),
      (rt.freeBranchConcExpr x m).mem a = m.mem a ∧
      (rt.freeBranchConcExpr x m).lists lay.freedVals = m.lists lay.freedVals)
    (hlists : lay.leafCExprs ≠ lay.freedVals) :
    ∃ s', addExprDisownG lay rt s true expr = some s' ∧
      s'.machine.mem a = s.machine.mem a ∧
      s'.machine.lists lay.freedVals = s.machine.lists lay.freedVals ∧
      IRStmt.StoreG true (Iop_Add64 expr lay.cexpr_ref_count_off)
        (Iop_Sub64 (s.machine.mem (Iop_Add64 expr lay.cexpr_ref_count_off)) 1) ∈ s'.sbOut := by
  have hne' : ¬ a = Iop_Add64 expr lay.cexpr_ref_count_off := fun h => hne h.symm
  have hl : ¬ lay.freedVals = lay.leafCExprs := fun h => hlists h.symm
  unfold addExprDisownG
  simp only [hnz, Bool.not_true, Bool.and_false, Bool.false_eq_true, ↓reduceIte,
    Bool.and_true]
  refine ⟨_, rfl, ?_, ?_, ?_⟩
  · simp only [addDirtyG_machine]
    split
    · rw [(hfree _ _).1]
      simp [addStoreArrowG, hne']
    · simp [addStoreArrowG, hne']
  · simp only [addDirtyG_machine]
    split
    · rw [(hfree _ _).2]
      simp [addStoreArrowG, hl]
    · simp [addStoreArrowG, hl]
  · simp [addStoreArrowG, runArrowG, runLoadG64]

/-- What holds for a value that has an expression when its last reference
goes. For a shadow value `sv` whose `ref_count` is at least 1 and not the
largest word, whose `expr` field is not its `ref_count` field, whose
expression is not null when the `ref_count` is 1 and keeps its count
elsewhere than the `ref_count` of the value (the helper `freeBranchConcExpr`
leaving that `ref_count` and the list `freedVals` alone): the IR of
`addSVOwnNonNull` leaves the `ref_count` one higher; the IR of
`addSVDisownNonNull` completes, leaves it one lower and pushes the value on
`freedVals` exactly when the count was 1; when the count was not 1 nothing
else in memory and no free list changes; when it was 1 the count of the
expression is stored one lower. -/
theorem addSVOwn_addSVDisown_with_expr (lay : Layout) (rt : Runtime) (s : Block) (sv : Nat)
    (hlo : 1 ≤ s.machine.mem (Iop_Add64 sv lay.ref_count_off))
    (hhi : s.machine.mem (Iop_Add64 sv lay.ref_count_off) + 1 < 2 ^ 64)
    (hfields : Iop_Add64 sv lay.expr_off ≠ Iop_Add64 sv lay.ref_count_off)
    (hnz : s.machine.mem (Iop_Add64 sv lay.ref_count_off) = 1 →
      runNonZeroCheck64 (s.machine.mem (Iop_Add64 sv lay.expr_off)) = true)
    (hexpr : Iop_Add64 (s.machine.mem (Iop_Add64 sv lay.expr_off)) lay.cexpr_ref_count_off ≠
      Iop_Add64 sv lay.ref_count_off)
    (hfree : ∀ (x : Nat) (m : Machine),
      (rt.freeBranchConcExpr x m).mem (Iop_Add64 sv lay.ref_count_off) =
        m.mem (Iop_Add64 sv lay.ref_count_off) ∧
      (rt.freeBranchConcExpr x m).lists lay.freedVals = m.lists lay.freedVals)
    (hlists : lay.leafCExprs ≠ lay.freedVals) :
    (addSVOwnNonNull lay s sv).machine.mem (Iop_Add64 sv lay.ref_count_off) =
      s.machine.mem (Iop_Add64 sv lay.ref_count_off) + 1 ∧
    ∃ s', addSVDisownNonNull lay rt s sv = some s' ∧
      s'.machine.mem (Iop_Add64 sv lay.ref_count_off) + 1 =
        s.machine.mem (Iop_Add64 sv lay.ref_count_off) ∧
      s'.machine.lists lay.freedVals =
        (if s.machine.mem (Iop_Add64 sv lay.ref_count_off) = 1 then
          sv :: s.machine.lists lay.freedVals
        else s.machine.lists lay.freedVals) ∧
      (s.machine.mem (Iop_Add64 sv lay.ref_count_off) ≠ 1 →
        (∀ b, b ≠ Iop_Add64 sv lay.ref_count_off → s'.machine.mem b = s.machine.mem b) ∧
        ∀ k, s'.machine.lists k = s.machine.lists k) ∧
      (s.machine.mem (Iop_Add64 sv lay.ref_count_off) = 1 →
        IRStmt.StoreG true
          (Iop_Add64 (s.machine.mem (Iop_Add64 sv lay.expr_off)) lay.cexpr_ref_count_off)
          (Iop_Sub64 (s.machine.mem
            (Iop_Add64 (s.machine.mem (Iop_Add64 sv lay.expr_off)) lay.cexpr_ref_count_off)) 1)
          ∈ s'.sbOut) := by
  generalize ha : Iop_Add64 sv lay.ref_count_off = a at *
  generalize hprev : s.machine.mem a = prev at *
  have hlt : prev < 2 ^ 64 := by omega
  have hsub := Iop_Sub64_one prev hlo hlt
  have hcmp := Iop_CmpEQ64_one prev hlt
  constructor
  · simp only [addSVOwnNonNull, addStoreArrow, runArrow, runLoad64, ha, hprev, addStore_mem,
      ↓reduceIte]
    unfold Iop_Add64
    exact Nat.mod_eq_of_lt hhi
  · by_cases h1 : prev = 1
    · have hc : Iop_CmpEQ64 prev 1 = true := by rw [hcmp]; simpa using h1
      have hfa : ¬ Iop_Add64 sv lay.expr_off = a := hfields
      have hex : (addStoreArrow (addStackPushG s true lay.freedVals sv) sv lay.ref_count_off
          (Iop_Sub64 prev 1)).machine.mem (Iop_Add64 sv lay.expr_off) =
          s.machine.mem (Iop_Add64 sv lay.expr_off) := by
        simp [addStoreArrow, ha, hfa]
      obtain ⟨s', hs', hm, hl, hst⟩ := addExprDisownG_frame lay rt
        (addStoreArrow (addStackPushG s true lay.freedVals sv) sv lay.ref_count_off
          (Iop_Sub64 prev 1))
        (s.machine.mem (Iop_Add64 sv lay.expr_off)) a (hnz h1) hexpr hfree hlists
      have hne' : ¬ Iop_Add64 (s.machine.mem (Iop_Add64 sv lay.expr_off))
          lay.cexpr_ref_count_off = a := hexpr
      refine ⟨s', ?_, ?_, ?_, fun hn => absurd h1 hn, ?_⟩
      · unfold addSVDisownNonNull
        simp only [runArrow, runLoad64, ha, hprev, hc, runArrowG, runLoadG64, ↓reduceIte, hex]
        exact hs'
      · rw [hm]
        simp [addStoreArrow, ha, hsub]
      · rw [hl]
        simp [addStoreArrow, h1]
      · intro _
        simpa [addStoreArrow, ha, hne'] using hst
    · have hc : Iop_CmpEQ64 prev 1 = false := by rw [hcmp]; simpa using h1
      obtain ⟨s', hs', hm, hl⟩ := addExprDisownG_false lay rt
        (addStoreArrow (addStackPushG s false lay.freedVals sv) sv lay.ref_count_off
          (Iop_Sub64 prev 1))
      refine ⟨s', ?_, ?_, ?_, ?_, fun h => absurd h h1⟩
      · unfold addSVDisownNonNull
        simp only [runArrow, runLoad64, ha, hprev, hc, runArrowG, runLoadG64,
          Bool.false_eq_true, ↓reduceIte]
        exact hs'
      · rw [hm]
        simp [addStoreArrow, ha, hsub]
      · rw [hl]
        simp [addStoreArrow, h1]
      · intro _
        rw [hm, hl]
        constructor
        · intro b hb
          simp [addStoreArrow, ha, hb]
        · intro k
          simp [addStoreArrow]

/-- The shadow value at 7000 of the concrete block, with `ref_count` 1 and the
expression at 8000. -/
theorem addSVOwn_addSVDisown_with_expr_sample :
    sampleBlock.machine.mem (Iop_Add64 7000 sampleLayout.ref_count_off) = 1 ∧
    (addSVOwnNonNull sampleLayout sampleBlock 7000).machine.mem
      (Iop_Add64 7000 sampleLayout.ref_count_off) =
      sampleBlock.machine.mem (Iop_Add64 7000 sampleLayout.ref_count_off) + 1 ∧
    (addSVDisownNonNull sampleLayout sampleRuntime sampleBlock 7000).map
      (fun s' => (s'.machine.mem 7008, s'.machine.lists sampleLayout.freedVals,
        s'.machine.mem 8000)) = some (0, [7000], 0) :=
  have h := addSVOwn_addSVDisown_with_expr sampleLayout sampleRuntime sampleBlock 7000
    (by decide) (by decide) (by decide) (fun _ => by decide) (by decide)
    (fun _ _ => ⟨rfl, rfl⟩) (by decide)
  ⟨by decide, h.1, by decide⟩

/-- C15: the last reference to a shadow value without an expression, as
`newShadowValue` makes it (`ref_count` 1 at 7208, `expr` null at 7216). The IR
of `addSVDisownNonNull` finds the count 1, so `lastRef` is true, loads the
null `expr` and passes it to `addExprDisownG`, whose store of the count is
guarded by `guard` and not by `shouldDoAnything`: it goes through the null
pointer and the run faults. So does the `Put` that overwrites a thread-state
slot holding the value. With a second reference (count 2), or with an
expression (the value at 7000), the disown completes. -/
theorem addSVDisownNonNull_null_expr_faults :
    bareValueBlock.machine.mem (Iop_Add64 7200 sampleLayout.ref_count_off) = 1 ∧
      bareValueBlock.machine.mem (Iop_Add64 7200 sampleLayout.expr_off) = 0 ∧
      (addExprDisownG sampleLayout sampleRuntime bareValueBlock true 0).isNone = true ∧
      (addSVDisownNonNull sampleLayout sampleRuntime bareValueBlock 7200).isNone = true ∧
      (instrumentPut sampleLayout sampleRuntime bareValueBlock 80 (.RdTmp 3)).isNone = true ∧
      (addSVDisownNonNull sampleLayout sampleRuntime
        (addSVOwnNonNull sampleLayout bareValueBlock 7200) 7200).map
        (fun s' => (s'.machine.mem 7208, s'.machine.lists sampleLayout.freedVals)) =
        some (1, []) ∧
      (addSVDisownNonNull sampleLayout sampleRuntime sampleBlock 7000).map
        (fun s' => (s'.machine.mem 7008, s'.machine.lists sampleLayout.freedVals)) =
        some (0, [7000]) := by
  refine ⟨?_, ?_, ?_, ?_, ?_, ?_, ?_⟩ <;> decide

end Instrument
namespace Instrument

theorem cleanupAtEndOfBlock_tempDebt (s : Block) (t : Nat) :
    (cleanupAtEndOfBlock s t).tempDebt =
      if t ∈ s.tempDebt then s.tempDebt else s.tempDebt ++ [t] := by
  unfold cleanupAtEndOfBlock
  by_cases h : t ∈ s.tempDebt
  · have : s.tempDebt.any (fun prevEntry => prevEntry == t) = true := by
      simp only [List.any_eq_true, beq_iff_eq]
      exact ⟨t, h, rfl⟩
    simp [this, h]
  · have : s.tempDebt.any (fun prevEntry => prevEntry == t) = false := by
      simp only [List.any_eq_false, beq_iff_eq]
      intro x hx hxt
      exact h (hxt ▸ hx)
    simp [this, h]

theorem cleanupAtEndOfBlock_static (s : Block) (t : Nat) :
    (cleanupAtEndOfBlock s t).tempContext = s.tempContext ∧
    (cleanupAtEndOfBlock s t).tsContext = s.tsContext ∧
    (cleanupAtEndOfBlock s t).sbOut = s.sbOut ∧
    (cleanupAtEndOfBlock s t).machine = s.machine := by
  unfold cleanupAtEndOfBlock
  split <;> exact ⟨rfl, rfl, rfl, rfl⟩

/-- Claim C17. `addStoreTemp` on the temporary `idx` stops at its assertion
exactly when `tempContext[idx]` is neither `Ft_Unknown` nor `Ft_Unshadowed`.
When it completes, `tempContext[idx]` is the type given, the static type of
every other temporary and of the thread state is as before, and the one
statement emitted is the store, without a guard, of the shadow temporary at
`&shadowTemps[idx]`, which holds it afterwards. -/
theorem addStoreTemp_asserts_and_stores (lay : Layout) (s : Block) (shadow_temp : Nat)
    (type : FloatType) (idx : Nat) :
    (addStoreTemp lay s shadow_temp type idx = none ↔
      (s.tempContext idx ≠ .Ft_Unknown ∧ s.tempContext idx ≠ .Ft_Unshadowed)) ∧
    ∀ s', addStoreTemp lay s shadow_temp type idx = some s' →
      s'.tempContext idx = type ∧
      (∀ t, t ≠ idx → s'.tempContext t = s.tempContext t) ∧
      s'.tsContext = s.tsContext ∧
      s'.sbOut = s.sbOut ++ [.Store (shadowTempAddr lay idx) shadow_temp] ∧
      s'.machine.mem (shadowTempAddr lay idx) = shadow_temp ∧
      (∀ b, b ≠ shadowTempAddr lay idx → s'.machine.mem b = s.machine.mem b) := by
  constructor
  · unfold addStoreTemp
    by_cases h : s.tempContext idx = .Ft_Unknown ∨ s.tempContext idx = .Ft_Unshadowed
    · simp only [h, ↓reduceIte]
      constructor
      · intro hc; cases hc
      · rintro ⟨h1, h2⟩
        rcases h with h | h
        · exact absurd h h1
        · exact absurd h h2
    · simp only [h, ↓reduceIte, true_iff]
      exact ⟨fun e => h (Or.inl e), fun e => h (Or.inr e)⟩
  · intro s' hs
    unfold addStoreTemp at hs
    split at hs
    · cases hs
      obtain ⟨e1, e2, e3, e4⟩ := cleanupAtEndOfBlock_static
        (addStore (s.setTempContext idx type) shadow_temp (shadowTempAddr lay idx)) idx
      rw [e1, e2, e3, e4]
      refine ⟨by simp [Block.setTempContext, addStore], ?_, rfl, rfl, by simp, ?_⟩
      · intro t ht
        simp [Block.setTempContext, addStore, ht]
      · intro b hb
        simp [hb, Block.setTempContext]
    · cases hs

/-- Witness for claim C17: a store into temporary 4 of the concrete block,
whose static type is `Ft_Unknown`, completes. -/
theorem addStoreTemp_asserts_and_stores_witness :
    ∃ s', addStoreTemp sampleLayout sampleBlock 5000 .Ft_Single 4 = some s' ∧
      s'.tempContext 4 = .Ft_Single ∧
      s'.sbOut = sampleBlock.sbOut ++ [.Store (shadowTempAddr sampleLayout 4) 5000] :=
  ⟨_, rfl,
    ((addStoreTemp_asserts_and_stores sampleLayout sampleBlock 5000 .Ft_Single 4).2 _ rfl).1,
    ((addStoreTemp_asserts_and_stores sampleLayout sampleBlock 5000 .Ft_Single 4).2 _
      rfl).2.2.2.1⟩

/-- Claim C19, as amended. After `instrumentWriteConst` for `t = Const c` the
static type of `t` is `Ft_Unknown`; the static type of every other temporary
and of the thread state, the ledger and the machine are as before and no
statement is emitted. -/
theorem instrumentWriteConst_unknown (s : Block) (dest : Nat) (con : Nat) :
    (instrumentWriteConst s dest con).tempContext dest = .Ft_Unknown ∧
    (∀ t, t ≠ dest → (instrumentWriteConst s dest con).tempContext t = s.tempContext t) ∧
    (instrumentWriteConst s dest con).tsContext = s.tsContext ∧
    (instrumentWriteConst s dest con).tempDebt = s.tempDebt ∧
    (instrumentWriteConst s dest con).sbOut = s.sbOut ∧
    (instrumentWriteConst s dest con).machine = s.machine := by
  refine ⟨by simp [instrumentWriteConst, Block.setTempContext], ?_, rfl, rfl, rfl, rfl⟩
  intro t ht
  simp [instrumentWriteConst, Block.setTempContext, ht]

/-- Counterexample to claim C19 as stated. Temporary 3 of the concrete block
has static type `Ft_Single`; after `instrumentWriteConst` for a constant
written to it, its static type is `Ft_Unknown`, which is not
`Ft_NonFloat`. -/
theorem instrumentWriteConst_not_nonfloat :
    (instrumentWriteConst sampleBlock 3 0).tempContext 3 = .Ft_Unknown ∧
    (instrumentWriteConst sampleBlock 3 0).tempContext 3 ≠ .Ft_NonFloat := by
  decide

end Instrument
namespace Instrument

theorem addStoreTemp_tempDebt (lay : Layout) (s s' : Block) (shadow_temp : Nat)
    (type : FloatType) (idx : Nat) (h : addStoreTemp lay s shadow_temp type idx = some s') :
    s'.tempDebt = if idx ∈ s.tempDebt then s.tempDebt else s.tempDebt ++ [idx] := by
  unfold addStoreTemp at h
  split at h
  · cases h
    rw [cleanupAtEndOfBlock_tempDebt]
    rfl
  · cases h

theorem addStoreTempG_tempDebt (lay : Layout) (s s' : Block) (guard : Bool)
    (shadow_temp : Nat) (type : FloatType) (idx : Nat)
    (h : addStoreTempG lay s guard shadow_temp type idx = some s') :
    s'.tempDebt = if idx ∈ s.tempDebt then s.tempDebt else s.tempDebt ++ [idx] := by
  unfold addStoreTempG at h
  split at h
  · cases h
    rw [cleanupAtEndOfBlock_tempDebt]
    rfl
  · cases h

/-- One call: a call that stores registers its temporary unless the ledger
has it, a call that only marks leaves the ledger as it is. -/
theorem TempWrite.run_tempDebt (lay : Layout) (s s' : Block) (w : TempWrite)
    (h : w.run lay s = some s') :
    s'.tempDebt =
      match w.stored with
      | none => s.tempDebt
      | some idx => if idx ∈ s.tempDebt then s.tempDebt else s.tempDebt ++ [idx] := by
  cases w with
  | StoreTemp shadow_temp type idx => exact addStoreTemp_tempDebt lay s s' _ _ _ h
  | StoreTempG guard shadow_temp type idx => exact addStoreTempG_tempDebt lay s s' _ _ _ _ h
  | StoreTempUnknown shadow_temp_maybe idx => exact addStoreTemp_tempDebt lay s s' _ _ _ h
  | StoreTempNonFloat idx =>
    simp only [TempWrite.run, Option.some.injEq] at h
    subst h
    rfl
  | StoreTempUnshadowed idx =>
    simp only [TempWrite.run, Option.some.injEq] at h
    subst h
    rfl

theorem runTempWrites_tempDebt (lay : Layout) :
    ∀ (ops : List TempWrite) (s s' : Block), runTempWrites lay ops s = some s' →
      s.tempDebt.Nodup →
      s'.tempDebt.Nodup ∧
      ∀ t, (t ∈ s'.tempDebt ↔ t ∈ s.tempDebt ∨ ∃ w ∈ ops, w.stored = some t)
  | [], s, s' => by
    intro h hn
    simp only [runTempWrites, Option.some.injEq] at h
    subst h
    exact ⟨hn, by simp⟩
  | w :: rest, s, s' => by
    intro h hn
    unfold runTempWrites at h
    cases hw : w.run lay s with
    | none => simp [hw] at h
    | some s1 =>
      simp only [hw] at h
      have h1 := TempWrite.run_tempDebt lay s s1 w hw
      have hn1 : s1.tempDebt.Nodup ∧
          ∀ t, (t ∈ s1.tempDebt ↔ t ∈ s.tempDebt ∨ w.stored = some t) := by
        rw [h1]
        cases hst : w.stored with
        | none => exact ⟨hn, by simp⟩
        | some idx =>
          simp only
          by_cases hmem : idx ∈ s.tempDebt
          · simp only [hmem, ↓reduceIte, Option.some.injEq]
            refine ⟨hn, fun t => ⟨Or.inl, ?_⟩⟩
            rintro (h | h)
            · exact h
            · exact h ▸ hmem
          · simp only [hmem, ↓reduceIte, Option.some.injEq]
            refine ⟨?_, ?_⟩
            · rw [List.nodup_append]
              refine ⟨hn, List.nodup_singleton _, ?_⟩
              intro a ha hb
              simp only [List.mem_singleton] at hb
              exact hmem (hb ▸ ha)
            · intro t
              simp only [List.mem_append, List.mem_singleton]
              constructor
              · rintro (h | h)
                · exact Or.inl h
                · exact Or.inr h.symm
              · rintro (h | h)
                · exact Or.inl h
                · exact Or.inr h.symm
      obtain ⟨hnd, hiff⟩ := runTempWrites_tempDebt lay rest s1 s' h hn1.1
      refine ⟨hnd, fun t => ?_⟩
      rw [hiff t, hn1.2 t]
      simp only [List.mem_cons, exists_eq_or_imp]
      tauto

/-- Claim C18. `cleanupAtEndOfBlock(t)` appends `t` to the ledger exactly when
`t` is absent from it. After any sequence of calls of `addStoreTemp`,
`addStoreTempG`, `addStoreTempUnknown`, `addStoreTempNonFloat` and
`addStoreTempUnshadowed` that runs to its end in a block whose ledger started
empty, the ledger has no temporary twice and holds exactly the temporaries
that a call stored into the temp table; a temporary that was only marked
`Ft_NonFloat` or `Ft_Unshadowed` is not in it. -/
theorem tempDebt_registers_stores_once (lay : Layout) (ops : List TempWrite) (s s' : Block)
    (hrun : runTempWrites lay ops (resetOwnership s) = some s') :
    (∀ (b : Block) (t : Nat), (cleanupAtEndOfBlock b t).tempDebt =
      if t ∈ b.tempDebt then b.tempDebt else b.tempDebt ++ [t]) ∧
    s'.tempDebt.Nodup ∧
    (∀ t, (t ∈ s'.tempDebt ↔ ∃ w ∈ ops, w.stored = some t)) ∧
    (∀ t, s'.tempDebt.count t = 1 ↔ ∃ w ∈ ops, w.stored = some t) := by
  obtain ⟨hnd, hiff⟩ := runTempWrites_tempDebt lay ops (resetOwnership s) s' hrun
    (by simp [resetOwnership])
  have hiff' : ∀ t, (t ∈ s'.tempDebt ↔ ∃ w ∈ ops, w.stored = some t) := by
    intro t
    rw [hiff t]
    simp [resetOwnership]
  refine ⟨cleanupAtEndOfBlock_tempDebt, hnd, hiff', fun t => ?_⟩
  rw [← hiff' t]
  constructor
  · intro hc
    exact List.count_pos_iff.mp (by omega)
  · intro hm
    exact List.count_eq_one_of_mem hnd hm

/-- Witness for claim C18: temporary 4 is stored, temporary 5 is marked
non-float, temporary 4 is stored again under a guard and temporary 6 is
stored; the sequence completes and the ledger is then 4, 6. -/
theorem tempDebt_registers_stores_once_witness :
    (runTempWrites sampleLayout sampleWrites (resetOwnership sampleBlock)).map
      (fun b => b.tempDebt) = some [4, 6] ∧
    ∃ s', runTempWrites sampleLayout sampleWrites (resetOwnership sampleBlock) = some s' ∧
      s'.tempDebt.Nodup ∧
      (∀ t, (t ∈ s'.tempDebt ↔ ∃ w ∈ sampleWrites, w.stored = some t)) :=
  have hs : (runTempWrites sampleLayout sampleWrites (resetOwnership sampleBlock)).isSome
      = true := by decide
  have hget := (Option.some_get hs).symm
  ⟨by decide, _, hget,
    (tempDebt_registers_stores_once sampleLayout sampleWrites sampleBlock _ hget).2.1,
    (tempDebt_registers_stores_once sampleLayout sampleWrites sampleBlock _ hget).2.2.1⟩

end Instrument
namespace Instrument

end Instrument
namespace Instrument

/-! ### The inputs of an operation (`runMakeInput`, `runMakeInputG`) -/

/-- Each of the four combinations completes on a concrete argument:
(1, `Ft_Single`) on an `I32`, (2, `Ft_Single`) on an `I64`, (2, `Ft_Double`)
and (4, `Ft_Single`) on a `V128`, with and without a guard. -/
theorem runMakeInput_completes_on_samples :
    (runMakeInput sampleLayout plainHelpers { sampleBlock with tyenv := fun _ => .Ity_I32 }
        (.RdTmp 4) 17 .Ft_Single 1).isSome = true ∧
    (runMakeInput sampleLayout plainHelpers { sampleBlock with tyenv := fun _ => .Ity_I64 }
        (.RdTmp 4) 17 .Ft_Single 2).isSome = true ∧
    (runMakeInput sampleLayout plainHelpers { sampleBlock with tyenv := fun _ => .Ity_V128 }
        (.RdTmp 4) 17 .Ft_Double 2).isSome = true ∧
    (runMakeInput sampleLayout plainHelpers { sampleBlock with tyenv := fun _ => .Ity_V128 }
        (.RdTmp 4) 17 .Ft_Single 4).isSome = true ∧
    (runMakeInputG sampleLayout plainHelpers { sampleBlock with tyenv := fun _ => .Ity_I32 }
        true (.RdTmp 4) 17 .Ft_Single 1).isSome = true ∧
    (runMakeInputG sampleLayout plainHelpers { sampleBlock with tyenv := fun _ => .Ity_I64 }
        true (.RdTmp 4) 17 .Ft_Single 2).isSome = true ∧
    (runMakeInputG sampleLayout plainHelpers { sampleBlock with tyenv := fun _ => .Ity_V128 }
        false (.RdTmp 4) 17 .Ft_Double 2).isSome = true ∧
    (runMakeInputG sampleLayout plainHelpers { sampleBlock with tyenv := fun _ => .Ity_V128 }
        true (.RdTmp 4) 17 .Ft_Single 4).isSome = true := by
  refine ⟨?_, ?_, ?_, ?_, ?_, ?_, ?_, ?_⟩ <;> decide

/-- C24: `runMakeInput` and `runMakeInputG` abort on an assertion for every
combination of `num_vals` and `valType` other than (1, any type),
(2, `Ft_Single`), (2, `Ft_Double`) and (4, `Ft_Single`), whatever the
argument, the guard and the state; so they complete only for these four, and
never for a `num_vals` outside 1, 2 and 4. -/
theorem runMakeInput_aborts_outside_combinations (lay : Layout) (hp : Helpers) (s : Block)
    (guard : Bool) (argExpr : IRExpr) (argVal : Nat) (valType : FloatType) (num_vals : Int)
    (hcomb : ¬ (num_vals = 1 ∨ (num_vals = 2 ∧ valType = .Ft_Single) ∨
      (num_vals = 2 ∧ valType = .Ft_Double) ∨ (num_vals = 4 ∧ valType = .Ft_Single))) :
    runMakeInput lay hp s argExpr argVal valType num_vals = none ∧
      runMakeInputG lay hp s guard argExpr argVal valType num_vals = none := by
  have h1 : num_vals ≠ 1 := fun h => hcomb (Or.inl h)
  have h2 : ¬ (num_vals = 2 ∧ valType = .Ft_Single) := fun h => hcomb (Or.inr (Or.inl h))
  have h3 : ¬ (num_vals = 2 ∧ valType = .Ft_Double) :=
    fun h => hcomb (Or.inr (Or.inr (Or.inl h)))
  have h4 : ¬ (num_vals = 4 ∧ valType = .Ft_Single) :=
    fun h => hcomb (Or.inr (Or.inr (Or.inr h)))
  constructor
  · unfold runMakeInput
    simp only [if_neg h1, if_neg h2, if_neg h3]
    by_cases h : num_vals = 4
    · have hv : valType ≠ .Ft_Single := fun hv => h4 ⟨h, hv⟩
      simp [h, hv]
    · simp [h]
  · unfold runMakeInputG
    simp only [if_neg h1, if_neg h2, if_neg h3]
    by_cases h : num_vals = 4
    · have hv : valType ≠ .Ft_Single := fun hv => h4 ⟨h, hv⟩
      simp [h, hv]
    · simp [h]

/-- Three values of static type `Ft_Single` abort both functions. -/
theorem runMakeInput_aborts_outside_combinations_witness :
    runMakeInput sampleLayout plainHelpers sampleBlock (.RdTmp 4) 17 .Ft_Single 3 = none ∧
      runMakeInputG sampleLayout plainHelpers sampleBlock true (.RdTmp 4) 17 .Ft_Single 3 =
        none :=
  runMakeInput_aborts_outside_combinations sampleLayout plainHelpers sampleBlock true
    (.RdTmp 4) 17 .Ft_Single 3 (by decide)

/-! ### Temporary moves (`instrumentRdTmp`) -/

/-- A guarded store in a temporary leaves it with static type `Ft_Unknown`. -/
theorem addStoreTempG_dest_unknown (lay : Layout) (s s' : Block) (guard : Bool)
    (shadow_temp : Nat) (type : FloatType) (idx : Nat)
    (hrun : addStoreTempG lay s guard shadow_temp type idx = some s') :
    s'.tempContext idx = .Ft_Unknown := by
  unfold addStoreTempG at hrun
  split at hrun
  · simp only [Option.some.injEq] at hrun
    subst hrun
    simp only [cleanupAtEndOfBlock, Block.setTempContext]
    split <;> simp
  · exact absurd hrun (by simp)

/-- After `instrumentRdTmp` on a source that can have a shadow, the static type
of the destination is `Ft_Unknown`: the guarded store of the copy resets
it. -/
theorem instrumentRdTmp_dest_unknown (lay : Layout) (hp : Helpers) (s s' : Block)
    (dest src : Nat) (hshadow : canHaveShadow s (.RdTmp src) = true)
    (hrun : instrumentRdTmp lay hp s dest src = some s') :
    s'.tempContext dest = .Ft_Unknown := by
  unfold instrumentRdTmp at hrun
  simp only [hshadow, Bool.not_true] at hrun
  split at hrun
  · exact absurd hrun (by simp)
  · simp only [Bool.false_eq_true, if_false, addStoreTempCopy] at hrun
    exact addStoreTempG_dest_unknown _ _ _ _ _ _ _ hrun

/-- C26: the move `t4 = RdTmp t3` in the concrete block, where temporary 3 can
have a shadow and has static type `Ft_Single`: `instrumentRdTmp` completes
and leaves the destination with static type `Ft_Unknown`, not with the type
of the source, which is still `Ft_Single`. -/
theorem instrumentRdTmp_loses_static_type :
    canHaveShadow sampleBlock (.RdTmp 3) = true ∧
      hasStaticShadow sampleBlock (.RdTmp 3) = true ∧
      sampleBlock.tempContext 3 = .Ft_Single ∧
      (instrumentRdTmp sampleLayout plainHelpers sampleBlock 4 3).map
        (fun s => (s.tempContext 4, s.tempContext 3)) = some (.Ft_Unknown, .Ft_Single) := by
  refine ⟨?_, ?_, ?_, ?_⟩ <;> decide

end Instrument
namespace Instrument

/-! ### Guarded stores (`instrumentStoreG`) -/

/-- The guard of a guarded store does not reach the emitted call of
`setMemShadowTemp`: the instrumentation is that of the store with a true
guard, and the call is made on every run. -/
theorem instrumentStoreG_guard_unused (lay : Layout) (hp : Helpers) (s : Block) (addr : Nat)
    (guard : Bool) (data : IRExpr) :
    instrumentStoreG lay hp s addr guard data = instrumentStoreG lay hp s addr true data ∧
      ∃ st, (instrumentStoreG lay hp s addr guard data).sbOut =
          s.sbOut ++ [.Dirty true "setMemShadowTemp" [addr, exprSize s data, st]] ∧
        (instrumentStoreG lay hp s addr guard data).machine =
          hp.setMemShadowTemp addr (exprSize s data) st s.machine := by
  cases data with
  | Const ty con => exact ⟨rfl, 0, rfl, rfl⟩
  | RdTmp idx => exact ⟨rfl, runLoadTemp lay s idx, rfl, rfl⟩

/-- C25: a guarded store at address 400 whose guard is false, in the concrete
block, with helpers that keep the shadow of address `a` in the word
`9000 + a`. With temporary 3 as the data the emitted call of
`setMemShadowTemp` has a true guard and sets the entry of the address, null
before, to the shadow 5000 of the temporary; with a constant as the data it
clears the entry that a store had set. -/
theorem instrumentStoreG_false_guard_changes_table :
    sampleBlock.machine.mem 9400 = 0 ∧
      (instrumentStoreG sampleLayout plainHelpers sampleBlock 400 false
        (.RdTmp 3)).machine.mem 9400 = 5000 ∧
      (instrumentStoreG sampleLayout plainHelpers sampleBlock 400 false (.RdTmp 3)).sbOut =
        [.Dirty true "setMemShadowTemp" [400, 1, 5000]] ∧
      (instrumentStoreG sampleLayout plainHelpers sampleBlock 400 true
        (.RdTmp 3)).machine.mem 9400 = 5000 ∧
      (instrumentStoreG sampleLayout plainHelpers
        (instrumentStoreG sampleLayout plainHelpers sampleBlock 400 true (.RdTmp 3)) 400 false
        (.Const .Ity_I32 7)).machine.mem 9400 = 0 := by
  refine ⟨?_, ?_, ?_, ?_, ?_⟩ <;> decide

/-! ### Loads (`instrumentLoad`) -/

/-- The lookup that `runGetMemUnknown` emits for a size of 1, 2 or 4 units: one
call of the helper of the size, with a true guard and the address as its
first argument; the result of the helper is the result of the lookup. -/
theorem runGetMemUnknown_spec (hp : Helpers) (s : Block) (type : IRType) (memSrc : Nat) :
    ∃ s1 st name args,
      runGetMemUnknown hp s (typeSize type) memSrc = some (s1, st) ∧
        s1.sbOut = s.sbOut ++ [.Dirty true name args] ∧
        args.head? = some memSrc ∧
        (name = "dynamicLoad32" ∨ name = "dynamicLoad64" ∨ name = "dynamicLoad128") ∧
        s1.tempContext = s.tempContext ∧ s1.tempDebt = s.tempDebt := by
  unfold runGetMemUnknown runGetMemUnknownG runGetMemG
  have hsize : typeSize type = 1 ∨ typeSize type = 2 ∨ typeSize type = 4 := by
    cases type <;> simp [typeSize]
  rcases hsize with h | h | h
  · rw [if_pos h]
    exact ⟨_, _, "dynamicLoad32", [memSrc], rfl, rfl, rfl, Or.inl rfl, rfl, rfl⟩
  · rw [if_neg (by omega), if_pos h]
    exact ⟨_, _, "dynamicLoad64", _, rfl, rfl, rfl, Or.inr (Or.inl rfl), rfl, rfl⟩
  · rw [if_neg (by omega), if_neg (by omega), if_pos h]
    exact ⟨_, _, "dynamicLoad128", _, rfl, rfl, rfl, Or.inr (Or.inr rfl), rfl, rfl⟩

/-- The store of a temporary whose static type is `Ft_Unknown` or
`Ft_Unshadowed` completes, and appends the store of the shadow in the slot
of the temporary. -/
theorem addStoreTemp_stores (lay : Layout) (s : Block) (shadow_temp : Nat) (type : FloatType)
    (idx : Nat)
    (hfree : s.tempContext idx = .Ft_Unknown ∨ s.tempContext idx = .Ft_Unshadowed) :
    ∃ s', addStoreTemp lay s shadow_temp type idx = some s' ∧
      s'.sbOut = s.sbOut ++ [.Store (shadowTempAddr lay idx) shadow_temp] ∧
      s'.machine.mem (shadowTempAddr lay idx) = shadow_temp ∧
      s'.tempContext idx = type := by
  unfold addStoreTemp
  rw [if_pos hfree]
  refine ⟨_, rfl, ?_, ?_, ?_⟩
  · rw [(cleanupAtEndOfBlock_static _ _).2.2.1]
    rfl
  · rw [(cleanupAtEndOfBlock_static _ _).2.2.2]
    simp [Block.setTempContext]
  · rw [(cleanupAtEndOfBlock_static _ _).1]
    simp [Block.setTempContext]

/-- C23 (the sentence as written fails): the load of an `F32` at the constant
address 4096, which the static inference knows to hold no float, into the
float-typed temporary 4 of the concrete block. `instrumentLoad` completes and
emits nothing: no call of a `dynamicLoad` helper and no store of a shadow;
the destination only gets the static type `Ft_NonFloat`. The same holds at
the constant address 8192, which holds a float without a shadow, with the
static type `Ft_Unshadowed`. -/
theorem instrumentLoad_constant_address_no_lookup :
    isFloat sampleBlock 4 = true ∧
      plainHelpers.inferMemType 4096 (typeSize .Ity_F32) = .Ft_NonFloat ∧
      (instrumentLoad sampleLayout plainHelpers sampleBlock 4 (.Const .Ity_I64 4096) 4096
        .Ity_F32).map (fun s => (s.sbOut, s.tempContext 4)) = some ([], .Ft_NonFloat) ∧
      plainHelpers.inferMemType 8192 (typeSize .Ity_F32) = .Ft_Unshadowed ∧
      (instrumentLoad sampleLayout plainHelpers sampleBlock 4 (.Const .Ity_I64 8192) 8192
        .Ity_F32).map (fun s => (s.sbOut, s.tempContext 4)) = some ([], .Ft_Unshadowed) := by
  refine ⟨?_, ?_, ?_, ?_, ?_⟩ <;> decide

/-- C23 (amended): a load into a float-typed temporary.
* From a 64-bit constant address that the static inference (`inferMemType`)
  knows as `Ft_NonFloat`, `instrumentLoad` completes, emits nothing and leaves
  the machine as it is; only the static type of the destination becomes
  `Ft_NonFloat`.
* The same for `Ft_Unshadowed`, with the static type `Ft_Unshadowed`.
* From an address that is a temporary, or a 64-bit constant of any other
  inferred type, into a destination whose static type is `Ft_Unknown` or
  `Ft_Unshadowed`, it completes and emits the dynamic lookup of
  `runGetMemUnknown` (one call of a `dynamicLoad` helper on the address, with a
  true guard) followed by the store of its result as the shadow of the
  destination. -/
theorem instrumentLoad_lookup_unless_static (lay : Layout) (hp : Helpers) (s : Block)
    (dest : Nat) (addr : IRExpr) (addrVal : Nat) (type : IRType)
    (hfloat : isFloat s dest = true) :
    (∀ const_addr, addr = .Const .Ity_I64 const_addr →
      hp.inferMemType const_addr (typeSize type) = .Ft_NonFloat →
      ∃ s', instrumentLoad lay hp s dest addr addrVal type = some s' ∧
        s'.sbOut = s.sbOut ∧ s'.machine = s.machine ∧ s'.tempDebt = s.tempDebt ∧
        s'.tempContext dest = .Ft_NonFloat ∧
        ∀ t, t ≠ dest → s'.tempContext t = s.tempContext t) ∧
    (∀ const_addr, addr = .Const .Ity_I64 const_addr →
      hp.inferMemType const_addr (typeSize type) = .Ft_Unshadowed →
      ∃ s', instrumentLoad lay hp s dest addr addrVal type = some s' ∧
        s'.sbOut = s.sbOut ∧ s'.machine = s.machine ∧ s'.tempDebt = s.tempDebt ∧
        s'.tempContext dest = .Ft_Unshadowed ∧
        ∀ t, t ≠ dest → s'.tempContext t = s.tempContext t) ∧
    ((s.tempContext dest = .Ft_Unknown ∨ s.tempContext dest = .Ft_Unshadowed) →
      (∀ ty const_addr, addr = .Const ty const_addr →
        ty = .Ity_I64 ∧ hp.inferMemType const_addr (typeSize type) ≠ .Ft_NonFloat ∧
          hp.inferMemType const_addr (typeSize type) ≠ .Ft_Unshadowed) →
      ∃ s' st name args,
        instrumentLoad lay hp s dest addr addrVal type = some s' ∧
          (runGetMemUnknown hp s (typeSize type) addrVal).map (fun r => r.2) = some st ∧
          s'.sbOut =
            s.sbOut ++ [.Dirty true name args, .Store (shadowTempAddr lay dest) st] ∧
          args.head? = some addrVal ∧
          (name = "dynamicLoad32" ∨ name = "dynamicLoad64" ∨ name = "dynamicLoad128") ∧
          s'.machine.mem (shadowTempAddr lay dest) = st) := by
  refine ⟨?_, ?_, ?_⟩
  · intro const_addr haddr hinf
    subst haddr
    refine ⟨addStoreTempNonFloat s dest, ?_, rfl, rfl, rfl, ?_, ?_⟩
    · unfold instrumentLoad
      simp [hfloat, hinf]
    · simp [addStoreTempNonFloat, Block.setTempContext]
    · intro t ht
      simp [addStoreTempNonFloat, Block.setTempContext, ht]
  · intro const_addr haddr hinf
    subst haddr
    refine ⟨addStoreTempUnshadowed s dest, ?_, rfl, rfl, rfl, ?_, ?_⟩
    · unfold instrumentLoad
      simp [hfloat, hinf]
    · simp [addStoreTempUnshadowed, Block.setTempContext]
    · intro t ht
      simp [addStoreTempUnshadowed, Block.setTempContext, ht]
  · intro hfree haddr
    obtain ⟨s1, st, name, args, hget, hout, hargs, hname, hctx, _⟩ :=
      runGetMemUnknown_spec hp s type addrVal
    have hfree1 : s1.tempContext dest = .Ft_Unknown ∨ s1.tempContext dest = .Ft_Unshadowed := by
      rw [hctx]
      exact hfree
    have hfinish : ∀ t : FloatType, ∃ s', addStoreTemp lay s1 st t dest = some s' ∧
        s'.sbOut = s.sbOut ++ [.Dirty true name args, .Store (shadowTempAddr lay dest) st] ∧
        s'.machine.mem (shadowTempAddr lay dest) = st := by
      intro t
      obtain ⟨s', hs', hsb, hmem, _⟩ := addStoreTemp_stores lay s1 st t dest hfree1
      refine ⟨s', hs', ?_, hmem⟩
      rw [hsb, hout, List.append_assoc]
      rfl
    unfold instrumentLoad
    simp only [hfloat, Bool.not_true, Bool.false_eq_true, if_false]
    cases addr with
    | RdTmp tmp =>
      obtain ⟨s', hs', hsb, hmem⟩ := hfinish .Ft_Unknown
      refine ⟨s', st, name, args, ?_, ?_, hsb, hargs, hname, hmem⟩
      · simp only [hget]
        exact hs'
      · simp [hget]
    | Const ty const_addr =>
      obtain ⟨hty, hnf, hus⟩ := haddr ty const_addr rfl
      simp only [hty, ne_eq, not_true_eq_false, if_false, if_neg hnf, if_neg hus, hget]
      by_cases hunk : hp.inferMemType const_addr (typeSize type) = .Ft_Unknown
      · obtain ⟨s', hs', hsb, hmem⟩ := hfinish .Ft_Unknown
        refine ⟨s', st, name, args, ?_, ?_, hsb, hargs, hname, hmem⟩
        · rw [if_pos hunk]
          exact hs'
        · simp
      · obtain ⟨s', hs', hsb, hmem⟩ := hfinish (hp.irTypeAsFloatType type)
        refine ⟨s', st, name, args, ?_, ?_, hsb, hargs, hname, hmem⟩
        · rw [if_neg hunk]
          exact hs'
        · simp

/-- Three loads of an `F32` into temporary 4 of the concrete block: at the
constant address 4096, known to hold no float; at the constant address 8192,
known to hold a float without a shadow; and through temporary 7, which holds
the address 400. -/
theorem instrumentLoad_lookup_unless_static_witness :
    (∃ s', instrumentLoad sampleLayout plainHelpers sampleBlock 4 (.Const .Ity_I64 4096) 4096
          .Ity_F32 = some s' ∧
        s'.sbOut = sampleBlock.sbOut ∧ s'.machine = sampleBlock.machine ∧
        s'.tempDebt = sampleBlock.tempDebt ∧ s'.tempContext 4 = .Ft_NonFloat ∧
        ∀ t, t ≠ 4 → s'.tempContext t = sampleBlock.tempContext t) ∧
    (∃ s', instrumentLoad sampleLayout plainHelpers sampleBlock 4 (.Const .Ity_I64 8192) 8192
          .Ity_F32 = some s' ∧
        s'.sbOut = sampleBlock.sbOut ∧ s'.machine = sampleBlock.machine ∧
        s'.tempDebt = sampleBlock.tempDebt ∧ s'.tempContext 4 = .Ft_Unshadowed ∧
        ∀ t, t ≠ 4 → s'.tempContext t = sampleBlock.tempContext t) ∧
    ∃ s' st name args,
      instrumentLoad sampleLayout plainHelpers sampleBlock 4 (.RdTmp 7) 400 .Ity_F32 =
          some s' ∧
        (runGetMemUnknown plainHelpers sampleBlock (typeSize .Ity_F32) 400).map
          (fun r => r.2) = some st ∧
        s'.sbOut =
          sampleBlock.sbOut ++
            [.Dirty true name args, .Store (shadowTempAddr sampleLayout 4) st] ∧
        args.head? = some 400 ∧
        (name = "dynamicLoad32" ∨ name = "dynamicLoad64" ∨ name = "dynamicLoad128") ∧
        s'.machine.mem (shadowTempAddr sampleLayout 4) = st :=
  ⟨(instrumentLoad_lookup_unless_static sampleLayout plainHelpers sampleBlock 4
      (.Const .Ity_I64 4096) 4096 .Ity_F32 (by decide)).1 4096 rfl (by decide),
    (instrumentLoad_lookup_unless_static sampleLayout plainHelpers sampleBlock 4
      (.Const .Ity_I64 8192) 8192 .Ity_F32 (by decide)).2.1 8192 rfl (by decide),
    (instrumentLoad_lookup_unless_static sampleLayout plainHelpers sampleBlock 4 (.RdTmp 7) 400
      .Ity_F32 (by decide)).2.2 (Or.inl (by decide)) (fun _ _ h => absurd h (by simp))⟩

end Instrument
namespace Instrument

/-! ### Reads of the thread state (`instrumentGet`, `instrumentGetI`) -/

theorem runCallG_withTsContext (hp : Helpers) (s : Block) (ctx : Nat → FloatType)
    (guard : Bool) (name : String) (args : List Nat) (helper : Machine → Machine × Nat) :
    runCallG hp (s.withTsContext ctx) guard name args helper =
      ((runCallG hp s guard name args helper).1.withTsContext ctx,
        (runCallG hp s guard name args helper).2) := by
  unfold runCallG
  split <;> rfl

theorem runStackPopG_withTsContext (hp : Helpers) (s : Block) (ctx : Nat → FloatType)
    (guard : Bool) (stack : Nat) :
    runStackPopG hp (s.withTsContext ctx) guard stack =
      ((runStackPopG hp s guard stack).1.withTsContext ctx,
        (runStackPopG hp s guard stack).2) := by
  unfold runStackPopG
  cases guard with
  | false => rfl
  | true =>
    simp only [if_true, Block.withTsContext]
    split <;> rfl

theorem mkTempValuesLoopG_withTsContext (lay : Layout) (ctx : Nat → FloatType) (guard : Bool)
    (tempValues : Nat) (values : List Nat) :
    ∀ (i : Nat) (s : Block),
      mkTempValuesLoopG lay guard tempValues values i (s.withTsContext ctx) =
        (mkTempValuesLoopG lay guard tempValues values i s).withTsContext ctx := by
  induction values with
  | nil => intro i s; rfl
  | cons value rest ih =>
    intro i s
    simp only [mkTempValuesLoopG]
    have hstep : addStoreIndexG (addSVOwnNonNullG lay (s.withTsContext ctx) guard value) guard
        tempValues i value =
        (addStoreIndexG (addSVOwnNonNullG lay s guard value) guard tempValues i
          value).withTsContext ctx := rfl
    rw [hstep]
    exact ih (i + 1) _

theorem runMkShadowTempValuesG_withTsContext (lay : Layout) (hp : Helpers) (s : Block)
    (ctx : Nat → FloatType) (guard : Bool) (num_values : Nat) (values : List Nat) :
    runMkShadowTempValuesG lay hp (s.withTsContext ctx) guard num_values values =
      ((runMkShadowTempValuesG lay hp s guard num_values values).1.withTsContext ctx,
        (runMkShadowTempValuesG lay hp s guard num_values values).2) := by
  unfold runMkShadowTempValuesG
  simp only [runCallG_withTsContext, runStackPopG_withTsContext]
  exact Prod.ext (mkTempValuesLoopG_withTsContext lay ctx guard _ values 0 _) rfl

theorem cleanupAtEndOfBlock_withTsContext (s : Block) (ctx : Nat → FloatType) (t : Nat) :
    cleanupAtEndOfBlock (s.withTsContext ctx) t =
      (cleanupAtEndOfBlock s t).withTsContext ctx := by
  unfold cleanupAtEndOfBlock
  have hdebt : (s.withTsContext ctx).tempDebt = s.tempDebt := rfl
  rw [hdebt]
  split <;> rfl

theorem addStoreTemp_withTsContext (lay : Layout) (s : Block) (ctx : Nat → FloatType)
    (shadow_temp : Nat) (type : FloatType) (idx : Nat) :
    addStoreTemp lay (s.withTsContext ctx) shadow_temp type idx =
      (addStoreTemp lay s shadow_temp type idx).map (fun r => r.withTsContext ctx) := by
  unfold addStoreTemp
  by_cases h : s.tempContext idx = .Ft_Unknown ∨ s.tempContext idx = .Ft_Unshadowed
  · have h' : (s.withTsContext ctx).tempContext idx = .Ft_Unknown ∨
        (s.withTsContext ctx).tempContext idx = .Ft_Unshadowed := h
    rw [if_pos h, if_pos h']
    have hstep : addStore ((s.withTsContext ctx).setTempContext idx type) shadow_temp
        (shadowTempAddr lay idx) =
        (addStore (s.setTempContext idx type) shadow_temp
          (shadowTempAddr lay idx)).withTsContext ctx := rfl
    simp only [Option.map_some', Option.some.injEq]
    rw [hstep, cleanupAtEndOfBlock_withTsContext]
  · have h' : ¬ ((s.withTsContext ctx).tempContext idx = .Ft_Unknown ∨
        (s.withTsContext ctx).tempContext idx = .Ft_Unshadowed) := h
    rw [if_neg h, if_neg h']
    rfl

/-- The state that `runMkShadowTempValuesG` leaves for one value keeps the
types of the temporaries. -/
theorem runMkShadowTempValuesG_tempContext (lay : Layout) (hp : Helpers) (s : Block)
    (g : Bool) (v : Nat) :
    (runMkShadowTempValuesG lay hp s g 1 [v]).1.tempContext = s.tempContext := by
  unfold runMkShadowTempValuesG runCallG runStackPopG
  simp only [mkTempValuesLoopG, addSVOwnNonNullG, addStoreArrowG, addStoreIndexG]
  split <;> split <;> (try split) <;> rfl

/-- One value under a false guard: no helper is called, nothing is popped and
the two stores are not made; the result is null. -/
theorem runMkShadowTempValuesG_null (lay : Layout) (hp : Helpers) (s : Block) (v : Nat) :
    (runMkShadowTempValuesG lay hp s false 1 [v]).2 = 0 ∧
      (runMkShadowTempValuesG lay hp s false 1 [v]).1.sbOut =
        s.sbOut ++ [.Dirty false "newShadowTemp" [1],
          .StoreG false (Iop_Add64 v lay.ref_count_off) (Iop_Add64 0 1),
          .StoreG false (Iop_Add64 0 0) v] ∧
      (runMkShadowTempValuesG lay hp s false 1 [v]).1.machine.mem = s.machine.mem ∧
      (runMkShadowTempValuesG lay hp s false 1 [v]).1.machine.lists = s.machine.lists := by
  refine ⟨?_, ?_, ?_, ?_⟩
  · simp [runMkShadowTempValuesG, runITE]
  · simp [runMkShadowTempValuesG, runCallG, runStackPopG, mkTempValuesLoopG,
      addSVOwnNonNullG, addStoreArrowG, addStoreIndexG, addStoreG, runArrowG, runLoadG64]
  · funext b
    simp [runMkShadowTempValuesG, runCallG, runStackPopG, mkTempValuesLoopG,
      addSVOwnNonNullG, addStoreArrowG, addStoreIndexG]
  · funext k
    simp [runMkShadowTempValuesG, runCallG, runStackPopG, mkTempValuesLoopG,
      addSVOwnNonNullG, addStoreArrowG, addStoreIndexG]

/-- One value under a true guard with an empty free list: the temporary is
made by `newShadowTemp`, the value is owned once more and stored in the
first cell of the array of the temporary. -/
theorem runMkShadowTempValuesG_fresh (lay : Layout) (hp : Helpers) (s : Block) (v : Nat)
    (hempty : s.machine.lists (hp.freedTemps 0) = []) :
    (runMkShadowTempValuesG lay hp s true 1 [v]).2 = (hp.newShadowTemp 1 s.machine).2 ∧
      (runMkShadowTempValuesG lay hp s true 1 [v]).1.sbOut =
        s.sbOut ++ [.Dirty true "newShadowTemp" [1],
          .StoreG true (Iop_Add64 v lay.ref_count_off)
            (Iop_Add64 ((hp.newShadowTemp 1 s.machine).1.mem (Iop_Add64 v lay.ref_count_off))
              1),
          .StoreG true
            (Iop_Add64 ((hp.newShadowTemp 1 s.machine).1.mem
              (Iop_Add64 (hp.newShadowTemp 1 s.machine).2 lay.values_off)) 0) v] ∧
      (∀ b, (runMkShadowTempValuesG lay hp s true 1 [v]).1.machine.mem b =
        if b = Iop_Add64 ((hp.newShadowTemp 1 s.machine).1.mem
            (Iop_Add64 (hp.newShadowTemp 1 s.machine).2 lay.values_off)) 0 then v
        else if b = Iop_Add64 v lay.ref_count_off then
          Iop_Add64 ((hp.newShadowTemp 1 s.machine).1.mem (Iop_Add64 v lay.ref_count_off)) 1
        else (hp.newShadowTemp 1 s.machine).1.mem b) ∧
      (runMkShadowTempValuesG lay hp s true 1 [v]).1.machine.lists =
        (hp.newShadowTemp 1 s.machine).1.lists := by
  have he : runStackEmpty s (hp.freedTemps 0) = true := by
    simp [runStackEmpty, hempty]
  refine ⟨?_, ?_, ?_, ?_⟩
  · simp [runMkShadowTempValuesG, runITE, runCallG, he]
  · simp [runMkShadowTempValuesG, runITE, runCallG, runStackPopG, he, mkTempValuesLoopG,
      addSVOwnNonNullG, addStoreArrowG, addStoreIndexG, addStoreG, runArrowG, runLoadG64]
  · intro b
    simp [runMkShadowTempValuesG, runITE, runCallG, runStackPopG, he, mkTempValuesLoopG,
      addSVOwnNonNullG, addStoreArrowG, addStoreIndexG, runArrowG, runLoadG64]
  · funext k
    simp [runMkShadowTempValuesG, runITE, runCallG, runStackPopG, he, mkTempValuesLoopG,
      addSVOwnNonNullG, addStoreArrowG, addStoreIndexG]

/-- One value under a true guard with a temporary on the free list: the
temporary is popped, no helper is called, the value is owned once more and
stored in the first cell of the array of the temporary. -/
theorem runMkShadowTempValuesG_popped (lay : Layout) (hp : Helpers) (s : Block) (v : Nat)
    (item : Nat) (rest : List Nat)
    (hlist : s.machine.lists (hp.freedTemps 0) = item :: rest) :
    (runMkShadowTempValuesG lay hp s true 1 [v]).2 = item ∧
      (runMkShadowTempValuesG lay hp s true 1 [v]).1.sbOut =
        s.sbOut ++ [.Dirty false "newShadowTemp" [1],
          .StoreG true (Iop_Add64 v lay.ref_count_off)
            (Iop_Add64 (s.machine.mem (Iop_Add64 v lay.ref_count_off)) 1),
          .StoreG true (Iop_Add64 (s.machine.mem (Iop_Add64 item lay.values_off)) 0) v] ∧
      (∀ b, (runMkShadowTempValuesG lay hp s true 1 [v]).1.machine.mem b =
        if b = Iop_Add64 (s.machine.mem (Iop_Add64 item lay.values_off)) 0 then v
        else if b = Iop_Add64 v lay.ref_count_off then
          Iop_Add64 (s.machine.mem (Iop_Add64 v lay.ref_count_off)) 1
        else s.machine.mem b) ∧
      (∀ k, (runMkShadowTempValuesG lay hp s true 1 [v]).1.machine.lists k =
        if k = hp.freedTemps 0 then rest else s.machine.lists k) := by
  have he : runStackEmpty s (hp.freedTemps 0) = false := by
    simp [runStackEmpty, hlist]
  refine ⟨?_, ?_, ?_, ?_⟩
  · simp [runMkShadowTempValuesG, runITE, runCallG, runStackPopG, he, hlist]
  · simp [runMkShadowTempValuesG, runITE, runCallG, runStackPopG, he, hlist,
      mkTempValuesLoopG, addSVOwnNonNullG, addStoreArrowG, addStoreIndexG, addStoreG,
      runArrowG, runLoadG64]
  · intro b
    simp [runMkShadowTempValuesG, runITE, runCallG, runStackPopG, he, hlist,
      mkTempValuesLoopG, addSVOwnNonNullG, addStoreArrowG, addStoreIndexG, runArrowG,
      runLoadG64]
  · intro k
    simp [runMkShadowTempValuesG, runITE, runCallG, runStackPopG, he, hlist,
      mkTempValuesLoopG, addSVOwnNonNullG, addStoreArrowG, addStoreIndexG]

/-- C22: a `Get` of one 4-byte unit (`typeSize type = 1`) into a temporary
that can store a shadow and whose static type is `Ft_Unknown` or
`Ft_Unshadowed`. `instrumentGet` completes and leaves the destination with
static type `Ft_Unknown`, and what it emits is the path checked at run time,
whatever `tsContext` holds. With `loaded` the word in the thread-state slot
of the offset:
* when `loaded` is null, every emitted statement but the last has a false
  guard, the slot of the destination receives a null shadow and nothing else
  changes;
* when it is not null and the free list of temporaries of one value is
  empty, `newShadowTemp` is called, the `ref_count` of `loaded` is stored one
  higher, `loaded` is stored in the first cell of the values of the new
  temporary and the temporary is stored in the slot of the destination;
* when it is not null and the free list holds a temporary, that temporary is
  popped instead, no helper is called, and the same three stores are made
  with it.
With any other `tsContext` the result is the same, `tsContext` apart. -/
theorem instrumentGet_unit_runtime_checked (lay : Layout) (hp : Helpers) (s : Block)
    (dest tsSrc : Nat) (type : IRType)
    (hstore : canStoreShadow s (.RdTmp dest) = true)
    (hsize : typeSize type = 1)
    (hfree : s.tempContext dest = .Ft_Unknown ∨ s.tempContext dest = .Ft_Unshadowed) :
    ∃ s', instrumentGet lay hp s dest tsSrc type = some s' ∧
      s'.tempContext dest = .Ft_Unknown ∧
      (runNonZeroCheck64 (s.machine.mem (tsAddr lay tsSrc)) = false →
        s'.sbOut =
          s.sbOut ++ [.Dirty false "newShadowTemp" [1],
            .StoreG false (Iop_Add64 (s.machine.mem (tsAddr lay tsSrc)) lay.ref_count_off)
              (Iop_Add64 0 1),
            .StoreG false (Iop_Add64 0 0) (s.machine.mem (tsAddr lay tsSrc)),
            .Store (shadowTempAddr lay dest) 0] ∧
        (∀ b, s'.machine.mem b =
          if b = shadowTempAddr lay dest then 0 else s.machine.mem b) ∧
        s'.machine.lists = s.machine.lists) ∧
      (runNonZeroCheck64 (s.machine.mem (tsAddr lay tsSrc)) = true →
        s.machine.lists (hp.freedTemps 0) = [] →
        s'.sbOut =
          s.sbOut ++ [.Dirty true "newShadowTemp" [1],
            .StoreG true (Iop_Add64 (s.machine.mem (tsAddr lay tsSrc)) lay.ref_count_off)
              (Iop_Add64 ((hp.newShadowTemp 1 s.machine).1.mem
                (Iop_Add64 (s.machine.mem (tsAddr lay tsSrc)) lay.ref_count_off)) 1),
            .StoreG true
              (Iop_Add64 ((hp.newShadowTemp 1 s.machine).1.mem
                (Iop_Add64 (hp.newShadowTemp 1 s.machine).2 lay.values_off)) 0)
              (s.machine.mem (tsAddr lay tsSrc)),
            .Store (shadowTempAddr lay dest) (hp.newShadowTemp 1 s.machine).2] ∧
        (∀ b, s'.machine.mem b =
          if b = shadowTempAddr lay dest then (hp.newShadowTemp 1 s.machine).2
          else if b = Iop_Add64 ((hp.newShadowTemp 1 s.machine).1.mem
              (Iop_Add64 (hp.newShadowTemp 1 s.machine).2 lay.values_off)) 0 then
            s.machine.mem (tsAddr lay tsSrc)
          else if b = Iop_Add64 (s.machine.mem (tsAddr lay tsSrc)) lay.ref_count_off then
            Iop_Add64 ((hp.newShadowTemp 1 s.machine).1.mem
              (Iop_Add64 (s.machine.mem (tsAddr lay tsSrc)) lay.ref_count_off)) 1
          else (hp.newShadowTemp 1 s.machine).1.mem b) ∧
        s'.machine.lists = (hp.newShadowTemp 1 s.machine).1.lists) ∧
      (∀ (item : Nat) (rest : List Nat),
        runNonZeroCheck64 (s.machine.mem (tsAddr lay tsSrc)) = true →
        s.machine.lists (hp.freedTemps 0) = item :: rest →
        s'.sbOut =
          s.sbOut ++ [.Dirty false "newShadowTemp" [1],
            .StoreG true (Iop_Add64 (s.machine.mem (tsAddr lay tsSrc)) lay.ref_count_off)
              (Iop_Add64 (s.machine.mem
                (Iop_Add64 (s.machine.mem (tsAddr lay tsSrc)) lay.ref_count_off)) 1),
            .StoreG true (Iop_Add64 (s.machine.mem (Iop_Add64 item lay.values_off)) 0)
              (s.machine.mem (tsAddr lay tsSrc)),
            .Store (shadowTempAddr lay dest) item] ∧
        (∀ b, s'.machine.mem b =
          if b = shadowTempAddr lay dest then item
          else if b = Iop_Add64 (s.machine.mem (Iop_Add64 item lay.values_off)) 0 then
            s.machine.mem (tsAddr lay tsSrc)
          else if b = Iop_Add64 (s.machine.mem (tsAddr lay tsSrc)) lay.ref_count_off then
            Iop_Add64 (s.machine.mem
              (Iop_Add64 (s.machine.mem (tsAddr lay tsSrc)) lay.ref_count_off)) 1
          else s.machine.mem b) ∧
        ∀ k, s'.machine.lists k =
          if k = hp.freedTemps 0 then rest else s.machine.lists k) ∧
      ∀ ctx : Nat → FloatType,
        instrumentGet lay hp (s.withTsContext ctx) dest tsSrc type =
          (instrumentGet lay hp s dest tsSrc type).map (fun r => r.withTsContext ctx) := by
  have hform : ∀ s0 : Block, canStoreShadow s0 (.RdTmp dest) = true →
      instrumentGet lay hp s0 dest tsSrc type =
        addStoreTempUnknown lay
          (runMkShadowTempValuesG lay hp s0 (runNonZeroCheck64 (runGetTSVal lay s0 tsSrc)) 1
            [runGetTSVal lay s0 tsSrc]).1
          (runMkShadowTempValuesG lay hp s0 (runNonZeroCheck64 (runGetTSVal lay s0 tsSrc)) 1
            [runGetTSVal lay s0 tsSrc]).2 dest := by
    intro s0 h0
    unfold instrumentGet
    simp [h0, hsize]
  have hload : runGetTSVal lay s tsSrc = s.machine.mem (tsAddr lay tsSrc) := rfl
  have hfree1 := hfree
  rw [← runMkShadowTempValuesG_tempContext lay hp s
    (runNonZeroCheck64 (runGetTSVal lay s tsSrc)) (runGetTSVal lay s tsSrc)] at hfree1
  obtain ⟨s', hs', hsb, hmem, htype⟩ := addStoreTemp_stores lay _
    (runMkShadowTempValuesG lay hp s (runNonZeroCheck64 (runGetTSVal lay s tsSrc)) 1
      [runGetTSVal lay s tsSrc]).2 .Ft_Unknown dest hfree1
  have hmach : s'.machine =
      (addStore ((runMkShadowTempValuesG lay hp s (runNonZeroCheck64 (runGetTSVal lay s tsSrc))
        1 [runGetTSVal lay s tsSrc]).1.setTempContext dest .Ft_Unknown)
        (runMkShadowTempValuesG lay hp s (runNonZeroCheck64 (runGetTSVal lay s tsSrc)) 1
          [runGetTSVal lay s tsSrc]).2 (shadowTempAddr lay dest)).machine := by
    unfold addStoreTemp at hs'
    rw [if_pos hfree1] at hs'
    simp only [Option.some.injEq] at hs'
    rw [← hs']
    exact (cleanupAtEndOfBlock_static _ _).2.2.2
  rw [hload] at hsb hmach
  refine ⟨s', by rw [hform s hstore]; exact hs', htype, ?_, ?_, ?_, ?_⟩
  · intro hnull
    rw [hnull] at hsb hmach
    obtain ⟨r1, r2, r3, r4⟩ :=
      runMkShadowTempValuesG_null lay hp s (s.machine.mem (tsAddr lay tsSrc))
    refine ⟨?_, ?_, ?_⟩
    · rw [hsb, r2, r1]
      simp
    · intro b
      rw [hmach, addStore_mem, r1]
      split
      · rfl
      · exact congrFun r3 b
    · rw [hmach, addStore_lists]
      exact r4
  · intro hnz hempty
    rw [hnz] at hsb hmach
    obtain ⟨r1, r2, r3, r4⟩ :=
      runMkShadowTempValuesG_fresh lay hp s (s.machine.mem (tsAddr lay tsSrc)) hempty
    refine ⟨?_, ?_, ?_⟩
    · rw [hsb, r2, r1]
      simp
    · intro b
      rw [hmach, addStore_mem, r1]
      split
      · rfl
      · exact r3 b
    · rw [hmach, addStore_lists]
      exact r4
  · intro item rest hnz hlist
    rw [hnz] at hsb hmach
    obtain ⟨r1, r2, r3, r4⟩ :=
      runMkShadowTempValuesG_popped lay hp s (s.machine.mem (tsAddr lay tsSrc)) item rest hlist
    refine ⟨?_, ?_, ?_⟩
    · rw [hsb, r2, r1]
      simp
    · intro b
      rw [hmach, addStore_mem, r1]
      split
      · rfl
      · exact r3 b
    · intro k
      rw [hmach, addStore_lists]
      exact r4 k
  · intro ctx
    rw [hform s hstore, hform (s.withTsContext ctx) hstore]
    have hval : runGetTSVal lay (s.withTsContext ctx) tsSrc = runGetTSVal lay s tsSrc := rfl
    rw [hval, runMkShadowTempValuesG_withTsContext]
    exact addStoreTemp_withTsContext lay _ ctx _ .Ft_Unknown dest

/-- The `Get` of an `F32` at offset 72, whose slot holds the shadow value at
7100 (`ref_count` 1, at 7108), into temporary 4: the free list is empty, so
`newShadowTemp` makes the temporary at 5200 with its values at 5208; the
`ref_count` of the value is stored as 2, the value is stored at 5208 and the
temporary in the slot of temporary 4 (address 1032). -/
theorem instrumentGet_unit_runtime_checked_witness :
    runNonZeroCheck64 (occupiedBlock.machine.mem (tsAddr sampleLayout 72)) = true ∧
      occupiedBlock.machine.lists (plainHelpers.freedTemps 0) = [] ∧
      ∃ s', instrumentGet sampleLayout plainHelpers occupiedBlock 4 72 .Ity_F32 = some s' ∧
        s'.tempContext 4 = .Ft_Unknown ∧
        s'.sbOut = [.Dirty true "newShadowTemp" [1], .StoreG true 7108 2,
          .StoreG true 5208 7100, .Store 1032 5200] ∧
        s'.machine.mem 1032 = 5200 ∧ s'.machine.mem 5208 = 7100 ∧
        s'.machine.mem 7108 = 2 := by
  obtain ⟨s', h1, h2, _, hfresh, _, _⟩ :=
    instrumentGet_unit_runtime_checked sampleLayout plainHelpers occupiedBlock 4 72 .Ity_F32
      (by decide) (by decide) (Or.inl (by decide))
  obtain ⟨t1, t2, _⟩ := hfresh (by decide) (by decide)
  refine ⟨by decide, by decide, s', h1, h2, ?_, ?_, ?_, ?_⟩
  · rw [t1]
    decide
  · rw [t2]
    decide
  · rw [t2]
    decide
  · rw [t2]
    decide

/-- The same `Get` from the empty slot of the concrete block: every guard is
false and temporary 4 receives a null shadow. -/
theorem instrumentGet_unit_null_trace :
    (instrumentGet sampleLayout plainHelpers sampleBlock 4 72 .Ity_F32).map
        (fun s => (s.sbOut.map (fun stmt =>
          match stmt with
          | .Store a d => (true, a, d)
          | .StoreG g _ _ => (g, 0, 0)
          | .Push g _ _ => (g, 0, 0)
          | .Dirty g _ _ => (g, 0, 0)), s.machine.mem 1032)) =
      some ([(false, 0, 0), (false, 0, 0), (false, 0, 0), (true, 1032, 0)], 0) := by
  decide

end Instrument
namespace Instrument

/-! ### Array-relative offsets (`mkArrayLookupExpr`) -/

theorem mkU_natCast (bits x : Nat) (hx : x < 2 ^ bits) : mkU bits (x : Int) = x := by
  unfold mkU
  have h : ((x : Int) % 2 ^ bits) = ((x % 2 ^ bits : Nat) : Int) := by
    push_cast
    rfl
  rw [h, Int.toNat_ofNat, Nat.mod_eq_of_lt hx]

/-- The offset that `mkArrayLookupExpr` computes for units of four bytes, for
a non-negative bias and values in range (the sum of the index and the bias
fits 32 bits): `base + 4 * ((idx + bias) mod len)`. -/
theorem mkArrayLookupExpr_value (base idx bias len : Nat) (hsum : idx + bias < 2 ^ 32)
    (hpos : 0 < len) (hlen : len < 2 ^ 32)
    (hbase : base + 4 * len < 2 ^ 64) :
    mkArrayLookupExpr (base : Int) idx (bias : Int) (len : Int) .Ity_F32 =
      some (base + 4 * ((idx + bias) % len)) := by
  have hidx : idx < 2 ^ 32 := by omega
  have hb64 : bias < 2 ^ 64 := by omega
  have hbase64 : base < 2 ^ 64 := by omega
  have hneg : ¬ ((bias : Int) < 0) := by omega
  have hmod : (idx + bias) % len < len := Nat.mod_lt _ hpos
  have hdiv : (idx + bias) / len < 2 ^ 32 :=
    Nat.lt_of_le_of_lt (Nat.div_le_self _ _) hsum
  unfold mkArrayLookupExpr
  simp only [if_neg hneg, mkU_natCast 64 bias hb64, mkU_natCast 32 len hlen,
    mkU_natCast 64 base hbase64]
  have hadd : Iop_Add64 (idx % 2 ^ 32) bias = idx + bias := by
    unfold Iop_Add64
    rw [Nat.mod_eq_of_lt hidx]
    exact Nat.mod_eq_of_lt (by omega)
  rw [hadd]
  unfold Iop_DivModU64to32
  have hlen32 : len % 2 ^ 32 = len := Nat.mod_eq_of_lt hlen
  have hsum64 : (idx + bias) % 2 ^ 64 = idx + bias := Nat.mod_eq_of_lt (by omega)
  rw [hlen32, hsum64, if_neg (by omega), if_neg (by omega)]
  simp only [sizeofIRType]
  have hq : ((idx + bias) % len * 2 ^ 32 + (idx + bias) / len) / 2 ^ 32 % 2 ^ 32 =
      (idx + bias) % len := by
    rw [Nat.add_comm, Nat.add_mul_div_right _ _ (by norm_num : 0 < 2 ^ 32),
      Nat.div_eq_of_lt hdiv, Nat.zero_add]
    exact Nat.mod_eq_of_lt (by omega)
  rw [hq]
  unfold Iop_Mul64 Iop_Add64
  rw [Nat.mod_eq_of_lt (by omega : 4 * ((idx + bias) % len) < 2 ^ 64)]
  rw [Nat.mod_eq_of_lt (by omega)]

/-- C21: an array of eight `F64` elements (two units each) at offset 64, index
5 at run time and bias 0. The host accesses the element at
`64 + 8 * (5 mod 8) = 104`, so the sentence gives 104 and 108 for its two
lanes; `instrumentGetI` and `instrumentPutI` both compute 84 and 88, that is
`64 + 4 * ((5 + (0 * 2 + i)) mod 8)`: the element index is not scaled by the
width, and the lane is added before the reduction instead of after it. The
lookup that `instrumentGetI` emits is made at offset 84. -/
theorem array_offsets_not_scaled_by_width :
    getISrcAddrs 64 5 0 2 8 2 0 = some [84, 88] ∧
      (putIClearLoop sampleLayout sampleRuntime 64 5 0 2 8 2 0 doubleBlock).map
        (fun r => r.2) = some [84, 88] ∧
      typeSize .Ity_F64 = 2 ∧
      [64 + 4 * 2 * ((5 + 0) % 8) + 4 * 0, 64 + 4 * 2 * ((5 + 0) % 8) + 4 * 1] = [104, 108] ∧
      (instrumentGetI sampleLayout plainHelpers doubleBlock 4 5 0 64 8 .Ity_F64).map
        (fun s => s.sbOut) = some [.Dirty true "dynamicGet64" [84, 0], .Store 1032 0] := by
  refine ⟨?_, ?_, ?_, ?_, ?_⟩ <;> decide

/-- For elements of one unit the computed offset is the one of the sentence:
lane 0 of element `(ix + b) mod numElems`. -/
theorem getISrcAddrs_unit (arrayBase ix b numElems : Nat) (hsum : ix + b < 2 ^ 32)
    (hpos : 0 < numElems) (hlen : numElems < 2 ^ 32)
    (hbase : arrayBase + 4 * numElems < 2 ^ 64) :
    getISrcAddrs arrayBase ix (b : Int) 1 (numElems : Int) 1 0 =
      some [arrayBase + 4 * 1 * ((ix + b) % numElems) + 4 * 0] := by
  simp only [getISrcAddrs]
  have h := mkArrayLookupExpr_value arrayBase ix b numElems hsum hpos hlen hbase
  have hbias : ((b : Int) * ((1 : Nat) : Int) + ((0 : Nat) : Int)) = (b : Int) := by simp
  rw [hbias, h]
  simp

end Instrument
/-! ## Variable names of a printed expression -/

/-- C28: the sum of nine inputs, whose root (address 16) has the nine
variable groups 0 to 8, while `varNames` has the eight entries 0 to 7. The
index of the ninth leaf is 8: `usedVars` returns a pointer to `varNames[8]`,
outside the table, which the binder string of `opASTtoBench` dereferences,
and `opASTtoExprwithVarMap` reads `varNames[8]` when it prints the leaf at
address 8. The sum of the first eight inputs (address 15) prints with the
eight names. -/
theorem varNames_index_out_of_range :
    varNames.length = 8 ∧
      nineSumHeap.nodes[16]? =
        some (.Branch 7 2 [15, 8] [[0], [1], [2], [3], [4], [5], [6], [7], [8]]) ∧
      usedVars nineSumHeap 10 16 = some [0, 1, 2, 3, 4, 5, 6, 7, 8] ∧
      varNames[8]? = none ∧
      binderString [0, 1, 2, 3, 4, 5, 6, 7, 8] = none ∧
      opASTtoExprwithVarMap nineSumHeap (fun _ => []) 1 8
        (some (flipOpVarMap [[0], [1], [2], [3], [4], [5], [6], [7], [8]])) = none ∧
      opASTtoExpr nineSumHeap (fun _ => []) 10 16 = none ∧
      opASTtoBench nineSumHeap (fun _ => []) 10 16 = none ∧
      opASTtoExpr nineSumHeap (fun _ => []) 10 15 =
        some "(+ (+ (+ (+ (+ (+ (+ x y) z) w) a) b) c) d)".toList := by
  refine ⟨?_, ?_, ?_, ?_, ?_, ?_, ?_, ?_, ?_⟩ <;> decide

/-! ## The expression of another op site -/

/-- C27: the update of one op site overwrites the root of the expression of
another. After `x + y` at op 0, `x * y` at
op 4 and `-(x + y)` at op 3, the expression of op 0 is the branch at address
3, which is also the child of the expression of op 3 (address 5). The update
of op 3 with `-(x * y)` meets the value of op 4 at that child and overwrites
the branch with a variable leaf: op 0 still records address 3, which is no
longer a branch. -/
theorem updateAST_collapses_other_site :
    negRunBefore.map (fun h => (h.opAst 0, h.opAst 3, h.nodes[3]?, h.nodes[5]?)) =
        some (some 3, some 5, some (.Branch 0 2 [0, 1] [[0], [1]]),
          some (.Branch 3 1 [3] [[1], [0]])) ∧
      negRun.map (fun h => (h.opAst 0, h.nodes[3]?)) = some (some 3, some (.Leaf none)) := by
  refine ⟨?_, ?_⟩ <;> decide

/-- The assignment `op->ast = n` leaves the expression recorded for every
other op as it is. -/
theorem opAst_setOpAst_other (h : Heap) (op n T : Nat) (hne : T ≠ op) :
    (h.setOpAst op n).opAst T = h.opAst T := by
  unfold Heap.setOpAst Heap.opAst
  cases hi : h.ops[op]? with
  | none => rfl
  | some info =>
    have hne' : ¬ op = T := fun e => hne e.symm
    simp [List.getElem?_set, hne']

mutual
theorem convertValASTtoOpAST_frame (h : Heap) :
    ∀ (v : ValueASTNode) (h' : Heap) (n : Nat), convertValASTtoOpAST h v = some (h', n) →
      (∀ (m : Nat) (node : OpASTNode), h.nodes[m]? = some node →
          h'.nodes[m]? = some node) ∧
        (∀ (T k : Nat), h.opAst T = some k → h'.opAst T = some k)
  | .mk val op args vm => by
    intro h' n hc
    unfold convertValASTtoOpAST at hc
    cases hi : h.ops[op]? with
    | none => simp [hi] at hc
    | some info =>
      rw [hi] at hc
      simp only at hc
      cases hast : info.ast with
      | some k =>
        rw [hast] at hc
        simp only [Option.some.injEq, Prod.mk.injEq] at hc
        obtain ⟨rfl, _⟩ := hc
        exact ⟨fun _ _ hm => hm, fun _ _ hT => hT⟩
      | none =>
        rw [hast] at hc
        simp only at hc
        cases hargs : convertArgs
            { h with nodes := h.nodes ++ [.Branch op args.length [] []] } args with
        | none => simp [hargs] at hc
        | some r =>
          obtain ⟨h2, children⟩ := r
          rw [hargs] at hc
          simp only at hc
          cases hvm : opvarmapFromValvarmap h2 vm [] with
          | none => simp [hvm] at hc
          | some opVarMap =>
            rw [hvm] at hc
            simp only [Option.some.injEq, Prod.mk.injEq] at hc
            obtain ⟨rfl, _⟩ := hc
            obtain ⟨f1, f2⟩ := convertArgs_frame _ args h2 children hargs
            constructor
            · intro m node hm
              have hlt := getElem?_nodes_lt hm
              have h1 : (h.nodes ++ [OpASTNode.Branch op args.length [] []])[m]? = some node := by
                rw [List.getElem?_append_left hlt]
                exact hm
              have h2m := f1 m node h1
              have hne : ¬ h.nodes.length = m := by omega
              simp [Heap.setNode, Heap.setOpAst, List.getElem?_set, hne, h2m]
            · intro T k hT
              have hne : T ≠ op := by
                intro e
                subst e
                simp [Heap.opAst, hi, hast] at hT
              rw [opAst_setOpAst_other _ _ _ _ hne]
              exact f2 T k hT
theorem convertArgs_frame (h : Heap) :
    ∀ (args : List ValueASTNode) (h' : Heap) (ns : List Nat),
      convertArgs h args = some (h', ns) →
      (∀ (m : Nat) (node : OpASTNode), h.nodes[m]? = some node →
          h'.nodes[m]? = some node) ∧
        (∀ (T k : Nat), h.opAst T = some k → h'.opAst T = some k)
  | [] => by
    intro h' ns hc
    unfold convertArgs at hc
    simp only [Option.some.injEq, Prod.mk.injEq] at hc
    obtain ⟨rfl, _⟩ := hc
    exact ⟨fun _ _ hm => hm, fun _ _ hT => hT⟩
  | a :: rest => by
    intro h' ns hc
    unfold convertArgs at hc
    cases ha : convertValASTtoOpAST h a with
    | none => simp [ha] at hc
    | some r =>
      obtain ⟨h1, n⟩ := r
      rw [ha] at hc
      simp only at hc
      cases hr : convertArgs h1 rest with
      | none => simp [hr] at hc
      | some r2 =>
        obtain ⟨h2, ns2⟩ := r2
        rw [hr] at hc
        simp only [Option.some.injEq, Prod.mk.injEq] at hc
        obtain ⟨rfl, _⟩ := hc
        obtain ⟨a1, a2⟩ := convertValASTtoOpAST_frame h a h1 n ha
        obtain ⟨b1, b2⟩ := convertArgs_frame h1 rest h2 ns2 hr
        exact ⟨fun m node hm => b1 m node (a1 m node hm), fun T k hT => b2 T k (a2 T k hT)⟩
end

/-- What `updateAST` does keep: for an op site it never changes which node is
recorded as the expression of a site `T` that has one, and it leaves a
branch at that node either the same branch (same op, same number of
arguments, same children), possibly with another variable map, or
overwritten by a variable leaf. -/
theorem updateAST_other_site_root (h h' : Heap) (S T k : Nat) (v : ValueASTNode)
    (op na : Nat) (args : List Nat) (vm : List (List Nat))
    (hrun : updateAST h S v = some h') (hT : h.opAst T = some k)
    (hnode : h.nodes[k]? = some (.Branch op na args vm)) :
    h'.opAst T = some k ∧
      ((∃ vm', h'.nodes[k]? = some (.Branch op na args vm')) ∨
        h'.nodes[k]? = some (.Leaf none)) := by
  unfold updateAST at hrun
  cases hi : h.ops[S]? with
  | none => simp [hi] at hrun
  | some info =>
    rw [hi] at hrun
    simp only at hrun
    cases hast : info.ast with
    | none =>
      rw [hast] at hrun
      simp only at hrun
      cases hc : convertValASTtoOpAST h v with
      | none => simp [hc] at hrun
      | some r =>
        obtain ⟨h1, result⟩ := r
        rw [hc] at hrun
        simp only [Option.some.injEq] at hrun
        subst hrun
        obtain ⟨f1, f2⟩ := convertValASTtoOpAST_frame h v h1 result hc
        have hne : T ≠ S := by
          intro e
          subst e
          simp [Heap.opAst, hi, hast] at hT
        refine ⟨?_, Or.inl ⟨vm, ?_⟩⟩
        · rw [opAst_setOpAst_other _ _ _ _ hne]
          exact f2 T k hT
        · rw [setOpAst_nodes]
          exact f1 k _ hnode
    | some n =>
      rw [hast] at hrun
      simp only at hrun
      obtain ⟨hops, hle, _⟩ := generalizeAST_spec h n v h' hrun
      constructor
      · unfold Heap.opAst at hT ⊢
        rw [hops]
        exact hT
      · obtain ⟨node', hn', hnle⟩ := hle k _ hnode
        rcases hnle with ⟨vm', rfl⟩ | rfl
        · exact Or.inl ⟨vm', hn'⟩
        · exact Or.inr hn'

/-- The update of the negation (op 3) with `-(x + y)` after `x + y` and
`x * y`: the expression of op 0 stays the branch at address 3. -/
theorem updateAST_other_site_root_witness :
    (((updateAST staleHeap 0 addCall1).bind (fun h1 => updateAST h1 4 mulXY)).getD
        staleHeap).opAst 0 = some 3 ∧
      (negRunBefore.getD staleHeap).opAst 0 = some 3 ∧
      ((∃ vm', (negRunBefore.getD staleHeap).nodes[3]? =
          some (.Branch 0 2 [0, 1] vm')) ∨
        (negRunBefore.getD staleHeap).nodes[3]? = some (.Leaf none)) :=
  ⟨by decide,
    updateAST_other_site_root
      (((updateAST staleHeap 0 addCall1).bind (fun h1 => updateAST h1 4 mulXY)).getD staleHeap)
      (negRunBefore.getD staleHeap) 3 0 3 negSum 0 2 [0, 1] [[0], [1]]
      (by decide) (by decide) (by decide)⟩

namespace Marks

/-- C29: the third slot is outside the array. Three values escape at a site that
`getIntMarkInfo` has just made, with expression tracking on. The site has two
slots; the rounds for the values 0 and 1 complete, the round for value 2,
whose expression exists, reads `exprs[2]`, which is outside, and the call
stops there. -/
theorem markEscapeFromFloat_third_slot_outside :
    (getIntMarkInfo [] 9 "compare").2.exprs.length = 2 ∧
      shadowOne.expr = some 0 ∧
      (escapeLoop { no_influences := false, no_exprs := false, error_threshold := 5 } sampleHelpers 0
        [shadowOne, shadowOne, shadowOne] 2 0 (getIntMarkInfo [] 9 "compare").2).isSome = true ∧
      markEscapeFromFloat { no_influences := false, no_exprs := false, error_threshold := 5 } sampleHelpers [] 9
        "compare" 0 3 [shadowOne, shadowOne, shadowOne] = none ∧
      (markEscapeFromFloat { no_influences := false, no_exprs := false, error_threshold := 5 } sampleHelpers [] 9
        "compare" 0 2 [shadowOne, shadowOne]).isSome = true := by
  refine ⟨?_, ?_, ?_, ?_, ?_⟩ <;> decide

theorem lookupIntMark_mem : ∀ (m : List IntMarkInfo) (callAddr : Nat) (info : IntMarkInfo),
    lookupIntMark m callAddr = some info → info ∈ m
  | [], _, _ => by intro h; simp [lookupIntMark] at h
  | x :: rest, callAddr, info => by
    intro h
    unfold lookupIntMark at h
    split at h
    · cases h
      exact List.mem_cons_self _ _
    · exact List.mem_cons_of_mem _ (lookupIntMark_mem rest callAddr info h)

theorem storeIntMark_mem : ∀ (m : List IntMarkInfo) (new x : IntMarkInfo),
    x ∈ storeIntMark m new → x ∈ m ∨ x = new
  | [], _, _ => by intro h; simp [storeIntMark] at h
  | y :: rest, new, x => by
    intro h
    unfold storeIntMark at h
    split at h
    · rcases List.mem_cons.mp h with rfl | h
      · exact Or.inr rfl
      · exact Or.inl (List.mem_cons_of_mem _ h)
    · rcases List.mem_cons.mp h with rfl | h
      · exact Or.inl (List.mem_cons_self _ _)
      · rcases storeIntMark_mem rest new x h with h | h
        · exact Or.inl (List.mem_cons_of_mem _ h)
        · exact Or.inr h

theorem getIntMarkInfo_two_slots (m : List IntMarkInfo) (callAddr : Nat) (markType : String)
    (hsites : ∀ info ∈ m, info.exprs.length = 2) :
    (getIntMarkInfo m callAddr markType).2.exprs.length = 2 ∧
      ∀ info ∈ (getIntMarkInfo m callAddr markType).1, info.exprs.length = 2 := by
  unfold getIntMarkInfo
  cases h : lookupIntMark m callAddr with
  | some info => exact ⟨hsites info (lookupIntMark_mem m callAddr info h), hsites⟩
  | none =>
    refine ⟨rfl, ?_⟩
    intro info hinfo
    rcases List.mem_cons.mp hinfo with rfl | hinfo
    · rfl
    · exact hsites info hinfo

/-- Within two values the slots exist: with at most two values, each with an
expression, every
slot `exprs[i]` for `i < num_vals` that `markEscapeFromFloat` indexes exists
in the two slots of the site, whether `getIntMarkInfo` has just made the site
or found it; the call completes and leaves every site with two slots. -/
theorem markEscapeFromFloat_two_slots (opts : Options) (hp : Helpers)
    (intMarkMap : List IntMarkInfo) (callAddr : Nat) (markType : String)
    (mismatch : Int) (num_vals : Int) (values : List ShadowValue)
    (hsites : ∀ info ∈ intMarkMap, info.exprs.length = 2)
    (hnum : num_vals ≤ 2)
    (hvals : num_vals ≤ values.length)
    (hexpr : ∀ v ∈ values, v.expr ≠ none) :
    (∀ i : Nat, (i : Int) < num_vals →
        ∃ slot, (getIntMarkInfo intMarkMap callAddr markType).2.exprs[i]? = some slot) ∧
      ∃ intMarkMap',
        markEscapeFromFloat opts hp intMarkMap callAddr markType mismatch num_vals values =
          some intMarkMap' ∧
        ∀ info ∈ intMarkMap', info.exprs.length = 2 := by
  obtain ⟨g1, g2⟩ := getIntMarkInfo_two_slots intMarkMap callAddr markType hsites
  constructor
  · intro i hi
    have hlt : i < (getIntMarkInfo intMarkMap callAddr markType).2.exprs.length := by omega
    exact ⟨_, List.getElem?_eq_getElem hlt⟩
  · unfold markEscapeFromFloat
    by_cases hinf : opts.no_influences = true
    · simp only [hinf, ↓reduceIte]
      exact ⟨intMarkMap, rfl, hsites⟩
    · generalize hg : getIntMarkInfo intMarkMap callAddr markType = gi at g1 g2
      obtain ⟨intMarkMap1, info⟩ := gi
      simp only at g1 g2
      simp only [hinf, Bool.false_eq_true, ↓reduceIte]
      have key : ∀ info2 : IntMarkInfo, info2.exprs = info.exprs →
          ∃ intMarkMap',
            (match escapeLoop opts hp mismatch values num_vals.toNat 0 info2 with
              | none => none
              | some info3 => some (storeIntMark intMarkMap1 info3)) = some intMarkMap' ∧
            ∀ x ∈ intMarkMap', x.exprs.length = 2 := by
        intro info2 e4
        have hlen : 0 + num_vals.toNat ≤ values.length := by omega
        obtain ⟨info3, h3⟩ := escapeLoop_total opts hp mismatch values num_vals.toNat 0 info2
          hlen (Or.inr ⟨by rw [e4, g1]; omega, hexpr⟩)
        obtain ⟨_, _, _, _, c5⟩ := escapeLoop_counters opts hp mismatch values _ _ _ _ h3
        refine ⟨storeIntMark intMarkMap1 info3, by rw [h3], ?_⟩
        intro x hx
        rcases storeIntMark_mem intMarkMap1 info3 x hx with hx | rfl
        · exact g2 x hx
        · rw [c5, e4, g1]
      by_cases hn : info.nargs < num_vals
      · simp only [hn, ↓reduceIte]
        exact key _ rfl
      · simp only [hn, ↓reduceIte]
        exact key _ rfl

/-- Two values escape at a site made by the call. -/
theorem markEscapeFromFloat_two_slots_witness :
    (∀ i : Nat, (i : Int) < 2 →
        ∃ slot, (getIntMarkInfo [] 9 "compare").2.exprs[i]? = some slot) ∧
      ∃ intMarkMap',
        markEscapeFromFloat { no_influences := false, no_exprs := false, error_threshold := 5 }
            sampleHelpers [] 9 "compare" 0 2 [shadowOne, shadowOne] = some intMarkMap' ∧
          ∀ info ∈ intMarkMap', info.exprs.length = 2 :=
  markEscapeFromFloat_two_slots
    { no_influences := false, no_exprs := false, error_threshold := 5 } sampleHelpers [] 9
    "compare" 0 2 [shadowOne, shadowOne] (by simp) (by decide) (by decide) (by decide)

/-- With expression tracking on, the loop of `markEscapeFromFloat` stops as
soon as it has more rounds to run than the site has slots. -/
theorem escapeLoop_beyond_slots (opts : Options) (hp : Helpers) (mismatch : Int)
    (values : List ShadowValue) (hex : opts.no_exprs = false) :
    ∀ (left i : Nat) (info : IntMarkInfo), i ≤ info.exprs.length →
      info.exprs.length < i + left →
      escapeLoop opts hp mismatch values left i info = none
  | 0, i, info => by
    intro h0 h
    exact absurd h (by omega)
  | left + 1, i, info => by
    intro h0 h
    unfold escapeLoop
    cases h1 : escapeMerge hp mismatch values i info with
    | none => rfl
    | some info1 =>
      obtain ⟨_, _, _, _, a5⟩ := escapeMerge_counters hp mismatch values i _ _ h1
      simp only
      cases h2 : escapeGeneralize opts hp values i info1 with
      | none => rfl
      | some info2 =>
        obtain ⟨_, _, _, _, b5⟩ := escapeGeneralize_counters opts hp values i _ _ h2
        simp only
        by_cases hi : i < info.exprs.length
        · exact escapeLoop_beyond_slots opts hp mismatch values hex left (i + 1) info2
            (by rw [b5, a5]; omega) (by rw [b5, a5]; omega)
        · exfalso
          unfold escapeGeneralize at h2
          simp only [hex, Bool.false_eq_true, ↓reduceIte] at h2
          have hnone : info1.exprs[i]? = none :=
            List.getElem?_eq_none (by rw [a5]; omega)
          split at h2
          · cases h2
          · split at h2
            · cases h2
            · rw [hnone] at h2
              cases h2

/-- With expression tracking on and every site of two slots, a call of
`markEscapeFromFloat` with three values or more stops. -/
theorem markEscapeFromFloat_beyond_two (opts : Options) (hp : Helpers)
    (intMarkMap : List IntMarkInfo) (callAddr : Nat) (markType : String)
    (mismatch : Int) (num_vals : Int) (values : List ShadowValue)
    (hinf : opts.no_influences = false) (hex : opts.no_exprs = false)
    (hsites : ∀ info ∈ intMarkMap, info.exprs.length = 2)
    (hnum : 3 ≤ num_vals) :
    markEscapeFromFloat opts hp intMarkMap callAddr markType mismatch num_vals values =
      none := by
  obtain ⟨g1, _⟩ := getIntMarkInfo_two_slots intMarkMap callAddr markType hsites
  unfold markEscapeFromFloat
  generalize hg : getIntMarkInfo intMarkMap callAddr markType = gi at g1
  obtain ⟨intMarkMap1, info⟩ := gi
  simp only at g1
  simp only [hinf, Bool.false_eq_true, ↓reduceIte]
  have key : ∀ info2 : IntMarkInfo, info2.exprs = info.exprs →
      (match escapeLoop opts hp mismatch values num_vals.toNat 0 info2 with
        | none => none
        | some info3 => some (storeIntMark intMarkMap1 info3)) = none := by
    intro info2 e4
    rw [escapeLoop_beyond_slots opts hp mismatch values hex num_vals.toNat 0 info2
      (by omega) (by rw [e4, g1]; omega)]
  by_cases hn : info.nargs < num_vals
  · simp only [hn, ↓reduceIte]
    exact key _ rfl
  · simp only [hn, ↓reduceIte]
    exact key _ rfl

end Marks
/-! ## Generalising twice -/

theorem varMapLe_trans {a b c : List (List Nat)} (h1 : varMapLe a b) (h2 : varMapLe b c) :
    varMapLe a c := by
  refine ⟨?_, ?_⟩
  · intro g2 hg2
    obtain ⟨hne, g1, hg1, hsub⟩ := h2.1 g2 hg2
    obtain ⟨_, g0, hg0, hsub0⟩ := h1.1 g1 hg1
    exact ⟨hne, g0, hg0, fun x hx => hsub0 x (hsub x hx)⟩
  · intro g hg x hx
    obtain ⟨g1, hg1, hx1⟩ := h1.2 g hg x hx
    exact h2.2 g1 hg1 x hx1

theorem nodeRef_refl (a : OpASTNode) : nodeRef a a := by
  cases a with
  | Leaf v => exact Or.inl rfl
  | Branch op na args vm => exact Or.inl ⟨vm, rfl, Or.inl rfl⟩

theorem nodeRef_trans {a b c : OpASTNode} (h1 : nodeRef a b) (h2 : nodeRef b c) :
    nodeRef a c := by
  cases a with
  | Leaf v =>
    rcases h1 with rfl | rfl
    · exact h2
    · rcases h2 with rfl | rfl <;> exact Or.inr rfl
  | Branch op na args vm =>
    rcases h1 with ⟨vm1, rfl, hv1⟩ | rfl
    · rcases h2 with ⟨vm2, rfl, hv2⟩ | rfl
      · refine Or.inl ⟨vm2, rfl, ?_⟩
        rcases hv1 with rfl | hv1
        · exact hv2
        · rcases hv2 with rfl | hv2
          · exact Or.inr hv1
          · exact Or.inr (varMapLe_trans hv1 hv2)
      · exact Or.inr rfl
    · rcases h2 with h2 | h2 <;> exact Or.inr h2

theorem nodesRef_refl (h : Heap) : nodesRef h h :=
  ⟨rfl, fun _ node hn => ⟨node, hn, nodeRef_refl node⟩⟩

theorem nodesRef_trans {a b c : Heap} (h1 : nodesRef a b) (h2 : nodesRef b c) :
    nodesRef a c := by
  refine ⟨h2.1.trans h1.1, ?_⟩
  intro n node hn
  obtain ⟨node1, hn1, hle1⟩ := h1.2 n node hn
  obtain ⟨node2, hn2, hle2⟩ := h2.2 n node1 hn1
  exact ⟨node2, hn2, nodeRef_trans hle1 hle2⟩

theorem nodesRef_setNode (h : Heap) (n : Nat) (old new : OpASTNode)
    (hold : h.nodes[n]? = some old) (hle : nodeRef old new) :
    nodesRef h (h.setNode n new) := by
  refine ⟨rfl, ?_⟩
  intro m node hm
  by_cases hmn : n = m
  · subst hmn
    rw [hold] at hm
    cases hm
    exact ⟨new, setNode_get h n _ new hold, hle⟩
  · refine ⟨node, ?_, nodeRef_refl node⟩
    simp [Heap.setNode, List.getElem?_set, hmn, hm]

theorem setNode_same (h : Heap) (n : Nat) (node : OpASTNode)
    (hn : h.nodes[n]? = some node) : h.setNode n node = h := by
  have hlt := getElem?_nodes_lt hn
  have hnodes : h.nodes.set n node = h.nodes := by
    apply List.ext_getElem?
    intro m
    by_cases hmn : n = m
    · subst hmn
      simp [List.getElem?_set, hlt, hn]
    · simp [List.getElem?_set, hmn]
  unfold Heap.setNode
  rw [hnodes]

theorem generalizeVarMapWith_check (m0 : List (List Nat)) (tbl : List (Nat × Nat))
    (r : List (List Nat)) (hr : generalizeVarMapWith m0 tbl = some r) :
    checkOpVarMapValueLookupTableMatch m0 tbl = some () := by
  unfold generalizeVarMapWith at hr
  cases hc : checkOpVarMapValueLookupTableMatch m0 tbl with
  | none => simp [hc] at hr
  | some u => rfl

theorem generalizeVarMapWith_varMapLe (m0 : List (List Nat)) (tbl : List (Nat × Nat))
    (r : List (List Nat)) (hr : generalizeVarMapWith m0 tbl = some r) : varMapLe m0 r := by
  obtain ⟨s1, s2, _⟩ := generalizeVarMapWith_spec m0 tbl r hr
  refine ⟨?_, ?_⟩
  · intro g' hg'
    obtain ⟨hne, g, hg, d, rfl⟩ := s1 g' hg'
    exact ⟨hne, g, hg, fun x hx => (List.mem_filter.mp hx).1⟩
  · intro g hg x hx
    obtain ⟨g', hg', hall⟩ := s2 g hg x hx
    exact ⟨g', hg', hall x hx rfl⟩

theorem StableVarMap_of_varMapLe (tbl : List (Nat × Nat)) (vm vm' : List (List Nat))
    (hs : StableVarMap tbl vm) (hle : varMapLe vm vm') : StableVarMap tbl vm' := by
  obtain ⟨hc, _, hu⟩ := hs
  obtain ⟨c1, c2⟩ := (check_some_iff vm tbl).mp hc
  refine ⟨(check_some_iff vm' tbl).mpr ⟨?_, ?_⟩, fun g' hg' => (hle.1 g' hg').1, ?_⟩
  · intro g' hg' x hx
    obtain ⟨_, g, hg, hsub⟩ := hle.1 g' hg'
    exact c1 g hg x (hsub x hx)
  · intro e he
    obtain ⟨g, hg, hx⟩ := (inOpVarMap_iff vm e.1).mp (c2 e he)
    obtain ⟨g', hg', hx'⟩ := hle.2 g hg e.1 hx
    exact (inOpVarMap_iff vm' e.1).mpr ⟨g', hg', hx'⟩
  · intro g' hg' x hx y hy
    obtain ⟨_, g, hg, hsub⟩ := hle.1 g' hg'
    exact hu g hg x (hsub x hx) y (hsub y hy)

theorem generalizeVarMapWith_stable (m0 : List (List Nat)) (tbl : List (Nat × Nat))
    (r : List (List Nat)) (hr : generalizeVarMapWith m0 tbl = some r) :
    StableVarMap tbl r := by
  have hc := generalizeVarMapWith_check m0 tbl r hr
  obtain ⟨c1, c2⟩ := (check_some_iff m0 tbl).mp hc
  have hle := generalizeVarMapWith_varMapLe m0 tbl r hr
  obtain ⟨s1, _, _⟩ := generalizeVarMapWith_spec m0 tbl r hr
  refine ⟨(check_some_iff r tbl).mpr ⟨?_, ?_⟩, fun g' hg' => (hle.1 g' hg').1, ?_⟩
  · intro g' hg' x hx
    obtain ⟨_, g, hg, hsub⟩ := hle.1 g' hg'
    exact c1 g hg x (hsub x hx)
  · intro e he
    obtain ⟨g, hg, hx⟩ := (inOpVarMap_iff m0 e.1).mp (c2 e he)
    obtain ⟨g', hg', hx'⟩ := hle.2 g hg e.1 hx
    exact (inOpVarMap_iff r e.1).mpr ⟨g', hg', hx'⟩
  · intro g' hg' x hx y hy
    obtain ⟨_, g, _, d, rfl⟩ := s1 g' hg'
    have h1 := (List.mem_filter.mp hx).2
    have h2 := (List.mem_filter.mp hy).2
    simp only [beq_iff_eq] at h1 h2
    rw [h1, h2]

theorem GroupSplit.uniform {lk : Nat → Option Nat} {g kept : List Nat}
    {grp : List (Nat × List Nat)} (hgs : GroupSplit lk g kept grp)
    (hu : ∀ x ∈ g, ∀ y ∈ g, lk x = lk y) : kept = g ∧ grp = [] := by
  obtain ⟨d0, hinv, hne⟩ := hgs
  obtain ⟨x, hx⟩ := List.exists_mem_of_ne_nil kept hne
  rw [hinv.kept_eq] at hx
  obtain ⟨hxg, hxd⟩ := List.mem_filter.mp hx
  simp only [beq_iff_eq] at hxd
  constructor
  · rw [hinv.kept_eq]
    apply List.filter_eq_self.mpr
    intro y hy
    simp only [beq_iff_eq]
    rw [hu y hy x hxg, hxd]
  · cases hgrp : grp with
    | nil => rfl
    | cons p rest =>
      obtain ⟨d, gg⟩ := p
      have h0 : grp[0]? = some (d, gg) := by rw [hgrp]; simp
      obtain ⟨hd, hgg, hggne⟩ := hinv.grp_eq 0 d gg h0
      obtain ⟨y, hy⟩ := List.exists_mem_of_ne_nil gg hggne
      rw [hgg] at hy
      obtain ⟨hyg, hyd⟩ := List.mem_filter.mp hy
      simp only [beq_iff_eq] at hyd
      rw [hu y hyg x hxg, hxd] at hyd
      exact absurd (Option.some.inj hyd).symm hd

theorem forall2_groupSplit_uniform (lk : Nat → Option Nat) (U : List (List Nat))
    (res : List (List Nat × List (Nat × List Nat)))
    (hall : List.Forall₂ (fun g r => GroupSplit lk g r.1 r.2) U res)
    (hu : ∀ g ∈ U, ∀ x ∈ g, ∀ y ∈ g, lk x = lk y) :
    res.map Prod.fst = U ∧ (res.map (fun r => r.2.map Prod.snd)).flatten = [] := by
  induction hall with
  | nil => exact ⟨rfl, rfl⟩
  | @cons g r U res hgs _ ih =>
    obtain ⟨i1, i2⟩ := ih (fun g' hg' => hu g' (List.mem_cons_of_mem g hg'))
    obtain ⟨k1, k2⟩ := hgs.uniform (hu g (List.mem_cons_self g U))
    constructor
    · simp only [List.map_cons, k1, i1]
    · simp only [List.map_cons, List.flatten_cons, k2, i2, List.map_nil, List.append_nil]

/-- A stable variable map is returned as it is. -/
theorem generalizeVarMapWith_fixed (tbl : List (Nat × Nat)) (vm : List (List Nat))
    (hs : StableVarMap tbl vm) : generalizeVarMapWith vm tbl = some vm := by
  obtain ⟨hc, hne, hu⟩ := hs
  obtain ⟨c1, _⟩ := (check_some_iff vm tbl).mp hc
  obtain ⟨res, hrun, hall⟩ := groupLoop_inv tbl vm [] []
    (fun g hg => ⟨hne g hg, fun x hx => Option.isSome_iff_exists.mp (c1 g hg x hx)⟩)
  obtain ⟨r1, r2⟩ := forall2_groupSplit_uniform (HT_lookup tbl) vm res hall hu
  unfold generalizeVarMapWith
  rw [hc]
  simp only [List.nil_append, List.append_nil, List.length_nil, r1, r2] at hrun
  exact hrun

theorem opLookupTable_ops (h h' : Heap) (hops : h'.ops = h.ops) :
    ∀ (l : List ValVarMapEntry) (acc : List (Nat × Nat)),
      opLookupTable h' l acc = opLookupTable h l acc
  | [], acc => rfl
  | e :: rest, acc => by
    unfold opLookupTable
    have hk : convertLeafKey h' e.key = convertLeafKey h e.key := by
      unfold convertLeafKey
      rw [hops]
    rw [hk]
    cases convertLeafKey h e.key with
    | none => rfl
    | some key => exact opLookupTable_ops h h' hops rest _

mutual
theorem generalizeAST_ref (h : Heap) (n : Nat) :
    ∀ (v : ValueASTNode) (h' : Heap), generalizeAST h n v = some h' → nodesRef h h'
  | .mk val op args vm => by
    intro h' hg
    unfold generalizeAST at hg
    cases hn : h.nodes[n]? with
    | none => simp [hn] at hg
    | some node =>
      rw [hn] at hg
      cases node with
      | Leaf c =>
        cases c with
        | none =>
          simp only [Option.some.injEq] at hg
          subst hg
          exact nodesRef_refl h
        | some c =>
          simp only at hg
          split at hg
          · simp only [Option.some.injEq] at hg
            subst hg
            exact nodesRef_refl h
          · simp only [Option.some.injEq] at hg
            subst hg
            exact nodesRef_setNode h n _ _ hn (Or.inr rfl)
      | Branch bop na bargs bvm =>
        simp only at hg
        split at hg
        · simp only [Option.some.injEq] at hg
          subst hg
          exact nodesRef_setNode h n _ _ hn (Or.inr rfl)
        · cases hvm : generalizeVarMap h bvm vm with
          | none => simp [hvm] at hg
          | some vm' =>
            rw [hvm] at hg
            simp only at hg
            have hle : varMapLe bvm vm' := by
              unfold generalizeVarMap at hvm
              cases htbl : opLookupTable h vm [] with
              | none => simp [htbl] at hvm
              | some tbl =>
                rw [htbl] at hvm
                exact generalizeVarMapWith_varMapLe bvm tbl vm' hvm
            have hle1 : nodesRef h (h.setNode n (.Branch bop na bargs vm')) :=
              nodesRef_setNode h n _ _ hn (Or.inl ⟨vm', rfl, Or.inr hle⟩)
            exact nodesRef_trans hle1 (generalizeArgs_ref _ n 0 args h' hg)
theorem generalizeArgs_ref (h : Heap) (n : Nat) (i : Nat) :
    ∀ (args : List ValueASTNode) (h' : Heap), generalizeArgs h n i args = some h' →
      nodesRef h h'
  | [] => by
    intro h' hg
    unfold generalizeArgs at hg
    simp only [Option.some.injEq] at hg
    subst hg
    exact nodesRef_refl h
  | a :: rest => by
    intro h' hg
    unfold generalizeArgs at hg
    cases hn : h.nodes[n]? with
    | none => simp [hn] at hg
    | some node =>
      rw [hn] at hg
      cases node with
      | Leaf c => simp at hg
      | Branch bop na bargs bvm =>
        simp only at hg
        cases hb : bargs[i]? with
        | none => simp [hb] at hg
        | some child =>
          rw [hb] at hg
          simp only at hg
          cases hc : generalizeAST h child a with
          | none => simp [hc] at hg
          | some h1 =>
            rw [hc] at hg
            simp only at hg
            exact nodesRef_trans (generalizeAST_ref h child a h1 hc)
              (generalizeArgs_ref h1 n (i + 1) rest h' hg)
end

mutual
theorem settled_mono (h h' : Heap) (href : nodesRef h h') (n : Nat) :
    ∀ v : ValueASTNode, settled h n v → settled h' n v
  | .mk val op args vm => by
    intro hf
    unfold settled at hf ⊢
    cases hn : h.nodes[n]? with
    | none => simp [hn] at hf
    | some node =>
      obtain ⟨node', hn', hle'⟩ := href.2 n node hn
      rw [hn']
      rw [hn] at hf
      cases node with
      | Leaf c =>
        rcases hle' with rfl | rfl
        · cases c with
          | none => trivial
          | some c => exact hf
        · trivial
      | Branch bop na bargs bvm =>
        rcases hle' with ⟨vm', rfl, hv⟩ | rfl
        · obtain ⟨hop, ⟨tbl, htbl, hst⟩, hargs⟩ := hf
          refine ⟨hop, ⟨tbl, ?_, ?_⟩, settledArgs_mono h h' href bargs 0 args hargs⟩
          · rw [opLookupTable_ops h h' href.1]
            exact htbl
          · rcases hv with rfl | hv
            · exact hst
            · exact StableVarMap_of_varMapLe tbl bvm vm' hst hv
        · trivial
theorem settledArgs_mono (h h' : Heap) (href : nodesRef h h') (bargs : List Nat) (i : Nat) :
    ∀ args : List ValueASTNode, settledArgs h bargs i args → settledArgs h' bargs i args
  | [] => by
    intro _
    unfold settledArgs
    trivial
  | a :: rest => by
    intro hf
    unfold settledArgs at hf ⊢
    refine ⟨?_, settledArgs_mono h h' href bargs (i + 1) rest hf.2⟩
    cases hb : bargs[i]? with
    | none => simp [hb] at hf
    | some child =>
      have hf1 := hf.1
      simp only [hb] at hf1 ⊢
      exact settled_mono h h' href child a hf1
end

mutual
theorem generalizeAST_settled (h : Heap) (n : Nat) :
    ∀ (v : ValueASTNode) (h' : Heap), generalizeAST h n v = some h' → settled h' n v
  | .mk val op args vm => by
    intro h' hg
    unfold generalizeAST at hg
    cases hn : h.nodes[n]? with
    | none => simp [hn] at hg
    | some node =>
      rw [hn] at hg
      cases node with
      | Leaf c =>
        cases c with
        | none =>
          simp only [Option.some.injEq] at hg
          subst hg
          unfold settled
          rw [hn]
          trivial
        | some c =>
          simp only at hg
          split at hg
          · next heq =>
            simp only [Option.some.injEq] at hg
            subst hg
            unfold settled
            rw [hn]
            exact heq
          · simp only [Option.some.injEq] at hg
            subst hg
            unfold settled
            rw [setNode_get h n _ _ hn]
            trivial
      | Branch bop na bargs bvm =>
        simp only at hg
        split at hg
        · simp only [Option.some.injEq] at hg
          subst hg
          unfold settled
          rw [setNode_get h n _ _ hn]
          trivial
        · next hop =>
          have hop' : op = bop := by simpa using hop
          cases hvm : generalizeVarMap h bvm vm with
          | none => simp [hvm] at hg
          | some vm' =>
            rw [hvm] at hg
            simp only at hg
            unfold generalizeVarMap at hvm
            cases htbl : opLookupTable h vm [] with
            | none => simp [htbl] at hvm
            | some tbl =>
              rw [htbl] at hvm
              simp only at hvm
              have hst := generalizeVarMapWith_stable bvm tbl vm' hvm
              have hn1 := setNode_get h n _ (.Branch bop na bargs vm') hn
              have href := generalizeArgs_ref _ n 0 args h' hg
              have hargs := generalizeArgs_settled _ n 0 args h' hg bop na bargs vm' hn1
              obtain ⟨node', hn', hle'⟩ := href.2 n _ hn1
              unfold settled
              rw [hn']
              rcases hle' with ⟨vm2, rfl, hv⟩ | rfl
              · refine ⟨hop', ⟨tbl, ?_, ?_⟩, hargs⟩
                · rw [opLookupTable_ops h h' (show h'.ops = h.ops from href.1)]
                  exact htbl
                · rcases hv with rfl | hv
                  · exact hst
                  · exact StableVarMap_of_varMapLe tbl vm' vm2 hst hv
              · trivial
theorem generalizeArgs_settled (h : Heap) (n : Nat) (i : Nat) :
    ∀ (args : List ValueASTNode) (h' : Heap), generalizeArgs h n i args = some h' →
      ∀ bop na bargs vm, h.nodes[n]? = some (.Branch bop na bargs vm) →
      settledArgs h' bargs i args
  | [] => by
    intro h' _ bop na bargs vm _
    unfold settledArgs
    trivial
  | a :: rest => by
    intro h' hg bop na bargs vm hn
    unfold generalizeArgs at hg
    rw [hn] at hg
    simp only at hg
    cases hb : bargs[i]? with
    | none => simp [hb] at hg
    | some child =>
      rw [hb] at hg
      simp only at hg
      cases hc : generalizeAST h child a with
      | none => simp [hc] at hg
      | some h1 =>
        rw [hc] at hg
        simp only at hg
        have hs1 := generalizeAST_settled h child a h1 hc
        have href1 := generalizeAST_ref h child a h1 hc
        have href2 := generalizeArgs_ref h1 n (i + 1) rest h' hg
        unfold settledArgs
        simp only [hb]
        refine ⟨settled_mono h1 h' href2 child a hs1, ?_⟩
        obtain ⟨node1, hn1, hnle⟩ := href1.2 n _ hn
        rcases hnle with ⟨vm1, rfl, _⟩ | rfl
        · exact generalizeArgs_settled h1 n (i + 1) rest h' hg bop na bargs vm1 hn1
        · cases rest with
          | nil =>
            unfold settledArgs
            trivial
          | cons b rest' =>
            unfold generalizeArgs at hg
            rw [hn1] at hg
            simp at hg
end

mutual
theorem settled_fixed (h : Heap) (n : Nat) :
    ∀ v : ValueASTNode, settled h n v → generalizeAST h n v = some h
  | .mk val op args vm => by
    intro hs
    unfold settled at hs
    unfold generalizeAST
    cases hn : h.nodes[n]? with
    | none => simp [hn] at hs
    | some node =>
      rw [hn] at hs
      cases node with
      | Leaf c =>
        cases c with
        | none => rfl
        | some c =>
          simp only at hs ⊢
          rw [if_pos hs]
      | Branch bop na bargs bvm =>
        obtain ⟨hop, ⟨tbl, htbl, hst⟩, hargs⟩ := hs
        have hvm : generalizeVarMap h bvm vm = some bvm := by
          unfold generalizeVarMap
          rw [htbl]
          exact generalizeVarMapWith_fixed tbl bvm hst
        simp only [hop, ne_eq, not_true_eq_false, if_false, hvm]
        rw [setNode_same h n _ hn]
        exact settledArgs_fixed h n 0 args bop na bargs bvm hn hargs
theorem settledArgs_fixed (h : Heap) (n : Nat) (i : Nat) :
    ∀ (args : List ValueASTNode) (bop na : Nat) (bargs : List Nat) (vm : List (List Nat)),
      h.nodes[n]? = some (.Branch bop na bargs vm) → settledArgs h bargs i args →
      generalizeArgs h n i args = some h
  | [] => by
    intro _ _ _ _ _ _
    unfold generalizeArgs
    rfl
  | a :: rest => by
    intro bop na bargs vm hn hs
    unfold settledArgs at hs
    unfold generalizeArgs
    rw [hn]
    simp only
    cases hb : bargs[i]? with
    | none => simp [hb] at hs
    | some child =>
      have hs1 := hs.1
      simp only [hb] at hs1 ⊢
      rw [settled_fixed h child a hs1]
      exact settledArgs_fixed h n (i + 1) rest bop na bargs vm hn hs.2
end

/-- C30: generalising a site expression against a trace value a second time
changes nothing. When `generalizeAST` completes on the expression at address
`n` and the trace value `v` (which it does when the variable maps of `v` pass
the invariant check of `generalizeVarMap`), it completes again on the result
and returns the very same heap: every node, so the tree, the constants and
the groups of every variable map, and every op are as after the first
call. -/
theorem generalizeAST_idempotent (h h1 : Heap) (n : Nat) (v : ValueASTNode)
    (hrun : generalizeAST h n v = some h1) :
    generalizeAST h1 n v = some h1 :=
  settled_fixed h1 n v (generalizeAST_settled h n v h1 hrun)

/-- The site of `x + y` after `x + y` on 4 and 5, generalised against
`x + y` on 10 and 20: the two constants become variables, and a second
generalisation returns the same heap. -/
theorem generalizeAST_idempotent_witness :
    generalizeAST ((updateAST staleHeap 0 addCall1).getD staleHeap) 3 addCall10 =
        some ((generalizeAST ((updateAST staleHeap 0 addCall1).getD staleHeap) 3
          addCall10).getD staleHeap) ∧
      ((generalizeAST ((updateAST staleHeap 0 addCall1).getD staleHeap) 3
          addCall10).getD staleHeap).nodes[0]? = some (.Leaf none) ∧
      generalizeAST
          ((generalizeAST ((updateAST staleHeap 0 addCall1).getD staleHeap) 3
            addCall10).getD staleHeap) 3 addCall10 =
        some ((generalizeAST ((updateAST staleHeap 0 addCall1).getD staleHeap) 3
          addCall10).getD staleHeap) :=
  ⟨by decide, by decide,
    generalizeAST_idempotent ((updateAST staleHeap 0 addCall1).getD staleHeap)
      ((generalizeAST ((updateAST staleHeap 0 addCall1).getD staleHeap) 3
        addCall10).getD staleHeap) 3 addCall10 (by decide)⟩

end Herbgrind
